import Mathlib

/-!
Verification development for the `adpn-cli` staging transfer engine.

The definitions below are a shallow embedding of the Python sources:

* `src/myFTPStaging.py` — the `myFTPStaging` class: a protocol-uniform
  gateway over FTP/SFTP used to mirror directory trees between a local
  working directory and a remote staging server.  The embedding models the
  FTP backend (`is_sftp()` returning `False`): the SFTP branch of every
  method performs the same filesystem effect through a different client
  call, so the branch chosen does not change any property proved here.
* `src/adpn-stage-content.py` — the `ADPNStagingArea` class: credential
  resolution and `open_connection`.

Filesystems (local and remote) are modelled as finite trees of named
entries; the process-global current working directories (local `os.getcwd`
and the FTP connection's remote working directory) are paths into those
trees.  Machine-level I/O is replaced by explicit state passing; every
mutating client call (`RETR`, `STOR`, `MKD`, `RMD`, `DELE`, `os.mkdir`,
local file writes) is additionally recorded in an effect log so that
dry-run purity and byte-transfer claims are statable.  Python exceptions
become explicit error results that carry the world at raise time, since
the Python code has no `finally` blocks restoring state.
-/

set_option maxHeartbeats 1000000
set_option maxRecDepth 4000

/-- A filesystem node: a plain file with its byte size, or a directory with
an `os.stat` size of its own plus an ordered list of named children
(the listing order of `os.listdir` / `ftp.nlst`). -/
inductive FSNode where
  | file (size : Nat)
  | dir (size : Nat) (entries : List (String × FSNode))

/-- First entry with the given name, as a filesystem lookup would resolve it. -/
def lookupEntry : List (String × FSNode) → String → Option FSNode
  | [], _ => none
  | (k, v) :: es, name => if k = name then some v else lookupEntry es name

/-- Replace the first entry with the given name. -/
def setEntry : List (String × FSNode) → String → FSNode → List (String × FSNode)
  | [], _, _ => []
  | (k, v) :: es, name, n => if k = name then (k, n) :: es else (k, v) :: setEntry es name n

/-- Remove the first entry with the given name. -/
def removeEntry : List (String × FSNode) → String → List (String × FSNode)
  | [], _ => []
  | (k, v) :: es, name => if k = name then es else (k, v) :: removeEntry es name

/-- Resolve an absolute path (list of components) in a filesystem tree. -/
def fsLookup : FSNode → List String → Option FSNode
  | n, [] => some n
  | FSNode.file _, _ :: _ => none
  | FSNode.dir _ es, k :: p =>
    match lookupEntry es k with
    | some c => fsLookup c p
    | none => none

/-- Write (create or overwrite) a plain file of the given size at a path.
Fails (`none`) when the parent chain does not resolve to directories or the
target name is an existing directory — the cases where `open(file, 'wb')`
or a `STOR` raises. -/
def fsStorAt : FSNode → List String → Nat → Option FSNode
  | _, [], _ => none
  | FSNode.file _, _ :: _, _ => none
  | FSNode.dir dsz es, [name], sz =>
    match lookupEntry es name with
    | some (FSNode.dir _ _) => none
    | some (FSNode.file _) => some (FSNode.dir dsz (setEntry es name (FSNode.file sz)))
    | none => some (FSNode.dir dsz (es ++ [(name, FSNode.file sz)]))
  | FSNode.dir dsz es, k :: p :: rest, sz =>
    match lookupEntry es k with
    | some c =>
      match fsStorAt c (p :: rest) sz with
      | some c2 => some (FSNode.dir dsz (setEntry es k c2))
      | none => none
    | none => none

/-- Create a fresh empty directory at a path: the parent must exist and the
name must be free, as for `os.mkdir` / `MKD`. -/
def fsMkdirAt : FSNode → List String → Option FSNode
  | _, [] => none
  | FSNode.file _, _ :: _ => none
  | FSNode.dir dsz es, [name] =>
    match lookupEntry es name with
    | some _ => none
    | none => some (FSNode.dir dsz (es ++ [(name, FSNode.dir 0 [])]))
  | FSNode.dir dsz es, k :: p :: rest =>
    match lookupEntry es k with
    | some c =>
      match fsMkdirAt c (p :: rest) with
      | some c2 => some (FSNode.dir dsz (setEntry es k c2))
      | none => none
    | none => none

/-- Delete the plain file at a path (`DELE` semantics: the target must be an
existing plain file). -/
def fsDeleteFileAt : FSNode → List String → Option FSNode
  | _, [] => none
  | FSNode.file _, _ :: _ => none
  | FSNode.dir dsz es, [name] =>
    match lookupEntry es name with
    | some (FSNode.file _) => some (FSNode.dir dsz (removeEntry es name))
    | _ => none
  | FSNode.dir dsz es, k :: p :: rest =>
    match lookupEntry es k with
    | some c =>
      match fsDeleteFileAt c (p :: rest) with
      | some c2 => some (FSNode.dir dsz (setEntry es k c2))
      | none => none
    | none => none

/-- Remove the directory at a path (`RMD` semantics: the target must be an
existing, empty directory). -/
def fsRmdirAt : FSNode → List String → Option FSNode
  | _, [] => none
  | FSNode.file _, _ :: _ => none
  | FSNode.dir dsz es, [name] =>
    match lookupEntry es name with
    | some (FSNode.dir _ []) => some (FSNode.dir dsz (removeEntry es name))
    | _ => none
  | FSNode.dir dsz es, k :: p :: rest =>
    match lookupEntry es k with
    | some c =>
      match fsRmdirAt c (p :: rest) with
      | some c2 => some (FSNode.dir dsz (setEntry es k c2))
      | none => none
    | none => none

/-- A `chdir` argument: either a child name relative to the current
directory, or an absolute path (the saved `lpwd`/`rpwd` strings). -/
inductive PathRef where
  | child (name : String)
  | abs (path : List String)

/-- Resolve a `PathRef` against a current working directory. -/
def resolveRef (cwd : List String) : PathRef → List String
  | PathRef.child name => cwd ++ [name]
  | PathRef.abs p => p

/-- Render a path the way `pwd()`/`getcwd()` does: absolute, '/'-separated. -/
def pathToString (p : List String) : String :=
  "/" ++ String.intercalate "/" p

/-- Render a `PathRef` the way it appears as the string argument in Python. -/
def renderRef : PathRef → String
  | PathRef.child name => name
  | PathRef.abs p => pathToString p

/-- Connection identity used for URL synthesis: `myFTPStaging.url()` builds
`protocol://[user@]host` + remote pwd.  `user = none` models a falsy
(`None`/empty) `self.user`. -/
structure ConnInfo where
  protocol : String
  user : Option String
  host : String

/-- Models `myFTPStaging.url_host`. -/
def url_host (P : ConnInfo) : String :=
  match P.user with
  | some u => u ++ "@" ++ P.host
  | none => P.host

/-- The whole mutable state the engine touches: both filesystem trees, both
current working directories, and the two behaviour flags of the
`myFTPStaging` instance. -/
structure World where
  localFS : FSNode
  localCwd : List String
  remoteFS : FSNode
  remoteCwd : List String
  dry_run : Bool
  skip_download : Bool

/-- Models `myFTPStaging.url()`: protocol://host + current remote path. -/
def url (P : ConnInfo) (w : World) : String :=
  P.protocol ++ "://" ++ url_host P ++ pathToString w.remoteCwd

/-- Python exceptions that can escape the engine, abstracted by kind.
`fnf` is `FileNotFoundError` (payload: the filename / synthesized URL it
carries); `errorPerm` covers `ftplib.error_perm`; `notADirectory` is
`NotADirectoryError`; `osError` covers other uncaught `OSError`s;
`fuelOut` marks exhaustion of the recursion bound of the model. -/
inductive Err where
  | fnf (payload : String)
  | errorPerm
  | notADirectory
  | osError
  | fuelOut
deriving DecidableEq, Repr

/-- Notification events, as passed to the `notification` callback. -/
inductive Event where
  | chdirEv (lpwd rpwd : List String)
  | downloadedEv (f : String)
  | uploadedEv (f : String)
  | excludedEv (f : String)
  | remove_itemEv (f : String)
  | remove_directoryitemEv (f : String)
deriving DecidableEq, Repr

/-- Mutating client calls, recorded so dry-run purity and transfer-volume
claims are statable.  Non-mutating calls (`cwd`, `pwd`, `SIZE`, listings)
are not logged. -/
inductive Effect where
  | retr (remotePath : List String)
  | stor (remotePath : List String)
  | mkdirRemote (p : List String)
  | rmdirRemote (p : List String)
  | deleteRemote (p : List String)
  | mkdirLocal (p : List String)
  | writeLocal (p : List String)
deriving DecidableEq, Repr

/-- Observable trace of one engine call: emitted events (with their level),
the mutating-effect log, and the arguments of the recursive mirror calls
made (used to reason about which children the walk descends into). -/
structure Trace where
  events : List (Nat × Event)
  effects : List Effect
  calls : List String

def Trace.nil : Trace := ⟨[], [], []⟩

def Trace.app (a b : Trace) : Trace :=
  ⟨a.events ++ b.events, a.effects ++ b.effects, a.calls ++ b.calls⟩

def Trace.ofEffs (e : List Effect) : Trace := ⟨[], e, []⟩

def Trace.ofEvent (lv : Nat) (ev : Event) : Trace := ⟨[(lv, ev)], [], []⟩

def Trace.ofCall (f : String) : Trace := ⟨[], [], [f]⟩

/-- Result of a recursive mirror call: normal return, or a propagating
exception together with the world at raise time (the Python code never
rolls state back on exceptions). -/
inductive Res where
  | ok (w : World) (tr : Trace)
  | err (e : Err) (w : World) (tr : Trace)

/-- Result of one primitive step (an operation returning no value). -/
inductive StepRes where
  | ok (w : World) (effs : List Effect)
  | err (e : Err) (w : World) (effs : List Effect)

/-- Result of `set_remotelocation`: the previous remote directory on success. -/
inductive RLRes where
  | ok (last : List String) (w : World) (effs : List Effect)
  | err (e : Err) (w : World) (effs : List Effect)

/-- Result of `set_location`: the previous `(local, remote)` pair on success. -/
inductive LocRes where
  | ok (llast rlast : List String) (w : World) (effs : List Effect)
  | err (e : Err) (w : World) (effs : List Effect)

/-- Models `myFTPStaging.get_file_size` for the FTP backend: `ftp.size(file)`
resolved against the remote working directory.  A directory or missing
entry raises `error_perm`, which the method swallows, returning `None`. -/
def get_file_size (w : World) (file : String) : Option Nat :=
  match fsLookup w.remoteFS (w.remoteCwd ++ [file]) with
  | some (FSNode.file sz) => some sz
  | _ => none

/-- Models `myFTPStaging.is_directory` for the FTP backend:
`'.' == file or self.get_file_size(file) is None`. -/
def is_directory (w : World) (file : String) : Bool :=
  (file = ".") || (get_file_size w file).isNone

/-- Models `os.stat(file).st_size` in the local working directory: `none`
means `os.stat` raises `FileNotFoundError`. -/
def os_stat_size (w : World) (file : String) : Option Nat :=
  match fsLookup w.localFS (w.localCwd ++ [file]) with
  | some (FSNode.file sz) => some sz
  | some (FSNode.dir sz _) => some sz
  | none => none

/-- Models `os.path.isfile(file)` in the local working directory. -/
def os_path_isfile (w : World) (file : String) : Bool :=
  match fsLookup w.localFS (w.localCwd ++ [file]) with
  | some (FSNode.file _) => true
  | _ => false

/-- Models `os.path.isdir(file)` in the local working directory. -/
def os_path_isdir (w : World) (file : String) : Bool :=
  match fsLookup w.localFS (w.localCwd ++ [file]) with
  | some (FSNode.dir _ _) => true
  | _ => false

/-- Models `myFTPStaging.test_matched`: unless `skip_download` is set,
compare the size the remote server reports for `file` with
`os.stat(file).st_size` (raising `FileNotFoundError` when the local file is
missing); with `skip_download` set, report a match unconditionally. -/
def test_matched (w : World) (file : String) : Except Err Bool :=
  if !w.skip_download then
    match os_stat_size w file with
    | some lsz => Except.ok (decide (get_file_size w file = some lsz))
    | none => Except.error (Err.fnf file)
  else
    Except.ok true

/-- Models `myFTPStaging.remove_item`: a no-op under dry-run, otherwise
`ftp.delete(file)` (`ftp.remove` on the SFTP branch — same effect). -/
def remove_item (w : World) (file : String) : StepRes :=
  if w.dry_run then StepRes.ok w []
  else
    match fsDeleteFileAt w.remoteFS (w.remoteCwd ++ [file]) with
    | some fs2 => StepRes.ok { w with remoteFS := fs2 } [Effect.deleteRemote (w.remoteCwd ++ [file])]
    | none => StepRes.err Err.errorPerm w []

/-- Models `myFTPStaging.new_directoryitem`: a no-op under dry-run, otherwise
`ftp.mkd(dir)` (`ftp.mkdir` on the SFTP branch — same effect). -/
def new_directoryitem (w : World) (dir : PathRef) : StepRes :=
  if w.dry_run then StepRes.ok w []
  else
    match fsMkdirAt w.remoteFS (resolveRef w.remoteCwd dir) with
    | some fs2 => StepRes.ok { w with remoteFS := fs2 } [Effect.mkdirRemote (resolveRef w.remoteCwd dir)]
    | none => StepRes.err Err.errorPerm w []

/-- Models `myFTPStaging.remove_directoryitem`: a no-op under dry-run,
otherwise `ftp.rmd(dir)`, which raises `error_perm` when the directory is
missing or not empty. -/
def remove_directoryitem (w : World) (dir : String) : StepRes :=
  if w.dry_run then StepRes.ok w []
  else
    match fsRmdirAt w.remoteFS (w.remoteCwd ++ [dir]) with
    | some fs2 => StepRes.ok { w with remoteFS := fs2 } [Effect.rmdirRemote (w.remoteCwd ++ [dir])]
    | none => StepRes.err Err.errorPerm w []

/-- Models `os.chdir` on the local side: entering a missing path raises
`FileNotFoundError`, entering a plain file raises `NotADirectoryError`. -/
def localChdir (w : World) (r : PathRef) : Except Err World :=
  match fsLookup w.localFS (resolveRef w.localCwd r) with
  | some (FSNode.dir _ _) => Except.ok { w with localCwd := resolveRef w.localCwd r }
  | some (FSNode.file _) => Except.error Err.notADirectory
  | none => Except.error (Err.fnf (renderRef r))

/-- Models the remote `chdir`/`cwd` probe: `ftplib` raises `error_perm` for
both a missing target and a non-directory, and `set_remotelocation` catches
either, so success is all that is distinguished. -/
def remoteChdir (w : World) (r : PathRef) : Option World :=
  match fsLookup w.remoteFS (resolveRef w.remoteCwd r) with
  | some (FSNode.dir _ _) => some { w with remoteCwd := resolveRef w.remoteCwd r }
  | _ => none

/-- Models `os.mkdir` in the local working directory. -/
def os_mkdir (w : World) (r : PathRef) : StepRes :=
  match fsMkdirAt w.localFS (resolveRef w.localCwd r) with
  | some fs2 => StepRes.ok { w with localFS := fs2 } [Effect.mkdirLocal (resolveRef w.localCwd r)]
  | none => StepRes.err Err.osError w []

/-- Models the recursive call `self.set_remotelocation(dir, make=False)` made
after creating the directory: probe `chdir` once more and, on failure, raise
`FileNotFoundError` carrying the synthesized URL `url() + "/" + dir`.
(The `make=False` body of `set_remotelocation` reduces to exactly this.) -/
def set_remotelocation_retry (P : ConnInfo) (w : World) (dir : PathRef) : RLRes :=
  match remoteChdir w dir with
  | some w2 => RLRes.ok w.remoteCwd w2 []
  | none => RLRes.err (Err.fnf (url P w ++ "/" ++ renderRef dir)) w []

/-- Models `myFTPStaging.set_remotelocation`: remember the previous remote
directory, probe `chdir dir` (catching `error_perm`/`FileNotFoundError`);
when the probe fails, create the directory and retry only when
`not dry_run and make`, otherwise raise `FileNotFoundError` whose payload is
the synthesized URL.  Returns the previous directory on success. -/
def set_remotelocation (P : ConnInfo) (w : World) (dir : PathRef) (make : Bool) : RLRes :=
  let last := w.remoteCwd
  match remoteChdir w dir with
  | some w2 => RLRes.ok last w2 []
  | none =>
    if !w.dry_run && make then
      match new_directoryitem w dir with
      | StepRes.err e w1 effs1 => RLRes.err e w1 effs1
      | StepRes.ok w1 effs1 =>
        match set_remotelocation_retry P w1 dir with
        | RLRes.ok _ w2 effs2 => RLRes.ok last w2 (effs1 ++ effs2)
        | RLRes.err e w2 effs2 => RLRes.err e w2 (effs1 ++ effs2)
    else
      RLRes.err (Err.fnf (url P w ++ "/" ++ renderRef dir)) w []

/-- Models `myFTPStaging.set_location`: remember the local directory, try
`os.chdir(dir)` — on `FileNotFoundError` pass under dry-run, else create
and enter the directory when `make`, else re-raise — then change the remote
directory via `set_remotelocation` (on `remote` when given, else `dir`).
Returns the previous `(local, remote)` pair. -/
def set_location (P : ConnInfo) (w : World) (dir : PathRef) (remote : Option PathRef)
    (make : Bool) : LocRes :=
  let llast := w.localCwd
  let rdir := match remote with
    | some r => r
    | none => dir
  let finish : World → List Effect → LocRes := fun w1 effs =>
    match set_remotelocation P w1 rdir make with
    | RLRes.ok rlast w2 effs2 => LocRes.ok llast rlast w2 (effs ++ effs2)
    | RLRes.err e w2 effs2 => LocRes.err e w2 (effs ++ effs2)
  match localChdir w dir with
  | Except.ok w1 => finish w1 []
  | Except.error (Err.fnf s) =>
    if w.dry_run then finish w []
    else if make then
      match os_mkdir w dir with
      | StepRes.ok w1 effs1 =>
        match localChdir w1 dir with
        | Except.ok w2 => finish w2 effs1
        | Except.error e => LocRes.err e w1 effs1
      | StepRes.err e w1 effs1 => LocRes.err e w1 effs1
    else LocRes.err (Err.fnf s) w []
  | Except.error e => LocRes.err e w []

/-- Models `myFTPStaging.get_childitem` (FTP: `ftp.nlst()`): the names in
the remote working directory, in listing order. -/
def get_childitem (w : World) : Except Err (List String) :=
  match fsLookup w.remoteFS w.remoteCwd with
  | some (FSNode.dir _ es) => Except.ok (es.map Prod.fst)
  | _ => Except.error Err.errorPerm

/-- Models `os.listdir()` in the local working directory. -/
def os_listdir (w : World) : Except Err (List String) :=
  match fsLookup w.localFS w.localCwd with
  | some (FSNode.dir _ es) => Except.ok (es.map Prod.fst)
  | _ => Except.error Err.osError

/-- Models `myFTPStaging.download_file`: a no-op under dry-run or
skip-download; otherwise `retrbinary("RETR file", open(file, 'wb').write)`.
`open` runs first (truncating/creating the local target) and any `OSError`
is swallowed.  The `net` oracle gives the number of bytes actually written
for a remote file of a given size, modelling possibly-truncated transfers
(whose mid-stream `OSError` is also swallowed). -/
def download_file (net : Nat → Nat) (w : World) (file : String) : StepRes :=
  if w.dry_run || w.skip_download then StepRes.ok w []
  else
    match fsStorAt w.localFS (w.localCwd ++ [file]) 0 with
    | none => StepRes.ok w []
    | some fs0 =>
      match get_file_size w file with
      | some sz =>
        match fsStorAt w.localFS (w.localCwd ++ [file]) (net sz) with
        | some fs2 =>
          StepRes.ok { w with localFS := fs2 }
            [Effect.retr (w.remoteCwd ++ [file]), Effect.writeLocal (w.localCwd ++ [file])]
        | none => StepRes.ok { w with localFS := fs0 } []
      | none => StepRes.err Err.errorPerm { w with localFS := fs0 } []

/-- Models `myFTPStaging.upload_file` with `blob=None` (the only form the
mirror walk uses): a no-op under dry-run, otherwise open the local file and
`STOR` it to the same name in the remote working directory. -/
def upload_file (w : World) (file : String) : StepRes :=
  if w.dry_run then StepRes.ok w []
  else
    match fsLookup w.localFS (w.localCwd ++ [file]) with
    | some (FSNode.file sz) =>
      match fsStorAt w.remoteFS (w.remoteCwd ++ [file]) sz with
      | some rfs => StepRes.ok { w with remoteFS := rfs } [Effect.stor (w.remoteCwd ++ [file])]
      | none => StepRes.err Err.errorPerm w []
    | _ => StepRes.err Err.osError w []

/-- Models the truthiness of `re.match(r'^[Mm]anifest.*$', name)`: the name
must start with `M` or `m` followed by the literal lowercase `anifest`, and
`.*$` then requires the remainder to be newline-free except for at most one
trailing newline. -/
def manifest_re_matched (name : String) : Bool :=
  match name.toList with
  | [] => false
  | c :: rest =>
    (c = 'M' || c = 'm') && "anifest".toList.isPrefixOf rest &&
      (let tail := rest.drop 7
       !tail.contains '\n' || (tail.getLast? = some '\n' && !tail.dropLast.contains '\n'))

/-- Python's `list.sort` restricted to a Boolean key: the sort is stable and
`False < True`, so the result is exactly the stable partition — all
elements whose key is `false` (in original order) before all whose key is
`true` (in original order). -/
def py_sort_by_boolkey {α : Type} (key : α → Bool) (l : List α) : List α :=
  l.filter (fun x => key x = false) ++ l.filter (fun x => key x = true)

/-- Models `listing.sort(key=lambda name: not re.match(r'^[Mm]anifest.*$', name))`
in `myFTPStaging.download`: regex-matching names first, otherwise stable. -/
def sorted_childitem (l : List String) : List String :=
  py_sort_by_boolkey (fun name => !manifest_re_matched name) l

/-- ASCII lower-casing on code points, used to state case-insensitive
matching without the platform string functions. -/
def char_lower_nat (c : Char) : Nat :=
  if 65 ≤ c.toNat ∧ c.toNat ≤ 90 then c.toNat + 32 else c.toNat

/-- Models the spec's wording "name matching manifest* (case-insensitive)";
used only to state the ordering claim, for comparison with the code's
actual regex `^[Mm]anifest.*$`. -/
def ci_manifest (s : String) : Bool :=
  ("manifest".toList.map char_lower_nat).isPrefixOf (s.toList.map char_lower_nat)

/-- The child loop of `myFTPStaging.download` (lines 226–235): for each
listed name, recurse unless excluded, and emit `(1, downloaded)` or
`(2, excluded)` after the child is processed.  `rec` is the recursive
`self.download` call; its invocations are recorded in the trace's `calls`. -/
def downloadLoop (rec : World → String → Res) (excl : String → Bool) :
    List String → World → Res
  | [], w => Res.ok w Trace.nil
  | f :: fs, w =>
    if excl f then
      match downloadLoop rec excl fs w with
      | Res.ok w2 tr2 => Res.ok w2 ((Trace.ofEvent 2 (Event.excludedEv f)).app tr2)
      | Res.err e w2 tr2 => Res.err e w2 ((Trace.ofEvent 2 (Event.excludedEv f)).app tr2)
    else
      match rec w f with
      | Res.err e w1 tr1 => Res.err e w1 ((Trace.ofCall f).app tr1)
      | Res.ok w1 tr1 =>
        let tr := ((Trace.ofCall f).app tr1).app (Trace.ofEvent 1 (Event.downloadedEv f))
        match downloadLoop rec excl fs w1 with
        | Res.ok w2 tr2 => Res.ok w2 (tr.app tr2)
        | Res.err e w2 tr2 => Res.err e w2 (tr.app tr2)

/-- Models `myFTPStaging.download`: the recursive download-and-purge mirror.
A directory entry is entered on both sides (`set_location(file, make=True)`,
emitting `chdir`), its children are listed with `manifest*`-regex names
first and processed by `downloadLoop`; afterwards the previous directory
pair is restored, `chdir` is emitted, and the (now empty) remote directory
is removed, emitting `remove_directoryitem`.  A plain file is fetched by
`download_file`, and then — outside dry-run — removed remotely when
`skip_download` is set or `test_matched` reports a size match, with a
`remove_item` event emitted either way.  `fuel` bounds the recursion depth
of the model. -/
def download (P : ConnInfo) (net : Nat → Nat) (excl : String → Bool) :
    Nat → World → String → Res
  | 0, w, _ => Res.err Err.fuelOut w Trace.nil
  | Nat.succ n, w, file =>
    if is_directory w file then
      match (if file = "." then LocRes.ok w.localCwd w.remoteCwd w []
             else set_location P w (PathRef.child file) none true) with
      | LocRes.err e w1 effs => Res.err e w1 (Trace.ofEffs effs)
      | LocRes.ok lpwd rpwd w1 effs =>
        let tr1 := (Trace.ofEffs effs).app
          (if file = "." then Trace.nil
           else Trace.ofEvent 2 (Event.chdirEv w1.localCwd w1.remoteCwd))
        match get_childitem w1 with
        | Except.error e => Res.err e w1 tr1
        | Except.ok names =>
          match downloadLoop (fun w2 f2 => download P net excl n w2 f2) excl
              (sorted_childitem names) w1 with
          | Res.err e w2 tr2 => Res.err e w2 (tr1.app tr2)
          | Res.ok w2 tr2 =>
            if file = "." then Res.ok w2 (tr1.app tr2)
            else
              match set_location P w2 (PathRef.abs lpwd) (some (PathRef.abs rpwd)) false with
              | LocRes.err e w3 effs3 => Res.err e w3 (tr1.app (tr2.app (Trace.ofEffs effs3)))
              | LocRes.ok _ _ w3 effs3 =>
                let tr3 := (Trace.ofEffs effs3).app (Trace.ofEvent 2 (Event.chdirEv lpwd rpwd))
                match remove_directoryitem w3 file with
                | StepRes.err e w4 effs4 =>
                  Res.err e w4 (tr1.app (tr2.app (tr3.app (Trace.ofEffs effs4))))
                | StepRes.ok w4 effs4 =>
                  Res.ok w4 (tr1.app (tr2.app (tr3.app ((Trace.ofEffs effs4).app
                    (Trace.ofEvent 2 (Event.remove_directoryitemEv file))))))
    else
      match download_file net w file with
      | StepRes.err e w1 effs => Res.err e w1 (Trace.ofEffs effs)
      | StepRes.ok w1 effs =>
        let tr := Trace.ofEffs effs
        if w1.dry_run then Res.ok w1 tr
        else
          match (if w1.skip_download then Except.ok true else test_matched w1 file) with
          | Except.error e => Res.err e w1 tr
          | Except.ok matched =>
            if matched then
              match remove_item w1 file with
              | StepRes.err e w2 effs2 => Res.err e w2 (tr.app (Trace.ofEffs effs2))
              | StepRes.ok w2 effs2 =>
                Res.ok w2 (tr.app ((Trace.ofEffs effs2).app
                  (Trace.ofEvent 2 (Event.remove_itemEv file))))
            else
              Res.ok w1 (tr.app (Trace.ofEvent 2 (Event.remove_itemEv file)))

/-- The body of the `myFTPStaging.upload` child loop for one listed name
(lines 286–295): skip excluded names with a `(2, excluded)` event; for a
non-excluded name, recurse (recording the call) only when the remote
reported size differs from `os.stat(subfile).st_size`, and emit
`(1, uploaded)` after — even when the transfer was skipped. -/
def uploadChildStep (rec : World → String → Res) (excl : String → Bool)
    (w : World) (f : String) : Res :=
  if excl f then Res.ok w (Trace.ofEvent 2 (Event.excludedEv f))
  else
    match os_stat_size w f with
    | none => Res.err Err.osError w Trace.nil
    | some lsz =>
      if get_file_size w f = some lsz then Res.ok w (Trace.ofEvent 1 (Event.uploadedEv f))
      else
        match rec w f with
        | Res.err e w1 tr1 => Res.err e w1 ((Trace.ofCall f).app tr1)
        | Res.ok w1 tr1 =>
          Res.ok w1 (((Trace.ofCall f).app tr1).app (Trace.ofEvent 1 (Event.uploadedEv f)))

/-- The `for subfile in os.listdir()` loop of `myFTPStaging.upload`. -/
def uploadLoop (rec : World → String → Res) (excl : String → Bool) :
    List String → World → Res
  | [], w => Res.ok w Trace.nil
  | f :: fs, w =>
    match uploadChildStep rec excl w f with
    | Res.err e w1 tr1 => Res.err e w1 tr1
    | Res.ok w1 tr1 =>
      match uploadLoop rec excl fs w1 with
      | Res.ok w2 tr2 => Res.ok w2 (tr1.app tr2)
      | Res.err e w2 tr2 => Res.err e w2 (tr1.app tr2)

/-- Models `myFTPStaging.upload` with `blob=None`: a local plain file is
sent with `upload_file`; for `'.'` or a local directory, the previous
`(local, remote)` pair is captured, a named directory is entered on both
sides (`make=True`; a `FileNotFoundError` is suppressed under dry-run,
otherwise re-raised), `chdir` is emitted, the local listing is walked with
`uploadLoop`, and for a named directory a `chdir` event is emitted and the
previous pair restored.  Anything else falls through and is a no-op. -/
def upload (P : ConnInfo) (excl : String → Bool) : Nat → World → String → Res
  | 0, w, _ => Res.err Err.fuelOut w Trace.nil
  | Nat.succ n, w, file =>
    if os_path_isfile w file then
      match upload_file w file with
      | StepRes.ok w1 effs => Res.ok w1 (Trace.ofEffs effs)
      | StepRes.err e w1 effs => Res.err e w1 (Trace.ofEffs effs)
    else if (file = ".") || os_path_isdir w file then
      let cont : List String → List String → World → Trace → Res :=
        fun lpwd rpwd w1 tr1 =>
          match os_listdir w1 with
          | Except.error e => Res.err e w1 tr1
          | Except.ok names =>
            match uploadLoop (fun w2 f2 => upload P excl n w2 f2) excl names w1 with
            | Res.err e w2 tr2 => Res.err e w2 (tr1.app tr2)
            | Res.ok w2 tr2 =>
              if file = "." then Res.ok w2 (tr1.app tr2)
              else
                let tr3 := Trace.ofEvent 2 (Event.chdirEv lpwd rpwd)
                match set_location P w2 (PathRef.abs lpwd) (some (PathRef.abs rpwd)) false with
                | LocRes.err e w3 effs3 =>
                  Res.err e w3 (tr1.app (tr2.app (tr3.app (Trace.ofEffs effs3))))
                | LocRes.ok _ _ w3 effs3 =>
                  Res.ok w3 (tr1.app (tr2.app (tr3.app (Trace.ofEffs effs3))))
      if file = "." then cont w.localCwd w.remoteCwd w Trace.nil
      else
        match set_location P w (PathRef.child file) none true with
        | LocRes.ok lp rp w1 effs =>
          cont lp rp w1 ((Trace.ofEffs effs).app
            (Trace.ofEvent 2 (Event.chdirEv w1.localCwd w1.remoteCwd)))
        | LocRes.err (Err.fnf s) w1 effs =>
          if w.dry_run then
            cont w.localCwd w.remoteCwd w1 ((Trace.ofEffs effs).app
              (Trace.ofEvent 2 (Event.chdirEv w1.localCwd w1.remoteCwd)))
          else Res.err (Err.fnf s) w1 (Trace.ofEffs effs)
        | LocRes.err e w1 effs => Res.err e w1 (Trace.ofEffs effs)
    else Res.ok w Trace.nil

/-- One orchestrator cycle (§4.5 of the spec): the download mirror followed
by the upload mirror on the resulting world. -/
def download_then_upload (P : ConnInfo) (net : Nat → Nat)
    (excl1 excl2 : String → Bool) (fuel : Nat) (w : World)
    (file1 file2 : String) : Res :=
  match download P net excl1 fuel w file1 with
  | Res.err e w1 tr1 => Res.err e w1 tr1
  | Res.ok w1 tr1 =>
    match upload P excl2 fuel w1 file2 with
    | Res.ok w2 tr2 => Res.ok w2 (tr1.app tr2)
    | Res.err e w2 tr2 => Res.err e w2 (tr1.app tr2)

/-- A credential attempt, as assembled by `ADPNStagingArea`: a key loaded in
the running agent (identified by its fingerprint), the resolved identity
keyfile (by path), or the password attempt with no key material. -/
inductive Credential where
  | agentKey (fingerprint : String)
  | keyfile (path : String)
  | password
deriving DecidableEq, Repr

/-- The configuration of `ADPNStagingArea` relevant to credential
resolution.  `agentKeys` are the fingerprints of the keys the reachable
agent holds, in agent order (`agent.get_keys()`); `identityCandidate` is
the keyfile path that `get_private_keyfile`'s filesystem probe (explicit
`--identity`, else the first existing of `~/.ssh/id_rsa`, `id_dsa`,
`identity`) would yield, or `none` when no candidate file exists. -/
structure StagingCfg where
  protocol : String
  host : String
  agentKeys : List String
  identityCandidate : Option String
  authentication : Option String
deriving DecidableEq, Repr

/-- Models `ADPNStagingArea.key_protocols`. -/
def key_protocols : List String := ["sftp", "scp"]

/-- Models `ADPNStagingArea.uses_keyfile`. -/
def uses_keyfile (a : StagingCfg) : Bool :=
  key_protocols.contains a.protocol

/-- Models `ADPNStagingArea.get_private_keyfile`: the probe only runs for
key-capable protocols. -/
def get_private_keyfile (a : StagingCfg) : Option String :=
  if uses_keyfile a then a.identityCandidate else none

/-- Models `ADPNStagingArea.has_private_keyfile`:
`(authentication != "password") and (get_private_keyfile() is not None)`. -/
def has_private_keyfile (a : StagingCfg) : Bool :=
  (a.authentication ≠ some "password") && (get_private_keyfile a).isSome

/-- Models `ADPNStagingArea.private_keys`: every agent key in agent order,
then the resolved keyfile when `has_private_keyfile`. -/
def private_keys (a : StagingCfg) : List Credential :=
  a.agentKeys.map Credential.agentKey ++
    (match has_private_keyfile a, get_private_keyfile a with
     | true, some kf => [Credential.keyfile kf]
     | _, _ => [])

/-- Models `ADPNStagingArea.authentication_credentials`: the key attempts
followed by the password attempt. -/
def authentication_credentials (a : StagingCfg) : List Credential :=
  private_keys a ++ [Credential.password]

/-- The `for ... in self.authentication_credentials` loop of
`open_connection`: while no connection is held, invoke the next attempt
(`tryCred c = none` means `pysftp.Connection` succeeded, `some msg` that it
raised one of the caught `ValueError` / `AuthenticationException` /
`SSHException` errors, which is appended to `errs`).  Attempts made are
recorded in order; once a connection is held the remaining list is drained
without further attempts. -/
def open_connection_go (tryCred : Credential → Option String) :
    List Credential → Option Credential → List String → List Credential →
    Option Credential × List String × List Credential
  | [], conn, errs, tried => (conn, errs, tried)
  | c :: rest, conn, errs, tried =>
    match conn with
    | some _ => open_connection_go tryCred rest conn errs tried
    | none =>
      match tryCred c with
      | none => open_connection_go tryCred rest (some c) errs (tried ++ [c])
      | some e => open_connection_go tryCred rest none (errs ++ [e]) (tried ++ [c])

/-- Models `ADPNStagingArea.open_connection` for an SFTP endpoint: run the
attempt loop over `authentication_credentials`; if no attempt succeeded,
raise `NoValidConnectionsError({(host, 22): errs})` carrying every recorded
error; otherwise the succeeding credential's connection is returned. -/
def open_connection (a : StagingCfg) (tryCred : Credential → Option String) :
    Except (String × Nat × List String) Credential :=
  match open_connection_go tryCred (authentication_credentials a) none [] [] with
  | (some c, _, _) => Except.ok c
  | (none, errs, _) => Except.error (a.host, 22, errs)

/-- The attempts `open_connection` actually invoked, in order. -/
def open_connection_tried (a : StagingCfg) (tryCred : Credential → Option String) :
    List Credential :=
  (open_connection_go tryCred (authentication_credentials a) none [] []).2.2

/-- Effect log of a mirror-call result (error results carry the effects
performed before the raise). -/
def Res.effectsOf : Res → List Effect
  | Res.ok _ tr => tr.effects
  | Res.err _ _ tr => tr.effects

/-- Events of a mirror-call result. -/
def Res.eventsOf : Res → List (Nat × Event)
  | Res.ok _ tr => tr.events
  | Res.err _ _ tr => tr.events

/-- Recorded recursive calls of a mirror-call result. -/
def Res.callsOf : Res → List String
  | Res.ok _ tr => tr.calls
  | Res.err _ _ tr => tr.calls

/-- The world of a mirror-call result (at return or at raise time). -/
def Res.worldOf : Res → World
  | Res.ok w _ => w
  | Res.err _ w _ => w

/-- Whether a result is a propagating exception. -/
def Res.isErr : Res → Bool
  | Res.ok _ _ => false
  | Res.err _ _ _ => true

/-- Effect log of a `set_remotelocation` result. -/
def RLRes.effectsOf : RLRes → List Effect
  | RLRes.ok _ _ effs => effs
  | RLRes.err _ _ effs => effs

/-- Effect log of a `set_location` result. -/
def LocRes.effectsOf : LocRes → List Effect
  | LocRes.ok _ _ _ effs => effs
  | LocRes.err _ _ effs => effs

/-- Well-formed filesystem tree: at every directory the entry names are
distinct and none of them is the special name `.` or `..` (which
`os.listdir`/`nlst` never report and which the path model does not treat
specially). -/
inductive FSWf : FSNode → Prop where
  | file : ∀ s, FSWf (FSNode.file s)
  | dir : ∀ sz es, (es.map Prod.fst).Nodup →
      (∀ e ∈ es, e.1 ≠ "." ∧ e.1 ≠ "..") →
      (∀ e ∈ es, FSWf e.2) → FSWf (FSNode.dir sz es)

theorem lookupEntry_append (es es2 : List (String × FSNode)) (k : String) :
    lookupEntry (es ++ es2) k =
      (match lookupEntry es k with
       | some v => some v
       | none => lookupEntry es2 k) := by
  induction es with
  | nil => simp [lookupEntry]
  | cons e es ih =>
    obtain ⟨a, b⟩ := e
    by_cases h : a = k <;> simp [lookupEntry, h, ih]

theorem lookupEntry_setEntry_self (es : List (String × FSNode)) (k : String)
    (n v : FSNode) (h : lookupEntry es k = some v) :
    lookupEntry (setEntry es k n) k = some n := by
  induction es with
  | nil => simp [lookupEntry] at h
  | cons e es ih =>
    obtain ⟨a, b⟩ := e
    by_cases hak : a = k
    · simp [lookupEntry, setEntry, hak]
    · simp [lookupEntry, setEntry, hak] at h ⊢
      exact ih h

theorem lookupEntry_setEntry_ne (es : List (String × FSNode)) (k k' : String)
    (n : FSNode) (h : k' ≠ k) :
    lookupEntry (setEntry es k n) k' = lookupEntry es k' := by
  induction es with
  | nil => simp [setEntry]
  | cons e es ih =>
    obtain ⟨a, b⟩ := e
    by_cases hak : a = k
    · subst hak
      have hne : ¬ (a = k') := fun hh => h hh.symm
      simp [lookupEntry, setEntry, hne]
    · simp only [setEntry, if_neg hak, lookupEntry]
      by_cases hak' : a = k' <;> simp [hak', ih]

theorem lookupEntry_eq_none_of_not_mem (es : List (String × FSNode)) (k : String)
    (h : k ∉ es.map Prod.fst) : lookupEntry es k = none := by
  induction es with
  | nil => simp [lookupEntry]
  | cons e es ih =>
    obtain ⟨a, b⟩ := e
    simp only [List.map_cons, List.mem_cons] at h
    push_neg at h
    simp only [lookupEntry, if_neg (fun hh : a = k => h.1 hh.symm)]
    exact ih h.2

theorem lookupEntry_removeEntry_self (es : List (String × FSNode)) (k : String)
    (hnd : (es.map Prod.fst).Nodup) :
    lookupEntry (removeEntry es k) k = none := by
  induction es with
  | nil => simp [removeEntry, lookupEntry]
  | cons e es ih =>
    obtain ⟨a, b⟩ := e
    simp only [List.map_cons, List.nodup_cons] at hnd
    by_cases hak : a = k
    · subst hak
      simp only [removeEntry, if_pos rfl]
      exact lookupEntry_eq_none_of_not_mem es a hnd.1
    · simp only [removeEntry, if_neg hak, lookupEntry, if_neg hak]
      exact ih hnd.2

theorem lookupEntry_removeEntry_ne (es : List (String × FSNode)) (k k' : String)
    (h : k' ≠ k) :
    lookupEntry (removeEntry es k) k' = lookupEntry es k' := by
  induction es with
  | nil => simp [removeEntry]
  | cons e es ih =>
    obtain ⟨a, b⟩ := e
    by_cases hak : a = k
    · subst hak
      have hne : ¬ (a = k') := fun hh => h hh.symm
      simp [removeEntry, lookupEntry, hne]
    · simp only [removeEntry, if_neg hak, lookupEntry]
      by_cases hak' : a = k' <;> simp [hak', ih]

theorem lookupEntry_mem (es : List (String × FSNode)) (k : String) (v : FSNode)
    (h : lookupEntry es k = some v) : (k, v) ∈ es := by
  induction es with
  | nil => simp [lookupEntry] at h
  | cons e es ih =>
    obtain ⟨a, b⟩ := e
    by_cases hak : a = k
    · subst hak
      rw [lookupEntry, if_pos rfl] at h
      injection h with h2
      subst h2
      exact List.mem_cons_self _ _
    · simp only [lookupEntry, if_neg hak] at h
      exact List.mem_cons_of_mem _ (ih h)

theorem FSWf_lookup (fs : FSNode) (p : List String) (n : FSNode)
    (hwf : FSWf fs) (h : fsLookup fs p = some n) : FSWf n := by
  induction p generalizing fs with
  | nil =>
    simp only [fsLookup, Option.some.injEq] at h
    exact h ▸ hwf
  | cons k rest ih =>
    cases fs with
    | file s => simp [fsLookup] at h
    | dir d es =>
      simp only [fsLookup] at h
      cases hk : lookupEntry es k with
      | none => rw [hk] at h; exact absurd h (by simp)
      | some c =>
        rw [hk] at h
        cases hwf with
        | dir _ _ hnd hdot hall =>
          exact ih c (hall _ (lookupEntry_mem es k c hk)) h

theorem fsLookup_parent (p : List String) (x : String) (fs n : FSNode)
    (h : fsLookup fs (p ++ [x]) = some n) :
    ∃ d es, fsLookup fs p = some (FSNode.dir d es) ∧ lookupEntry es x = some n := by
  induction p generalizing fs with
  | nil =>
    cases fs with
    | file s => simp [fsLookup] at h
    | dir d es =>
      simp only [List.nil_append, fsLookup] at h
      cases hk : lookupEntry es x with
      | none => rw [hk] at h; exact absurd h (by simp)
      | some c =>
        rw [hk] at h
        simp only [fsLookup, Option.some.injEq] at h
        exact ⟨d, es, rfl, h ▸ hk⟩
  | cons k rest ih =>
    cases fs with
    | file s => simp [fsLookup] at h
    | dir d es =>
      simp only [List.cons_append, fsLookup] at h
      cases hk : lookupEntry es k with
      | none => rw [hk] at h; exact absurd h (by simp)
      | some c =>
        rw [hk] at h
        obtain ⟨d2, es2, h1, h2⟩ := ih c h
        refine ⟨d2, es2, ?_, h2⟩
        simp [fsLookup, hk, h1]

theorem fsStorAt_some_mono (path : List String) :
    ∀ (fs : FSNode) (a b : Nat) (fs2 : FSNode), fsStorAt fs path a = some fs2 →
      ∃ fs3, fsStorAt fs path b = some fs3 := by
  induction path with
  | nil => intro fs a b fs2 h; simp [fsStorAt] at h
  | cons k rest ih =>
    intro fs a b fs2 h
    cases fs with
    | file s => simp [fsStorAt] at h
    | dir d es =>
      cases rest with
      | nil =>
        cases hk : lookupEntry es k with
        | none => exact ⟨FSNode.dir d (es ++ [(k, FSNode.file b)]), by simp [fsStorAt, hk]⟩
        | some c =>
          cases c with
          | file s2 =>
            exact ⟨FSNode.dir d (setEntry es k (FSNode.file b)), by simp [fsStorAt, hk]⟩
          | dir d2 es2 => simp [fsStorAt, hk] at h
      | cons r rest2 =>
        cases hk : lookupEntry es k with
        | none => simp [fsStorAt, hk] at h
        | some c =>
          cases hc : fsStorAt c (r :: rest2) a with
          | none => simp [fsStorAt, hk, hc] at h
          | some c2 =>
            obtain ⟨c3, hc3⟩ := ih c a b c2 hc
            exact ⟨FSNode.dir d (setEntry es k c3), by simp [fsStorAt, hk, hc3]⟩

theorem fsStorAt_lookup_self (path : List String) :
    ∀ (fs : FSNode) (sz : Nat) (fs2 : FSNode), fsStorAt fs path sz = some fs2 →
      fsLookup fs2 path = some (FSNode.file sz) := by
  induction path with
  | nil => intro fs sz fs2 h; simp [fsStorAt] at h
  | cons k rest ih =>
    intro fs sz fs2 h
    cases fs with
    | file s => simp [fsStorAt] at h
    | dir d es =>
      cases rest with
      | nil =>
        cases hk : lookupEntry es k with
        | none =>
          simp only [fsStorAt, hk] at h
          injection h with h2
          subst h2
          simp [fsLookup, lookupEntry_append, hk, lookupEntry]
        | some c =>
          cases c with
          | file s2 =>
            simp only [fsStorAt, hk] at h
            injection h with h2
            subst h2
            simp [fsLookup, lookupEntry_setEntry_self es k _ _ hk]
          | dir d2 es2 => simp [fsStorAt, hk] at h
      | cons r rest2 =>
        cases hk : lookupEntry es k with
        | none => simp [fsStorAt, hk] at h
        | some c =>
          cases hc : fsStorAt c (r :: rest2) sz with
          | none => simp [fsStorAt, hk, hc] at h
          | some c2 =>
            simp only [fsStorAt, hk, hc] at h
            injection h with h2
            subst h2
            simp [fsLookup, lookupEntry_setEntry_self es k _ _ hk, ih c sz c2 hc]

theorem fsMkdirAt_lookup_self (path : List String) :
    ∀ (fs fs2 : FSNode), fsMkdirAt fs path = some fs2 →
      fsLookup fs2 path = some (FSNode.dir 0 []) := by
  induction path with
  | nil => intro fs fs2 h; simp [fsMkdirAt] at h
  | cons k rest ih =>
    intro fs fs2 h
    cases fs with
    | file s => simp [fsMkdirAt] at h
    | dir d es =>
      cases rest with
      | nil =>
        cases hk : lookupEntry es k with
        | none =>
          simp only [fsMkdirAt, hk] at h
          injection h with h2
          subst h2
          simp [fsLookup, lookupEntry_append, hk, lookupEntry]
        | some c => simp [fsMkdirAt, hk] at h
      | cons r rest2 =>
        cases hk : lookupEntry es k with
        | none => simp [fsMkdirAt, hk] at h
        | some c =>
          cases hc : fsMkdirAt c (r :: rest2) with
          | none => simp [fsMkdirAt, hk, hc] at h
          | some c2 =>
            simp only [fsMkdirAt, hk, hc] at h
            injection h with h2
            subst h2
            simp [fsLookup, lookupEntry_setEntry_self es k _ _ hk, ih c c2 hc]

theorem fsDeleteFileAt_exists (rest : List String) :
    ∀ (k : String) (fs : FSNode) (s : Nat),
      fsLookup fs (k :: rest) = some (FSNode.file s) →
      ∃ fs2, fsDeleteFileAt fs (k :: rest) = some fs2 := by
  induction rest with
  | nil =>
    intro k fs s h
    cases fs with
    | file s2 => simp [fsLookup] at h
    | dir d es =>
      simp only [fsLookup] at h
      cases hk : lookupEntry es k with
      | none => rw [hk] at h; exact absurd h (by simp)
      | some c =>
        rw [hk] at h
        simp only [fsLookup, Option.some.injEq] at h
        subst h
        exact ⟨FSNode.dir d (removeEntry es k), by simp [fsDeleteFileAt, hk]⟩
  | cons r rest2 ih =>
    intro k fs s h
    cases fs with
    | file s2 => simp [fsLookup] at h
    | dir d es =>
      simp only [fsLookup] at h
      cases hk : lookupEntry es k with
      | none => rw [hk] at h; exact absurd h (by simp)
      | some c =>
        rw [hk] at h
        obtain ⟨c2, hc2⟩ := ih r c s h
        exact ⟨FSNode.dir d (setEntry es k c2), by simp [fsDeleteFileAt, hk, hc2]⟩

theorem fsDeleteFileAt_lookup_self (rest : List String) :
    ∀ (k : String) (fs fs2 : FSNode), FSWf fs →
      fsDeleteFileAt fs (k :: rest) = some fs2 →
      fsLookup fs2 (k :: rest) = none := by
  induction rest with
  | nil =>
    intro k fs fs2 hwf h
    cases fs with
    | file s => simp [fsDeleteFileAt] at h
    | dir d es =>
      cases hk : lookupEntry es k with
      | none => simp [fsDeleteFileAt, hk] at h
      | some c =>
        cases c with
        | dir d2 es2 => simp [fsDeleteFileAt, hk] at h
        | file s2 =>
          simp only [fsDeleteFileAt, hk] at h
          injection h with h2
          subst h2
          cases hwf with
          | dir _ _ hnd hdot hall =>
            simp [fsLookup, lookupEntry_removeEntry_self es k hnd]
  | cons r rest2 ih =>
    intro k fs fs2 hwf h
    cases fs with
    | file s => simp [fsDeleteFileAt] at h
    | dir d es =>
      cases hk : lookupEntry es k with
      | none => simp [fsDeleteFileAt, hk] at h
      | some c =>
        cases hc : fsDeleteFileAt c (r :: rest2) with
        | none => simp [fsDeleteFileAt, hk, hc] at h
        | some c2 =>
          simp only [fsDeleteFileAt, hk, hc] at h
          injection h with h2
          subst h2
          cases hwf with
          | dir _ _ hnd hdot hall =>
            have hcwf : FSWf c := hall _ (lookupEntry_mem es k c hk)
            simp [fsLookup, lookupEntry_setEntry_self es k _ _ hk, ih r c c2 hcwf hc]

theorem fsDeleteFileAt_exists_app (p : List String) (x : String) (fs : FSNode) (s : Nat)
    (h : fsLookup fs (p ++ [x]) = some (FSNode.file s)) :
    ∃ fs2, fsDeleteFileAt fs (p ++ [x]) = some fs2 := by
  cases hp : p ++ [x] with
  | nil => exact absurd hp (by simp)
  | cons k rest =>
    rw [hp] at h
    exact fsDeleteFileAt_exists rest k fs s h

theorem fsDeleteFileAt_lookup_self_app (p : List String) (x : String) (fs fs2 : FSNode)
    (hwf : FSWf fs) (h : fsDeleteFileAt fs (p ++ [x]) = some fs2) :
    fsLookup fs2 (p ++ [x]) = none := by
  cases hp : p ++ [x] with
  | nil => exact absurd hp (by simp)
  | cons k rest =>
    rw [hp] at h
    exact fsDeleteFileAt_lookup_self rest k fs fs2 hwf h

theorem fsStorAt_lookup_self_app (p : List String) (x : String) (fs fs2 : FSNode) (sz : Nat)
    (h : fsStorAt fs (p ++ [x]) sz = some fs2) :
    fsLookup fs2 (p ++ [x]) = some (FSNode.file sz) :=
  fsStorAt_lookup_self (p ++ [x]) fs sz fs2 h

/-- C10: with `skip_download` set and dry-run off, the download mirror applied
to a plain remote file performs no `RETR`/get call at all, yet unconditionally
removes the remote file — for every truncation oracle `net` and regardless of
any size comparison (`test_matched` is short-circuited by `skip_download`).
The resulting trace shows the only effect is the remote deletion. -/
theorem claim_C10 (P : ConnInfo) (net : Nat → Nat) (excl : String → Bool) (n : Nat)
    (w : World) (file : String) (s : Nat)
    (hdry : w.dry_run = false) (hskip : w.skip_download = true) (hne : file ≠ ".")
    (hwf : FSWf w.remoteFS)
    (hrem : fsLookup w.remoteFS (w.remoteCwd ++ [file]) = some (FSNode.file s)) :
    ∃ rfs2, fsDeleteFileAt w.remoteFS (w.remoteCwd ++ [file]) = some rfs2 ∧
      download P net excl (n + 1) w file =
        Res.ok { w with remoteFS := rfs2 }
          ⟨[(2, Event.remove_itemEv file)], [Effect.deleteRemote (w.remoteCwd ++ [file])], []⟩ ∧
      fsLookup rfs2 (w.remoteCwd ++ [file]) = none := by
  have hgfs : get_file_size w file = some s := by simp [get_file_size, hrem]
  have hdir : is_directory w file = false := by simp [is_directory, hne, hgfs]
  obtain ⟨rfs2, hdel⟩ := fsDeleteFileAt_exists_app w.remoteCwd file w.remoteFS s hrem
  refine ⟨rfs2, hdel, ?_, fsDeleteFileAt_lookup_self_app _ _ _ _ hwf hdel⟩
  simp [download, hdir, download_file, hdry, hskip, remove_item, hdel,
    Trace.app, Trace.ofEffs, Trace.ofEvent, Trace.nil]

/-- C1: with dry-run and skip-download both off, a plain remote file
processed by the download mirror has its remote copy removed iff the size of
the freshly written local file (`net s` bytes for a remote size of `s`)
equals the size the remote server reported before the transfer; on a
mismatch the remote file is left in place and no exception propagates.
(The size consulted by `test_matched` after the transfer is the same `s`:
`download_file` never mutates the remote tree.) -/
theorem claim_C1 (P : ConnInfo) (net : Nat → Nat) (excl : String → Bool) (n : Nat)
    (w : World) (file : String) (s : Nat) (fsW : FSNode)
    (hdry : w.dry_run = false) (hskip : w.skip_download = false) (hne : file ≠ ".")
    (hwf : FSWf w.remoteFS)
    (hrem : fsLookup w.remoteFS (w.remoteCwd ++ [file]) = some (FSNode.file s))
    (hloc : fsStorAt w.localFS (w.localCwd ++ [file]) (net s) = some fsW) :
    ∃ w2 tr, download P net excl (n + 1) w file = Res.ok w2 tr ∧
      (fsLookup w2.remoteFS (w.remoteCwd ++ [file]) = none ↔ net s = s) ∧
      (net s ≠ s → w2.remoteFS = w.remoteFS) := by
  have hgfs : get_file_size w file = some s := by simp [get_file_size, hrem]
  have hdir : is_directory w file = false := by simp [is_directory, hne, hgfs]
  obtain ⟨fs0, hfs0⟩ := fsStorAt_some_mono _ _ (net s) 0 _ hloc
  have hlookW : fsLookup fsW (w.localCwd ++ [file]) = some (FSNode.file (net s)) :=
    fsStorAt_lookup_self_app _ _ _ _ _ hloc
  by_cases hm : net s = s
  · -- sizes match: the remote copy is deleted
    obtain ⟨rfs2, hdel⟩ := fsDeleteFileAt_exists_app w.remoteCwd file w.remoteFS s hrem
    have hloc2 : fsStorAt w.localFS (w.localCwd ++ [file]) s = some fsW := by
      rw [← hm]; exact hloc
    have hlookW2 : fsLookup fsW (w.localCwd ++ [file]) = some (FSNode.file s) := by
      rw [← hm]; exact hlookW
    have hdl : download P net excl (n + 1) w file =
        Res.ok { w with localFS := fsW, remoteFS := rfs2 }
          ⟨[(2, Event.remove_itemEv file)],
           [Effect.retr (w.remoteCwd ++ [file]), Effect.writeLocal (w.localCwd ++ [file]),
            Effect.deleteRemote (w.remoteCwd ++ [file])], []⟩ := by
      simp [download, hdir, download_file, hdry, hskip, hfs0, hgfs, hloc2, test_matched,
        os_stat_size, get_file_size, hlookW2, hrem, hm, remove_item, hdel,
        Trace.app, Trace.ofEffs, Trace.ofEvent, Trace.nil]
    refine ⟨_, _, hdl, ?_, fun hns => absurd hm hns⟩
    simp [fsDeleteFileAt_lookup_self_app _ _ _ _ hwf hdel, hm]
  · -- size mismatch: the remote copy survives and the call still returns
    have hm2 : s ≠ net s := fun h => hm h.symm
    have hdl : download P net excl (n + 1) w file =
        Res.ok { w with localFS := fsW }
          ⟨[(2, Event.remove_itemEv file)],
           [Effect.retr (w.remoteCwd ++ [file]), Effect.writeLocal (w.localCwd ++ [file])],
           []⟩ := by
      simp [download, hdir, download_file, hdry, hskip, hfs0, hgfs, hloc, test_matched,
        os_stat_size, get_file_size, hlookW, hrem, hm2,
        Trace.app, Trace.ofEffs, Trace.ofEvent, Trace.nil]
    refine ⟨_, _, hdl, ?_, fun _ => rfl⟩
    simp only [hrem]
    constructor
    · intro hcontr; exact absurd hcontr (by simp)
    · intro hcontr; exact absurd hcontr hm

/-- Concrete world for the C1/C10 witnesses: one plain remote file `f` of
size 5, empty local directory, flags set per claim. -/
def leafWorld (dry skip : Bool) : World :=
  { localFS := FSNode.dir 0 []
    localCwd := []
    remoteFS := FSNode.dir 0 [("f", FSNode.file 5)]
    remoteCwd := []
    dry_run := dry
    skip_download := skip }

theorem leafWorld_remote_wf : FSWf (FSNode.dir 0 [("f", FSNode.file 5)]) := by
  refine FSWf.dir _ _ (by decide) (by decide) ?_
  intro e he
  simp only [List.mem_singleton] at he
  subst he
  exact FSWf.file 5

theorem claim_C1_witness :
    ∃ w2 tr,
      download ⟨"ftp", some "u", "h"⟩ id (fun _ => false) (0 + 1) (leafWorld false false) "f"
        = Res.ok w2 tr ∧
      (fsLookup w2.remoteFS ((leafWorld false false).remoteCwd ++ ["f"]) = none ↔ id 5 = 5) ∧
      (id 5 ≠ 5 → w2.remoteFS = (leafWorld false false).remoteFS) :=
  claim_C1 ⟨"ftp", some "u", "h"⟩ id (fun _ => false) 0 (leafWorld false false) "f" 5
    (FSNode.dir 0 [("f", FSNode.file 5)]) rfl rfl (by decide) leafWorld_remote_wf rfl rfl

theorem claim_C10_witness :
    ∃ rfs2,
      fsDeleteFileAt (leafWorld false true).remoteFS ((leafWorld false true).remoteCwd ++ ["f"])
        = some rfs2 ∧
      download ⟨"ftp", some "u", "h"⟩ id (fun _ => false) (0 + 1) (leafWorld false true) "f"
        = Res.ok { leafWorld false true with remoteFS := rfs2 }
          ⟨[(2, Event.remove_itemEv "f")],
           [Effect.deleteRemote ((leafWorld false true).remoteCwd ++ ["f"])], []⟩ ∧
      fsLookup rfs2 ((leafWorld false true).remoteCwd ++ ["f"]) = none :=
  claim_C10 ⟨"ftp", some "u", "h"⟩ id (fun _ => false) 0 (leafWorld false true) "f" 5
    rfl rfl (by decide) leafWorld_remote_wf rfl

/-- C4 (counterexample): the code's ordering key is the regex
`^[Mm]anifest.*$`, which only tolerates case variation in the first letter.
`MANIFEST.html` matches `manifest*` case-insensitively but not the regex, so
the sort leaves it after its non-matching sibling `a.txt`: the claimed
case-insensitive manifest-first ordering fails on this listing. -/
theorem claim_C4_counterexample :
    sorted_childitem ["a.txt", "MANIFEST.html"] = ["a.txt", "MANIFEST.html"]
    ∧ ci_manifest "MANIFEST.html" = true
    ∧ ci_manifest "a.txt" = false
    ∧ manifest_re_matched "MANIFEST.html" = false := by
  constructor
  · rfl
  · exact ⟨by decide, by decide, by rfl⟩

/-- C4 (amended): in every remote listing sorted by the download mirror, the
children whose names match the code's regex `^[Mm]anifest.*$` — i.e.
`manifest`/`Manifest`-prefixed names, case-insensitive only in the first
letter — are visited strictly before all non-matching siblings, each group
keeping its original relative order, and the sorted listing is a
permutation of the original. -/
theorem claim_C4_amended (l : List String) :
    ∃ front back, sorted_childitem l = front ++ back
      ∧ front = l.filter (fun name => manifest_re_matched name)
      ∧ back = l.filter (fun name => !manifest_re_matched name)
      ∧ (∀ x ∈ front, manifest_re_matched x = true)
      ∧ (∀ x ∈ back, manifest_re_matched x = false)
      ∧ (front ++ back).Perm l := by
  refine ⟨l.filter (fun name => manifest_re_matched name),
    l.filter (fun name => !manifest_re_matched name), ?_, rfl, rfl, ?_, ?_, ?_⟩
  · unfold sorted_childitem py_sort_by_boolkey
    congr 1
    · apply List.filter_congr
      intro x _
      cases hx : manifest_re_matched x <;> simp [hx]
    · apply List.filter_congr
      intro x _
      cases hx : manifest_re_matched x <;> simp [hx]
  · intro x hx
    exact (List.mem_filter.mp hx).2
  · intro x hx
    simpa using (List.mem_filter.mp hx).2
  · exact List.filter_append_perm _ l

theorem open_go_drain (tryCred : Credential → Option String) (l : List Credential)
    (c : Credential) :
    ∀ errs tried, open_connection_go tryCred l (some c) errs tried = (some c, errs, tried) := by
  induction l with
  | nil => intro errs tried; rfl
  | cons x rest ih => intro errs tried; simpa [open_connection_go] using ih errs tried

theorem open_go_all_fail (tryCred : Credential → Option String)
    (errOf : Credential → String) (l : List Credential) :
    ∀ errs tried, (∀ x ∈ l, tryCred x = some (errOf x)) →
      open_connection_go tryCred l none errs tried =
        (none, errs ++ l.map errOf, tried ++ l) := by
  induction l with
  | nil => intro errs tried _; simp [open_connection_go]
  | cons x rest ih =>
    intro errs tried hall
    have hx : tryCred x = some (errOf x) := hall x (List.mem_cons_self _ _)
    have ih2 := ih (errs ++ [errOf x]) (tried ++ [x])
      (fun y hy => hall y (List.mem_cons_of_mem _ hy))
    simp only [open_connection_go, hx, ih2]
    simp

theorem open_go_first_success (tryCred : Credential → Option String)
    (c : Credential) (hsucc : tryCred c = none) (l1 : List Credential) :
    ∀ (l2 : List Credential) errs tried, (∀ x ∈ l1, tryCred x ≠ none) →
      open_connection_go tryCred (l1 ++ c :: l2) none errs tried =
        (some c, errs ++ l1.map (fun x => (tryCred x).getD ""), tried ++ l1 ++ [c]) := by
  induction l1 with
  | nil =>
    intro l2 errs tried _
    simp only [List.nil_append, open_connection_go, hsucc]
    simp [open_go_drain]
  | cons x rest ih =>
    intro l2 errs tried hfail
    have hx : tryCred x ≠ none := hfail x (List.mem_cons_self _ _)
    cases htc : tryCred x with
    | none => exact absurd htc hx
    | some e =>
      have ih2 := ih l2 (errs ++ [e]) (tried ++ [x])
        (fun y hy => hfail y (List.mem_cons_of_mem _ hy))
      simp only [List.cons_append, open_connection_go, htc, List.append_eq]
      rw [ih2]
      simp [htc]

/-- C5: for an SFTP endpoint, `open_connection` tries the attempts in the
fixed order — every agent key in agent order, then the resolved identity
keyfile (present and authentication not `password`), then the password —
and the first attempt that succeeds yields the session while no later
attempt is invoked. -/
theorem claim_C5 (a : StagingCfg) (kf : String) (tryCred : Credential → Option String)
    (l1 l2 : List Credential) (c : Credential)
    (hp : a.protocol = "sftp") (hkf : a.identityCandidate = some kf)
    (hauth : a.authentication ≠ some "password")
    (hsplit : authentication_credentials a = l1 ++ c :: l2)
    (hfail : ∀ cj ∈ l1, tryCred cj ≠ none) (hsucc : tryCred c = none) :
    authentication_credentials a =
      a.agentKeys.map Credential.agentKey ++ [Credential.keyfile kf] ++ [Credential.password]
    ∧ open_connection a tryCred = Except.ok c
    ∧ open_connection_tried a tryCred = l1 ++ [c] := by
  refine ⟨?_, ?_, ?_⟩
  · simp [authentication_credentials, private_keys, has_private_keyfile,
      get_private_keyfile, uses_keyfile, key_protocols, hp, hkf, hauth]
  · rw [open_connection, hsplit, open_go_first_success tryCred c hsucc l1 l2 [] [] hfail]
  · rw [open_connection_tried, hsplit, open_go_first_success tryCred c hsucc l1 l2 [] [] hfail]
    simp

theorem claim_C5_witness :
    (authentication_credentials ⟨"sftp", "host", ["A1", "A2"], some "K", none⟩ =
      ["A1", "A2"].map Credential.agentKey ++ [Credential.keyfile "K"] ++ [Credential.password])
    ∧ open_connection ⟨"sftp", "host", ["A1", "A2"], some "K", none⟩
        (fun c => if c = Credential.keyfile "K" then none else some "auth failed")
        = Except.ok (Credential.keyfile "K")
    ∧ open_connection_tried ⟨"sftp", "host", ["A1", "A2"], some "K", none⟩
        (fun c => if c = Credential.keyfile "K" then none else some "auth failed")
        = [Credential.agentKey "A1", Credential.agentKey "A2"] ++ [Credential.keyfile "K"] :=
  claim_C5 ⟨"sftp", "host", ["A1", "A2"], some "K", none⟩ "K"
    (fun c => if c = Credential.keyfile "K" then none else some "auth failed")
    [Credential.agentKey "A1", Credential.agentKey "A2"] [Credential.password]
    (Credential.keyfile "K") rfl rfl (by decide) (by decide) (by decide) (by decide)

/-- C6 (counterexample): the aggregated error raised when every attempt
fails carries only the underlying exceptions, not `(attempt description,
underlying error)` pairs — the loop runs `errs.append(e)` on each caught
error while the human-readable attempt description is printed to stderr and
never stored.  With four pairwise-distinct attempts all failing with an
identical `AuthenticationException`, the four payload entries are
indistinguishable from one another: nothing in the raised error attributes
an entry to its attempt other than its position. -/
theorem claim_C6_counterexample :
    open_connection ⟨"sftp", "host", ["A1", "A2"], some "K", none⟩
        (fun _ => some "Authentication failed")
      = Except.error ("host", 22,
          ["Authentication failed", "Authentication failed",
           "Authentication failed", "Authentication failed"])
    ∧ open_connection_tried ⟨"sftp", "host", ["A1", "A2"], some "K", none⟩
        (fun _ => some "Authentication failed")
      = [Credential.agentKey "A1", Credential.agentKey "A2",
         Credential.keyfile "K", Credential.password]
    ∧ (authentication_credentials ⟨"sftp", "host", ["A1", "A2"], some "K", none⟩).Nodup :=
  ⟨rfl, rfl, by decide⟩

/-- C6 (amended): when every credential attempt fails with a caught error,
`open_connection` raises a single aggregated `NoValidConnectionsError`
keyed by `(host, 22)` that carries one underlying-error entry per failed
attempt, in attempt order — never only the last failure — and every attempt
was actually invoked.  The entries are the underlying exceptions only:
entry `i` is attributable to attempt `i` by its position, not by a stored
attempt description (the description is printed to stderr during the loop
and is absent from the raised error, as the counterexample shows). -/
theorem claim_C6_amended (a : StagingCfg) (tryCred : Credential → Option String)
    (errOf : Credential → String) (hall : ∀ c, tryCred c = some (errOf c)) :
    open_connection a tryCred =
      Except.error (a.host, 22, (authentication_credentials a).map errOf)
    ∧ ((authentication_credentials a).map errOf).length
        = (authentication_credentials a).length
    ∧ open_connection_tried a tryCred = authentication_credentials a := by
  have hgo := open_go_all_fail tryCred errOf (authentication_credentials a) [] []
    (fun x _ => hall x)
  refine ⟨?_, by simp, ?_⟩
  · simp [open_connection, hgo]
  · simp [open_connection_tried, hgo]

/-- Description of the error each fake attempt raises, for the C6 witness. -/
def c6_errOf : Credential → String
  | Credential.agentKey f => "agent " ++ f
  | Credential.keyfile p => "keyfile " ++ p
  | Credential.password => "bad password"

/-- Fake transport for the C6 witness: every attempt fails. -/
def c6_try (c : Credential) : Option String := some (c6_errOf c)

theorem claim_C6_amended_witness :
    (open_connection ⟨"sftp", "host", ["A1", "A2"], some "K", none⟩ c6_try =
        Except.error ("host", 22,
          (authentication_credentials ⟨"sftp", "host", ["A1", "A2"], some "K", none⟩).map c6_errOf)
      ∧ ((authentication_credentials ⟨"sftp", "host", ["A1", "A2"], some "K", none⟩).map c6_errOf).length
          = (authentication_credentials ⟨"sftp", "host", ["A1", "A2"], some "K", none⟩).length
      ∧ open_connection_tried ⟨"sftp", "host", ["A1", "A2"], some "K", none⟩ c6_try
          = authentication_credentials ⟨"sftp", "host", ["A1", "A2"], some "K", none⟩)
    ∧ (authentication_credentials ⟨"sftp", "host", ["A1", "A2"], some "K", none⟩).map c6_errOf
        = ["agent A1", "agent A2", "keyfile K", "bad password"] :=
  ⟨claim_C6_amended ⟨"sftp", "host", ["A1", "A2"], some "K", none⟩ c6_try c6_errOf (fun _ => rfl), rfl⟩

/-- Dry-run world whose remote tree lacks the requested directory, for the
C9 counterexample. -/
def c9World : World :=
  { localFS := FSNode.dir 0 []
    localCwd := []
    remoteFS := FSNode.dir 0 [("base", FSNode.dir 0 [])]
    remoteCwd := ["base"]
    dry_run := true
    skip_download := false }

/-- C9 (counterexample): with `make = true` but dry-run on,
`set_remotelocation` does not create-and-retry as the claim states for
`make = true`: entering a missing directory raises the `FileNotFoundError`
(with the synthesized URL) because creation is guarded by
`not self.dry_run and make`. -/
theorem claim_C9_counterexample :
    set_remotelocation ⟨"sftp", some "alice", "host"⟩ c9World (PathRef.child "d") true
      = RLRes.err (Err.fnf "sftp://alice@host/base/d") c9World []
    ∧ c9World.dry_run = true :=
  ⟨rfl, rfl⟩

/-- C9 (amended): with dry-run off, `set_remotelocation(dir, make)` returns
the previous remote working directory: entering an existing directory
succeeds; when entering fails it creates `dir` and retries iff `make` is
true, and with `make` false raises a typed file-not-found error whose
payload is the synthesized URL `protocol://[user@]host/current-path/dir`.
(Under dry-run — see the counterexample — a failed entry raises the error
even when `make` is true.) -/
theorem claim_C9_amended (P : ConnInfo) (w : World) (dir : PathRef) (make : Bool)
    (hdry : w.dry_run = false) :
    (∀ w2, remoteChdir w dir = some w2 →
      set_remotelocation P w dir make = RLRes.ok w.remoteCwd w2 [])
    ∧ (remoteChdir w dir = none →
      set_remotelocation P w dir false =
        RLRes.err (Err.fnf (url P w ++ "/" ++ renderRef dir)) w [])
    ∧ (remoteChdir w dir = none →
      ∀ fs2, fsMkdirAt w.remoteFS (resolveRef w.remoteCwd dir) = some fs2 →
        set_remotelocation P w dir true =
          RLRes.ok w.remoteCwd
            { w with remoteFS := fs2, remoteCwd := resolveRef w.remoteCwd dir }
            [Effect.mkdirRemote (resolveRef w.remoteCwd dir)]) := by
  obtain ⟨lfs, lcwd, rfs, rcwd, dry, skip⟩ := w
  simp only at hdry
  subst hdry
  refine ⟨?_, ?_, ?_⟩
  · intro w2 hchd
    simp [set_remotelocation, hchd]
  · intro hchd
    simp [set_remotelocation, hchd]
  · intro hchd fs2 hmk
    simp only at hchd hmk ⊢
    have hlook2 : fsLookup fs2 (resolveRef rcwd dir) = some (FSNode.dir 0 []) :=
      fsMkdirAt_lookup_self _ _ _ hmk
    have hlk : ∀ n, fsLookup rfs (resolveRef rcwd dir) = some n → ¬ ∃ d es, n = FSNode.dir d es := by
      intro n hn hex
      obtain ⟨d, es, rfl⟩ := hex
      simp [remoteChdir, hn] at hchd
    cases hlk2 : fsLookup rfs (resolveRef rcwd dir) with
    | none =>
      simp [set_remotelocation, new_directoryitem, hmk,
        set_remotelocation_retry, remoteChdir, hlook2, hlk2]
    | some n =>
      cases n with
      | file s =>
        simp [set_remotelocation, new_directoryitem, hmk,
          set_remotelocation_retry, remoteChdir, hlook2, hlk2]
      | dir d es => exact absurd ⟨d, es, rfl⟩ (hlk _ hlk2)

theorem claim_C9_amended_witness :
    (∀ w2, remoteChdir (leafWorld false false) (PathRef.child "d") = some w2 →
      set_remotelocation ⟨"sftp", some "alice", "host"⟩ (leafWorld false false)
        (PathRef.child "d") true = RLRes.ok (leafWorld false false).remoteCwd w2 [])
    ∧ (remoteChdir (leafWorld false false) (PathRef.child "d") = none →
      set_remotelocation ⟨"sftp", some "alice", "host"⟩ (leafWorld false false)
        (PathRef.child "d") false =
        RLRes.err (Err.fnf (url ⟨"sftp", some "alice", "host"⟩ (leafWorld false false)
          ++ "/" ++ renderRef (PathRef.child "d"))) (leafWorld false false) [])
    ∧ (remoteChdir (leafWorld false false) (PathRef.child "d") = none →
      ∀ fs2, fsMkdirAt (leafWorld false false).remoteFS
          (resolveRef (leafWorld false false).remoteCwd (PathRef.child "d")) = some fs2 →
        set_remotelocation ⟨"sftp", some "alice", "host"⟩ (leafWorld false false)
          (PathRef.child "d") true =
          RLRes.ok (leafWorld false false).remoteCwd
            { (leafWorld false false) with
              remoteFS := fs2
              remoteCwd := resolveRef (leafWorld false false).remoteCwd (PathRef.child "d") }
            [Effect.mkdirRemote
              (resolveRef (leafWorld false false).remoteCwd (PathRef.child "d"))]) :=
  claim_C9_amended ⟨"sftp", some "alice", "host"⟩ (leafWorld false false)
    (PathRef.child "d") true rfl

/-- World for the C3 counterexample: local file `a` of size 3 whose remote
copy already reports size 3. -/
def c3World : World :=
  { localFS := FSNode.dir 0 [("a", FSNode.file 3)]
    localCwd := []
    remoteFS := FSNode.dir 0 [("a", FSNode.file 3)]
    remoteCwd := []
    dry_run := false
    skip_download := false }

/-- Exclusion predicate excluding nothing (Python `exclude=None`). -/
def exclude_none (s : String) : Bool := false

/-- C3 (counterexample): uploading a directory whose non-excluded child `a`
already has matching local and remote sizes makes no recursive call at all
(`calls = []`, no `STOR` effect), although the claim says the mirror
recurses into every non-excluded child; the `(1, uploaded)` event is still
emitted for the skipped child. -/
theorem claim_C3_counterexample :
    upload ⟨"ftp", some "u", "h"⟩ exclude_none 2 c3World "."
      = Res.ok c3World ⟨[(1, Event.uploadedEv "a")], [], []⟩
    ∧ exclude_none "a" = false :=
  ⟨rfl, rfl⟩

/-- C3 (amended): during upload of a directory, each listed child emits
exactly one per-child event — `(2, excluded)` when the exclusion predicate
holds, else `(1, uploaded)` — and the mirror recurses into exactly those
non-excluded children whose remote reported size differs from the local
`os.stat` size: a size-matched child is skipped (no recursive call), though
it still emits `uploaded`. -/
theorem claim_C3_amended (rec : World → String → Res) (excl : String → Bool)
    (w : World) (f : String) (lsz : Nat) :
    (excl f = true →
      uploadChildStep rec excl w f = Res.ok w (Trace.ofEvent 2 (Event.excludedEv f)))
    ∧ (excl f = false → os_stat_size w f = some lsz →
        ((get_file_size w f = some lsz →
          uploadChildStep rec excl w f = Res.ok w (Trace.ofEvent 1 (Event.uploadedEv f)))
        ∧ (get_file_size w f ≠ some lsz →
          (uploadChildStep rec excl w f).callsOf = f :: (rec w f).callsOf))) := by
  refine ⟨?_, ?_⟩
  · intro hx
    simp [uploadChildStep, hx]
  · intro hx hstat
    refine ⟨?_, ?_⟩
    · intro hgfs
      simp [uploadChildStep, hx, hstat, hgfs]
    · intro hgfs
      cases hrec : rec w f with
      | ok w1 tr1 =>
        simp [uploadChildStep, hx, hstat, hgfs, hrec, Res.callsOf, Trace.app, Trace.ofCall,
          Trace.ofEvent]
      | err e w1 tr1 =>
        simp [uploadChildStep, hx, hstat, hgfs, hrec, Res.callsOf, Trace.app, Trace.ofCall]

/-- The recursive call used by the C3 witness. -/
def c3rec (w : World) (f : String) : Res :=
  upload ⟨"ftp", some "u", "h"⟩ exclude_none 1 w f

/-- Exclusion predicate excluding exactly the name `b`, for the C3 witness. -/
def exclude_b (s : String) : Bool := s == "b"

/-- Variant of `c3World` whose remote copy of `a` reports size 4 instead of
the local 3, for the C3 witness. -/
def c3World2 : World :=
  { localFS := FSNode.dir 0 [("a", FSNode.file 3)]
    localCwd := []
    remoteFS := FSNode.dir 0 [("a", FSNode.file 4)]
    remoteCwd := []
    dry_run := false
    skip_download := false }

theorem claim_C3_amended_witness :
    (uploadChildStep c3rec exclude_b c3World "b"
        = Res.ok c3World (Trace.ofEvent 2 (Event.excludedEv "b")))
    ∧ (uploadChildStep c3rec exclude_none c3World "a"
        = Res.ok c3World (Trace.ofEvent 1 (Event.uploadedEv "a")))
    ∧ ((uploadChildStep c3rec exclude_none c3World2 "a").callsOf
        = "a" :: (c3rec c3World2 "a").callsOf) :=
  ⟨(claim_C3_amended c3rec exclude_b c3World "b" 0).1 (by decide),
   ((claim_C3_amended c3rec exclude_none c3World "a" 3).2 (by rfl) (by rfl)).1 (by rfl),
   ((claim_C3_amended c3rec exclude_none c3World2 "a" 3).2 (by rfl) (by rfl)).2 (by decide)⟩

/-- Frame relation between the world before and after a successful engine
call: both working directories and both flags are unchanged, and under
dry-run the filesystem trees are unchanged too. -/
def presTo (w w2 : World) : Prop :=
  w2.localCwd = w.localCwd ∧ w2.remoteCwd = w.remoteCwd ∧
  w2.dry_run = w.dry_run ∧ w2.skip_download = w.skip_download ∧
  (w.dry_run = true → w2.localFS = w.localFS ∧ w2.remoteFS = w.remoteFS)

theorem presTo_refl (w : World) : presTo w w :=
  ⟨rfl, rfl, rfl, rfl, fun _ => ⟨rfl, rfl⟩⟩

theorem presTo_trans {w1 w2 w3 : World} (h1 : presTo w1 w2) (h2 : presTo w2 w3) :
    presTo w1 w3 := by
  obtain ⟨a1, b1, c1, d1, e1⟩ := h1
  obtain ⟨a2, b2, c2, d2, e2⟩ := h2
  refine ⟨a2.trans a1, b2.trans b1, c2.trans c1, d2.trans d1, fun hd => ?_⟩
  obtain ⟨f1, g1⟩ := e1 hd
  obtain ⟨f2, g2⟩ := e2 (c1.trans hd)
  exact ⟨f2.trans f1, g2.trans g1⟩

theorem set_remotelocation_dry_effs (P : ConnInfo) (w : World) (dir : PathRef) (make : Bool)
    (hdry : w.dry_run = true) :
    (set_remotelocation P w dir make).effectsOf = [] := by
  obtain ⟨lfs, lcwd, rfs, rcwd, dry, skip⟩ := w
  simp only at hdry
  subst hdry
  cases hc : remoteChdir ⟨lfs, lcwd, rfs, rcwd, true, skip⟩ dir with
  | some w2 => simp [set_remotelocation, hc, RLRes.effectsOf]
  | none => simp [set_remotelocation, hc, RLRes.effectsOf]

theorem set_location_dry_effs (P : ConnInfo) (w : World) (dir : PathRef)
    (remote : Option PathRef) (make : Bool) (hdry : w.dry_run = true) :
    (set_location P w dir remote make).effectsOf = [] := by
  obtain ⟨lfs, lcwd, rfs, rcwd, dry, skip⟩ := w
  simp only at hdry
  subst hdry
  cases remote with
  | none =>
    cases hl : localChdir ⟨lfs, lcwd, rfs, rcwd, true, skip⟩ dir with
    | ok w2 =>
      have hw2 : w2.dry_run = true := by
        rw [localChdir] at hl
        cases hlk : fsLookup lfs (resolveRef lcwd dir) with
        | none => rw [hlk] at hl; exact absurd hl (by simp)
        | some n =>
          cases n with
          | file s => rw [hlk] at hl; exact absurd hl (by simp)
          | dir d es =>
            rw [hlk] at hl
            simp only [Except.ok.injEq] at hl
            subst hl
            rfl
      cases hrr : set_remotelocation P w2 dir make with
      | ok rlast w3 effs2 =>
        have hemp := set_remotelocation_dry_effs P w2 dir make hw2
        rw [hrr] at hemp
        simp only [RLRes.effectsOf] at hemp
        simp [set_location, hl, hrr, LocRes.effectsOf, hemp]
      | err e w3 effs2 =>
        have hemp := set_remotelocation_dry_effs P w2 dir make hw2
        rw [hrr] at hemp
        simp only [RLRes.effectsOf] at hemp
        simp [set_location, hl, hrr, LocRes.effectsOf, hemp]
    | error e =>
      cases e with
      | fnf s =>
        cases hrr : set_remotelocation P ⟨lfs, lcwd, rfs, rcwd, true, skip⟩ dir make with
        | ok rlast w3 effs2 =>
          have hemp := set_remotelocation_dry_effs P ⟨lfs, lcwd, rfs, rcwd, true, skip⟩ dir make rfl
          rw [hrr] at hemp
          simp only [RLRes.effectsOf] at hemp
          simp [set_location, hl, hrr, LocRes.effectsOf, hemp]
        | err e2 w3 effs2 =>
          have hemp := set_remotelocation_dry_effs P ⟨lfs, lcwd, rfs, rcwd, true, skip⟩ dir make rfl
          rw [hrr] at hemp
          simp only [RLRes.effectsOf] at hemp
          simp [set_location, hl, hrr, LocRes.effectsOf, hemp]
      | errorPerm => simp [set_location, hl, LocRes.effectsOf]
      | notADirectory => simp [set_location, hl, LocRes.effectsOf]
      | osError => simp [set_location, hl, LocRes.effectsOf]
      | fuelOut => simp [set_location, hl, LocRes.effectsOf]
  | some r =>
    cases hl : localChdir ⟨lfs, lcwd, rfs, rcwd, true, skip⟩ dir with
    | ok w2 =>
      have hw2 : w2.dry_run = true := by
        rw [localChdir] at hl
        cases hlk : fsLookup lfs (resolveRef lcwd dir) with
        | none => rw [hlk] at hl; exact absurd hl (by simp)
        | some n =>
          cases n with
          | file s => rw [hlk] at hl; exact absurd hl (by simp)
          | dir d es =>
            rw [hlk] at hl
            simp only [Except.ok.injEq] at hl
            subst hl
            rfl
      cases hrr : set_remotelocation P w2 r make with
      | ok rlast w3 effs2 =>
        have hemp := set_remotelocation_dry_effs P w2 r make hw2
        rw [hrr] at hemp
        simp only [RLRes.effectsOf] at hemp
        simp [set_location, hl, hrr, LocRes.effectsOf, hemp]
      | err e w3 effs2 =>
        have hemp := set_remotelocation_dry_effs P w2 r make hw2
        rw [hrr] at hemp
        simp only [RLRes.effectsOf] at hemp
        simp [set_location, hl, hrr, LocRes.effectsOf, hemp]
    | error e =>
      cases e with
      | fnf s =>
        cases hrr : set_remotelocation P ⟨lfs, lcwd, rfs, rcwd, true, skip⟩ r make with
        | ok rlast w3 effs2 =>
          have hemp := set_remotelocation_dry_effs P ⟨lfs, lcwd, rfs, rcwd, true, skip⟩ r make rfl
          rw [hrr] at hemp
          simp only [RLRes.effectsOf] at hemp
          simp [set_location, hl, hrr, LocRes.effectsOf, hemp]
        | err e2 w3 effs2 =>
          have hemp := set_remotelocation_dry_effs P ⟨lfs, lcwd, rfs, rcwd, true, skip⟩ r make rfl
          rw [hrr] at hemp
          simp only [RLRes.effectsOf] at hemp
          simp [set_location, hl, hrr, LocRes.effectsOf, hemp]
      | errorPerm => simp [set_location, hl, LocRes.effectsOf]
      | notADirectory => simp [set_location, hl, LocRes.effectsOf]
      | osError => simp [set_location, hl, LocRes.effectsOf]
      | fuelOut => simp [set_location, hl, LocRes.effectsOf]

theorem set_location_descent_ok (P : ConnInfo) (w : World) (name : String)
    (a b : List String) (w1 : World) (effs : List Effect)
    (h : set_location P w (PathRef.child name) none true = LocRes.ok a b w1 effs) :
    a = w.localCwd ∧ b = w.remoteCwd ∧
    w1.dry_run = w.dry_run ∧ w1.skip_download = w.skip_download ∧
    w1.remoteCwd = w.remoteCwd ++ [name] ∧
    (∃ d es, fsLookup w1.remoteFS (w.remoteCwd ++ [name]) = some (FSNode.dir d es)) ∧
    ((w1.localCwd = w.localCwd ++ [name] ∧
        ∃ d es, fsLookup w1.localFS (w.localCwd ++ [name]) = some (FSNode.dir d es))
      ∨ (w.dry_run = true ∧ w1.localCwd = w.localCwd ∧
        fsLookup w.localFS (w.localCwd ++ [name]) = none)) ∧
    (w.dry_run = true → w1.localFS = w.localFS ∧ w1.remoteFS = w.remoteFS ∧ effs = []) := by
  obtain ⟨lfs, lcwd, rfs, rcwd, dry, skip⟩ := w
  simp only
  cases dry with
  | true =>
    cases hL : fsLookup lfs (lcwd ++ [name]) with
      | some n =>
        cases n with
          | file s =>
          simp [set_location, localChdir, resolveRef, os_mkdir, set_remotelocation, remoteChdir, new_directoryitem, set_remotelocation_retry, hL] at h
          | dir dl el =>
          cases hR : fsLookup rfs (rcwd ++ [name]) with
            | some m =>
              cases m with
                | file s2 =>
                simp [set_location, localChdir, resolveRef, os_mkdir, set_remotelocation, remoteChdir, new_directoryitem, set_remotelocation_retry, hL, hR] at h
                | dir dr er =>
                have hval : set_location P ⟨lfs, lcwd, rfs, rcwd, true, skip⟩ (PathRef.child name) none true =
                    LocRes.ok lcwd rcwd ⟨lfs, lcwd ++ [name], rfs, rcwd ++ [name], true, skip⟩ [] := by
                  simp [set_location, localChdir, resolveRef, os_mkdir, set_remotelocation, remoteChdir, new_directoryitem, set_remotelocation_retry, hL, hR]
                rw [hval] at h
                injection h with ha hb hw he
                subst ha; subst hb; subst hw; subst he
                exact ⟨rfl, rfl, rfl, rfl, rfl, ⟨dr, er, hR⟩,
                  Or.inl ⟨rfl, dl, el, hL⟩, fun _ => ⟨rfl, rfl, rfl⟩⟩
            | none =>
            simp [set_location, localChdir, resolveRef, os_mkdir, set_remotelocation, remoteChdir, new_directoryitem, set_remotelocation_retry, hL, hR] at h
      | none =>
      cases hR : fsLookup rfs (rcwd ++ [name]) with
        | some m =>
          cases m with
            | file s2 =>
            simp [set_location, localChdir, resolveRef, os_mkdir, set_remotelocation, remoteChdir, new_directoryitem, set_remotelocation_retry, hL, hR] at h
            | dir dr er =>
            have hval : set_location P ⟨lfs, lcwd, rfs, rcwd, true, skip⟩ (PathRef.child name) none true =
                LocRes.ok lcwd rcwd ⟨lfs, lcwd, rfs, rcwd ++ [name], true, skip⟩ [] := by
              simp [set_location, localChdir, resolveRef, os_mkdir, set_remotelocation, remoteChdir, new_directoryitem, set_remotelocation_retry, hL, hR]
            rw [hval] at h
            injection h with ha hb hw he
            subst ha; subst hb; subst hw; subst he
            exact ⟨rfl, rfl, rfl, rfl, rfl, ⟨dr, er, hR⟩,
              Or.inr ⟨rfl, rfl, rfl⟩, fun _ => ⟨rfl, rfl, rfl⟩⟩
        | none =>
        simp [set_location, localChdir, resolveRef, os_mkdir, set_remotelocation, remoteChdir, new_directoryitem, set_remotelocation_retry, hL, hR] at h
  | false =>
    cases hL : fsLookup lfs (lcwd ++ [name]) with
      | some n =>
        cases n with
          | file s =>
          simp [set_location, localChdir, resolveRef, os_mkdir, set_remotelocation, remoteChdir, new_directoryitem, set_remotelocation_retry, hL] at h
          | dir dl el =>
          cases hR : fsLookup rfs (rcwd ++ [name]) with
            | some m =>
              cases m with
                | file s2 =>
                  cases hmkR : fsMkdirAt rfs (rcwd ++ [name]) with
                    | none =>
                    simp [set_location, localChdir, resolveRef, os_mkdir, set_remotelocation, remoteChdir, new_directoryitem, set_remotelocation_retry, hL, hR, hmkR] at h
                    | some rfs2 =>
                    have hlk2 : fsLookup rfs2 (rcwd ++ [name]) = some (FSNode.dir 0 []) :=
                      fsMkdirAt_lookup_self _ _ _ hmkR
                    have hval : set_location P ⟨lfs, lcwd, rfs, rcwd, false, skip⟩ (PathRef.child name) none true =
                        LocRes.ok lcwd rcwd ⟨lfs, lcwd ++ [name], rfs2, rcwd ++ [name], false, skip⟩ [Effect.mkdirRemote (rcwd ++ [name])] := by
                      simp [set_location, localChdir, resolveRef, os_mkdir, set_remotelocation, remoteChdir, new_directoryitem, set_remotelocation_retry, hL, hR, hmkR, hlk2]
                    rw [hval] at h
                    injection h with ha hb hw he
                    subst ha; subst hb; subst hw; subst he
                    exact ⟨rfl, rfl, rfl, rfl, rfl, ⟨0, [], hlk2⟩,
                      Or.inl ⟨rfl, dl, el, hL⟩, fun hd => absurd hd (by simp)⟩
                | dir dr er =>
                have hval : set_location P ⟨lfs, lcwd, rfs, rcwd, false, skip⟩ (PathRef.child name) none true =
                    LocRes.ok lcwd rcwd ⟨lfs, lcwd ++ [name], rfs, rcwd ++ [name], false, skip⟩ [] := by
                  simp [set_location, localChdir, resolveRef, os_mkdir, set_remotelocation, remoteChdir, new_directoryitem, set_remotelocation_retry, hL, hR]
                rw [hval] at h
                injection h with ha hb hw he
                subst ha; subst hb; subst hw; subst he
                exact ⟨rfl, rfl, rfl, rfl, rfl, ⟨dr, er, hR⟩,
                  Or.inl ⟨rfl, dl, el, hL⟩, fun hd => absurd hd (by simp)⟩
            | none =>
            cases hmkR : fsMkdirAt rfs (rcwd ++ [name]) with
              | none =>
              simp [set_location, localChdir, resolveRef, os_mkdir, set_remotelocation, remoteChdir, new_directoryitem, set_remotelocation_retry, hL, hR, hmkR] at h
              | some rfs2 =>
              have hlk2 : fsLookup rfs2 (rcwd ++ [name]) = some (FSNode.dir 0 []) :=
                fsMkdirAt_lookup_self _ _ _ hmkR
              have hval : set_location P ⟨lfs, lcwd, rfs, rcwd, false, skip⟩ (PathRef.child name) none true =
                  LocRes.ok lcwd rcwd ⟨lfs, lcwd ++ [name], rfs2, rcwd ++ [name], false, skip⟩ [Effect.mkdirRemote (rcwd ++ [name])] := by
                simp [set_location, localChdir, resolveRef, os_mkdir, set_remotelocation, remoteChdir, new_directoryitem, set_remotelocation_retry, hL, hR, hmkR, hlk2]
              rw [hval] at h
              injection h with ha hb hw he
              subst ha; subst hb; subst hw; subst he
              exact ⟨rfl, rfl, rfl, rfl, rfl, ⟨0, [], hlk2⟩,
                Or.inl ⟨rfl, dl, el, hL⟩, fun hd => absurd hd (by simp)⟩
      | none =>
      cases hmkL : fsMkdirAt lfs (lcwd ++ [name]) with
        | none =>
        simp [set_location, localChdir, resolveRef, os_mkdir, set_remotelocation, remoteChdir, new_directoryitem, set_remotelocation_retry, hL, hmkL] at h
        | some lfs2 =>
        have hlkL2 : fsLookup lfs2 (lcwd ++ [name]) = some (FSNode.dir 0 []) :=
          fsMkdirAt_lookup_self _ _ _ hmkL
        cases hR : fsLookup rfs (rcwd ++ [name]) with
          | some m =>
            cases m with
              | file s2 =>
                cases hmkR : fsMkdirAt rfs (rcwd ++ [name]) with
                  | none =>
                  simp [set_location, localChdir, resolveRef, os_mkdir, set_remotelocation, remoteChdir, new_directoryitem, set_remotelocation_retry, hL, hmkL, hlkL2, hR, hmkR] at h
                  | some rfs2 =>
                  have hlk2 : fsLookup rfs2 (rcwd ++ [name]) = some (FSNode.dir 0 []) :=
                    fsMkdirAt_lookup_self _ _ _ hmkR
                  have hval : set_location P ⟨lfs, lcwd, rfs, rcwd, false, skip⟩ (PathRef.child name) none true =
                      LocRes.ok lcwd rcwd ⟨lfs2, lcwd ++ [name], rfs2, rcwd ++ [name], false, skip⟩ [Effect.mkdirLocal (lcwd ++ [name]), Effect.mkdirRemote (rcwd ++ [name])] := by
                    simp [set_location, localChdir, resolveRef, os_mkdir, set_remotelocation, remoteChdir, new_directoryitem, set_remotelocation_retry, hL, hmkL, hlkL2, hR, hmkR, hlk2]
                  rw [hval] at h
                  injection h with ha hb hw he
                  subst ha; subst hb; subst hw; subst he
                  exact ⟨rfl, rfl, rfl, rfl, rfl, ⟨0, [], hlk2⟩,
                    Or.inl ⟨rfl, 0, [], hlkL2⟩, fun hd => absurd hd (by simp)⟩
              | dir dr er =>
              have hval : set_location P ⟨lfs, lcwd, rfs, rcwd, false, skip⟩ (PathRef.child name) none true =
                  LocRes.ok lcwd rcwd ⟨lfs2, lcwd ++ [name], rfs, rcwd ++ [name], false, skip⟩ [Effect.mkdirLocal (lcwd ++ [name])] := by
                simp [set_location, localChdir, resolveRef, os_mkdir, set_remotelocation, remoteChdir, new_directoryitem, set_remotelocation_retry, hL, hmkL, hlkL2, hR]
              rw [hval] at h
              injection h with ha hb hw he
              subst ha; subst hb; subst hw; subst he
              exact ⟨rfl, rfl, rfl, rfl, rfl, ⟨dr, er, hR⟩,
                Or.inl ⟨rfl, 0, [], hlkL2⟩, fun hd => absurd hd (by simp)⟩
          | none =>
          cases hmkR : fsMkdirAt rfs (rcwd ++ [name]) with
            | none =>
            simp [set_location, localChdir, resolveRef, os_mkdir, set_remotelocation, remoteChdir, new_directoryitem, set_remotelocation_retry, hL, hmkL, hlkL2, hR, hmkR] at h
            | some rfs2 =>
            have hlk2 : fsLookup rfs2 (rcwd ++ [name]) = some (FSNode.dir 0 []) :=
              fsMkdirAt_lookup_self _ _ _ hmkR
            have hval : set_location P ⟨lfs, lcwd, rfs, rcwd, false, skip⟩ (PathRef.child name) none true =
                LocRes.ok lcwd rcwd ⟨lfs2, lcwd ++ [name], rfs2, rcwd ++ [name], false, skip⟩ [Effect.mkdirLocal (lcwd ++ [name]), Effect.mkdirRemote (rcwd ++ [name])] := by
              simp [set_location, localChdir, resolveRef, os_mkdir, set_remotelocation, remoteChdir, new_directoryitem, set_remotelocation_retry, hL, hmkL, hlkL2, hR, hmkR, hlk2]
            rw [hval] at h
            injection h with ha hb hw he
            subst ha; subst hb; subst hw; subst he
            exact ⟨rfl, rfl, rfl, rfl, rfl, ⟨0, [], hlk2⟩,
              Or.inl ⟨rfl, 0, [], hlkL2⟩, fun hd => absurd hd (by simp)⟩

theorem set_location_restore_ok (P : ConnInfo) (w : World) (p q : List String)
    (a b : List String) (w3 : World) (effs : List Effect)
    (h : set_location P w (PathRef.abs p) (some (PathRef.abs q)) false = LocRes.ok a b w3 effs) :
    a = w.localCwd ∧ b = w.remoteCwd ∧ w3.localFS = w.localFS ∧ w3.remoteFS = w.remoteFS ∧
    w3.dry_run = w.dry_run ∧ w3.skip_download = w.skip_download ∧ w3.remoteCwd = q ∧
    effs = [] ∧
    (w3.localCwd = p ∨ (w.dry_run = true ∧ w3.localCwd = w.localCwd ∧
      fsLookup w.localFS p = none)) := by
  obtain ⟨lfs, lcwd, rfs, rcwd, dry, skip⟩ := w
  simp only
  cases dry with
  | true =>
    cases hL : fsLookup lfs p with
      | some n =>
        cases n with
          | file s =>
          simp [set_location, localChdir, resolveRef, os_mkdir, set_remotelocation, remoteChdir, new_directoryitem, set_remotelocation_retry, hL] at h
          | dir dl el =>
          cases hR : fsLookup rfs q with
            | some m =>
              cases m with
                | file s2 =>
                simp [set_location, localChdir, resolveRef, os_mkdir, set_remotelocation, remoteChdir, new_directoryitem, set_remotelocation_retry, hL, hR] at h
                | dir dr er =>
                have hval : set_location P ⟨lfs, lcwd, rfs, rcwd, true, skip⟩ (PathRef.abs p) (some (PathRef.abs q)) false =
                    LocRes.ok lcwd rcwd ⟨lfs, p, rfs, q, true, skip⟩ [] := by
                  simp [set_location, localChdir, resolveRef, os_mkdir, set_remotelocation, remoteChdir, new_directoryitem, set_remotelocation_retry, hL, hR]
                rw [hval] at h
                injection h with ha hb hw he
                subst ha; subst hb; subst hw; subst he
                exact ⟨rfl, rfl, rfl, rfl, rfl, rfl, rfl, rfl, Or.inl rfl⟩
            | none =>
            simp [set_location, localChdir, resolveRef, os_mkdir, set_remotelocation, remoteChdir, new_directoryitem, set_remotelocation_retry, hL, hR] at h
      | none =>
      cases hR : fsLookup rfs q with
        | some m =>
          cases m with
            | file s2 =>
            simp [set_location, localChdir, resolveRef, os_mkdir, set_remotelocation, remoteChdir, new_directoryitem, set_remotelocation_retry, hL, hR] at h
            | dir dr er =>
            have hval : set_location P ⟨lfs, lcwd, rfs, rcwd, true, skip⟩ (PathRef.abs p) (some (PathRef.abs q)) false =
                LocRes.ok lcwd rcwd ⟨lfs, lcwd, rfs, q, true, skip⟩ [] := by
              simp [set_location, localChdir, resolveRef, os_mkdir, set_remotelocation, remoteChdir, new_directoryitem, set_remotelocation_retry, hL, hR]
            rw [hval] at h
            injection h with ha hb hw he
            subst ha; subst hb; subst hw; subst he
            exact ⟨rfl, rfl, rfl, rfl, rfl, rfl, rfl, rfl, Or.inr ⟨rfl, rfl, rfl⟩⟩
        | none =>
        simp [set_location, localChdir, resolveRef, os_mkdir, set_remotelocation, remoteChdir, new_directoryitem, set_remotelocation_retry, hL, hR] at h
  | false =>
    cases hL : fsLookup lfs p with
      | some n =>
        cases n with
          | file s =>
          simp [set_location, localChdir, resolveRef, os_mkdir, set_remotelocation, remoteChdir, new_directoryitem, set_remotelocation_retry, hL] at h
          | dir dl el =>
          cases hR : fsLookup rfs q with
            | some m =>
              cases m with
                | file s2 =>
                simp [set_location, localChdir, resolveRef, os_mkdir, set_remotelocation, remoteChdir, new_directoryitem, set_remotelocation_retry, hL, hR] at h
                | dir dr er =>
                have hval : set_location P ⟨lfs, lcwd, rfs, rcwd, false, skip⟩ (PathRef.abs p) (some (PathRef.abs q)) false =
                    LocRes.ok lcwd rcwd ⟨lfs, p, rfs, q, false, skip⟩ [] := by
                  simp [set_location, localChdir, resolveRef, os_mkdir, set_remotelocation, remoteChdir, new_directoryitem, set_remotelocation_retry, hL, hR]
                rw [hval] at h
                injection h with ha hb hw he
                subst ha; subst hb; subst hw; subst he
                exact ⟨rfl, rfl, rfl, rfl, rfl, rfl, rfl, rfl, Or.inl rfl⟩
            | none =>
            simp [set_location, localChdir, resolveRef, os_mkdir, set_remotelocation, remoteChdir, new_directoryitem, set_remotelocation_retry, hL, hR] at h
      | none =>
      simp [set_location, localChdir, resolveRef, os_mkdir, set_remotelocation, remoteChdir, new_directoryitem, set_remotelocation_retry, hL] at h

theorem set_location_descent_err_dry (P : ConnInfo) (w : World) (name : String)
    (e : Err) (w1 : World) (effs : List Effect) (hdry : w.dry_run = true)
    (h : set_location P w (PathRef.child name) none true = LocRes.err e w1 effs) :
    w1.localFS = w.localFS ∧ w1.remoteFS = w.remoteFS ∧ w1.remoteCwd = w.remoteCwd ∧
    w1.dry_run = w.dry_run ∧ w1.skip_download = w.skip_download ∧ effs = [] ∧
    (w1.localCwd = w.localCwd ∨ (w1.localCwd = w.localCwd ++ [name] ∧
      ∃ d es, fsLookup w.localFS (w.localCwd ++ [name]) = some (FSNode.dir d es))) := by
  obtain ⟨lfs, lcwd, rfs, rcwd, dry, skip⟩ := w
  simp only at hdry
  subst hdry
  simp only
  cases hL : fsLookup lfs (lcwd ++ [name]) with
    | some n =>
      cases n with
        | file s =>
        have hval : set_location P ⟨lfs, lcwd, rfs, rcwd, true, skip⟩ (PathRef.child name) none true =
            LocRes.err Err.notADirectory ⟨lfs, lcwd, rfs, rcwd, true, skip⟩ [] := by
          simp [set_location, localChdir, resolveRef, os_mkdir, set_remotelocation, remoteChdir, new_directoryitem, set_remotelocation_retry, hL]
        rw [hval] at h
        injection h with he1 hw he2
        subst he1; subst hw; subst he2
        exact ⟨rfl, rfl, rfl, rfl, rfl, rfl, Or.inl rfl⟩
        | dir dl el =>
        cases hR : fsLookup rfs (rcwd ++ [name]) with
          | some m =>
            cases m with
              | file s2 =>
              have hval : set_location P ⟨lfs, lcwd, rfs, rcwd, true, skip⟩ (PathRef.child name) none true =
                  LocRes.err (Err.fnf (url P ⟨lfs, lcwd ++ [name], rfs, rcwd, true, skip⟩ ++ "/" ++ renderRef (PathRef.child name))) ⟨lfs, lcwd ++ [name], rfs, rcwd, true, skip⟩ [] := by
                simp [set_location, localChdir, resolveRef, os_mkdir, set_remotelocation, remoteChdir, new_directoryitem, set_remotelocation_retry, hL, hR]
              rw [hval] at h
              injection h with he1 hw he2
              subst he1; subst hw; subst he2
              exact ⟨rfl, rfl, rfl, rfl, rfl, rfl, Or.inr ⟨rfl, dl, el, rfl⟩⟩
              | dir dr er =>
              simp [set_location, localChdir, resolveRef, os_mkdir, set_remotelocation, remoteChdir, new_directoryitem, set_remotelocation_retry, hL, hR] at h
          | none =>
          have hval : set_location P ⟨lfs, lcwd, rfs, rcwd, true, skip⟩ (PathRef.child name) none true =
              LocRes.err (Err.fnf (url P ⟨lfs, lcwd ++ [name], rfs, rcwd, true, skip⟩ ++ "/" ++ renderRef (PathRef.child name))) ⟨lfs, lcwd ++ [name], rfs, rcwd, true, skip⟩ [] := by
            simp [set_location, localChdir, resolveRef, os_mkdir, set_remotelocation, remoteChdir, new_directoryitem, set_remotelocation_retry, hL, hR]
          rw [hval] at h
          injection h with he1 hw he2
          subst he1; subst hw; subst he2
          exact ⟨rfl, rfl, rfl, rfl, rfl, rfl, Or.inr ⟨rfl, dl, el, rfl⟩⟩
    | none =>
    cases hR : fsLookup rfs (rcwd ++ [name]) with
      | some m =>
        cases m with
          | file s2 =>
          have hval : set_location P ⟨lfs, lcwd, rfs, rcwd, true, skip⟩ (PathRef.child name) none true =
              LocRes.err (Err.fnf (url P ⟨lfs, lcwd, rfs, rcwd, true, skip⟩ ++ "/" ++ renderRef (PathRef.child name))) ⟨lfs, lcwd, rfs, rcwd, true, skip⟩ [] := by
            simp [set_location, localChdir, resolveRef, os_mkdir, set_remotelocation, remoteChdir, new_directoryitem, set_remotelocation_retry, hL, hR]
          rw [hval] at h
          injection h with he1 hw he2
          subst he1; subst hw; subst he2
          exact ⟨rfl, rfl, rfl, rfl, rfl, rfl, Or.inl rfl⟩
          | dir dr er =>
          simp [set_location, localChdir, resolveRef, os_mkdir, set_remotelocation, remoteChdir, new_directoryitem, set_remotelocation_retry, hL, hR] at h
      | none =>
      have hval : set_location P ⟨lfs, lcwd, rfs, rcwd, true, skip⟩ (PathRef.child name) none true =
          LocRes.err (Err.fnf (url P ⟨lfs, lcwd, rfs, rcwd, true, skip⟩ ++ "/" ++ renderRef (PathRef.child name))) ⟨lfs, lcwd, rfs, rcwd, true, skip⟩ [] := by
        simp [set_location, localChdir, resolveRef, os_mkdir, set_remotelocation, remoteChdir, new_directoryitem, set_remotelocation_retry, hL, hR]
      rw [hval] at h
      injection h with he1 hw he2
      subst he1; subst hw; subst he2
      exact ⟨rfl, rfl, rfl, rfl, rfl, rfl, Or.inl rfl⟩

def StepRes.worldOf : StepRes → World
  | StepRes.ok w _ => w
  | StepRes.err _ w _ => w

def StepRes.effsOf : StepRes → List Effect
  | StepRes.ok _ e => e
  | StepRes.err _ _ e => e

theorem remove_item_shape (w : World) (f : String) :
    (remove_item w f).worldOf.localFS = w.localFS ∧
    (remove_item w f).worldOf.localCwd = w.localCwd ∧
    (remove_item w f).worldOf.remoteCwd = w.remoteCwd ∧
    (remove_item w f).worldOf.dry_run = w.dry_run ∧
    (remove_item w f).worldOf.skip_download = w.skip_download ∧
    (w.dry_run = true → (remove_item w f).worldOf.remoteFS = w.remoteFS ∧
      (remove_item w f).effsOf = []) := by
  by_cases hd : w.dry_run = true
  · simp [remove_item, hd, StepRes.worldOf, StepRes.effsOf]
  · cases hdel : fsDeleteFileAt w.remoteFS (w.remoteCwd ++ [f]) with
    | some fs2 => simp [remove_item, hd, hdel, StepRes.worldOf, StepRes.effsOf]
    | none => simp [remove_item, hd, hdel, StepRes.worldOf, StepRes.effsOf]

theorem remove_directoryitem_shape (w : World) (f : String) :
    (remove_directoryitem w f).worldOf.localFS = w.localFS ∧
    (remove_directoryitem w f).worldOf.localCwd = w.localCwd ∧
    (remove_directoryitem w f).worldOf.remoteCwd = w.remoteCwd ∧
    (remove_directoryitem w f).worldOf.dry_run = w.dry_run ∧
    (remove_directoryitem w f).worldOf.skip_download = w.skip_download ∧
    (w.dry_run = true → (remove_directoryitem w f).worldOf.remoteFS = w.remoteFS ∧
      (remove_directoryitem w f).effsOf = []) := by
  by_cases hd : w.dry_run = true
  · simp [remove_directoryitem, hd, StepRes.worldOf, StepRes.effsOf]
  · cases hdel : fsRmdirAt w.remoteFS (w.remoteCwd ++ [f]) with
    | some fs2 => simp [remove_directoryitem, hd, hdel, StepRes.worldOf, StepRes.effsOf]
    | none => simp [remove_directoryitem, hd, hdel, StepRes.worldOf, StepRes.effsOf]

theorem download_file_shape (net : Nat → Nat) (w : World) (f : String) :
    (download_file net w f).worldOf.localCwd = w.localCwd ∧
    (download_file net w f).worldOf.remoteFS = w.remoteFS ∧
    (download_file net w f).worldOf.remoteCwd = w.remoteCwd ∧
    (download_file net w f).worldOf.dry_run = w.dry_run ∧
    (download_file net w f).worldOf.skip_download = w.skip_download ∧
    (w.dry_run = true → (download_file net w f).worldOf.localFS = w.localFS ∧
      (download_file net w f).effsOf = []) := by
  by_cases hd : (w.dry_run || w.skip_download) = true
  · simp [download_file, hd, StepRes.worldOf, StepRes.effsOf]
  · have hboth := hd
    simp only [Bool.or_eq_true, not_or, Bool.not_eq_true] at hboth
    have hd2 : ¬ (w.dry_run = true) := by simp [hboth.1]
    cases h0 : fsStorAt w.localFS (w.localCwd ++ [f]) 0 with
    | none =>
      simp [download_file, hboth.1, hboth.2, h0, StepRes.worldOf, StepRes.effsOf, hd2]
    | some fs0 =>
      cases hg : get_file_size w f with
      | none =>
        simp [download_file, hboth.1, hboth.2, h0, hg, StepRes.worldOf, StepRes.effsOf, hd2]
      | some sz =>
        cases h1 : fsStorAt w.localFS (w.localCwd ++ [f]) (net sz) with
        | none =>
          simp [download_file, hboth.1, hboth.2, h0, hg, h1, StepRes.worldOf,
            StepRes.effsOf, hd2]
        | some fs2 =>
          simp [download_file, hboth.1, hboth.2, h0, hg, h1, StepRes.worldOf,
            StepRes.effsOf, hd2]

theorem upload_file_shape (w : World) (f : String) :
    (upload_file w f).worldOf.localFS = w.localFS ∧
    (upload_file w f).worldOf.localCwd = w.localCwd ∧
    (upload_file w f).worldOf.remoteCwd = w.remoteCwd ∧
    (upload_file w f).worldOf.dry_run = w.dry_run ∧
    (upload_file w f).worldOf.skip_download = w.skip_download ∧
    (w.dry_run = true → (upload_file w f).worldOf.remoteFS = w.remoteFS ∧
      (upload_file w f).effsOf = []) := by
  by_cases hd : w.dry_run = true
  · simp [upload_file, hd, StepRes.worldOf, StepRes.effsOf]
  · cases hlk : fsLookup w.localFS (w.localCwd ++ [f]) with
    | none => simp [upload_file, hd, hlk, StepRes.worldOf, StepRes.effsOf]
    | some n =>
      cases n with
      | dir d es => simp [upload_file, hd, hlk, StepRes.worldOf, StepRes.effsOf]
      | file sz =>
        cases hst : fsStorAt w.remoteFS (w.remoteCwd ++ [f]) sz with
        | none => simp [upload_file, hd, hlk, hst, StepRes.worldOf, StepRes.effsOf]
        | some rfs2 => simp [upload_file, hd, hlk, hst, StepRes.worldOf, StepRes.effsOf]

theorem downloadLoop_pres (rec : World → String → Res) (excl : String → Bool)
    (hrec : ∀ w f, (∀ w2 tr, rec w f = Res.ok w2 tr → presTo w w2) ∧
      (w.dry_run = true → (rec w f).effectsOf = [])) :
    ∀ (l : List String) (w : World),
      (∀ w2 tr, downloadLoop rec excl l w = Res.ok w2 tr → presTo w w2) ∧
      (w.dry_run = true → (downloadLoop rec excl l w).effectsOf = []) := by
  intro l
  induction l with
  | nil =>
    intro w
    refine ⟨?_, ?_⟩
    · intro w2 tr h
      simp only [downloadLoop, Res.ok.injEq] at h
      rw [← h.1]
      exact presTo_refl w
    · intro _
      simp [downloadLoop, Res.effectsOf, Trace.nil]
  | cons f fs ih =>
    intro w
    by_cases hx : excl f = true
    · cases hrest : downloadLoop rec excl fs w with
      | ok w2 tr2 =>
        refine ⟨?_, ?_⟩
        · intro w3 tr3 h
          simp [downloadLoop, hx, hrest] at h
          rw [← h.1]
          exact ((ih w).1 w2 tr2 hrest)
        · intro hd
          have he := (ih w).2 hd
          rw [hrest] at he
          simp only [Res.effectsOf] at he
          simp [downloadLoop, hx, hrest, Res.effectsOf, Trace.app, Trace.ofEvent, he]
      | err e w2 tr2 =>
        refine ⟨?_, ?_⟩
        · intro w3 tr3 h
          simp [downloadLoop, hx, hrest] at h
        · intro hd
          have he := (ih w).2 hd
          rw [hrest] at he
          simp only [Res.effectsOf] at he
          simp [downloadLoop, hx, hrest, Res.effectsOf, Trace.app, Trace.ofEvent, he]
    · have hxf : excl f = false := by
        cases hc : excl f
        · rfl
        · exact absurd hc hx
      cases hcall : rec w f with
      | err e w1 tr1 =>
        refine ⟨?_, ?_⟩
        · intro w3 tr3 h
          simp [downloadLoop, hxf, hcall] at h
        · intro hd
          have he := (hrec w f).2 hd
          rw [hcall] at he
          simp only [Res.effectsOf] at he
          simp [downloadLoop, hxf, hcall, Res.effectsOf, Trace.app, Trace.ofCall, he]
      | ok w1 tr1 =>
        have hp1 : presTo w w1 := (hrec w f).1 w1 tr1 hcall
        have hd1 : w1.dry_run = w.dry_run := hp1.2.2.1
        cases hrest : downloadLoop rec excl fs w1 with
        | ok w2 tr2 =>
          refine ⟨?_, ?_⟩
          · intro w3 tr3 h
            simp [downloadLoop, hxf, hcall, hrest] at h
            rw [← h.1]
            exact presTo_trans hp1 ((ih w1).1 w2 tr2 hrest)
          · intro hd
            have he1 := (hrec w f).2 hd
            rw [hcall] at he1
            simp only [Res.effectsOf] at he1
            have he2 := (ih w1).2 (hd1.trans hd)
            rw [hrest] at he2
            simp only [Res.effectsOf] at he2
            simp [downloadLoop, hxf, hcall, hrest, Res.effectsOf, Trace.app, Trace.ofCall,
              Trace.ofEvent, he1, he2]
        | err e w2 tr2 =>
          refine ⟨?_, ?_⟩
          · intro w3 tr3 h
            simp [downloadLoop, hxf, hcall, hrest] at h
          · intro hd
            have he1 := (hrec w f).2 hd
            rw [hcall] at he1
            simp only [Res.effectsOf] at he1
            have he2 := (ih w1).2 (hd1.trans hd)
            rw [hrest] at he2
            simp only [Res.effectsOf] at he2
            simp [downloadLoop, hxf, hcall, hrest, Res.effectsOf, Trace.app, Trace.ofCall,
              Trace.ofEvent, he1, he2]

theorem download_pres (P : ConnInfo) (net : Nat → Nat) (excl : String → Bool) :
    ∀ (n : Nat) (w : World) (file : String),
      (∀ w2 tr, download P net excl n w file = Res.ok w2 tr → presTo w w2) ∧
      (w.dry_run = true → (download P net excl n w file).effectsOf = []) := by
  intro n
  induction n with
  | zero =>
    intro w file
    refine ⟨?_, ?_⟩
    · intro w2 tr h
      simp [download] at h
    · intro _
      simp [download, Res.effectsOf, Trace.nil]
  | succ n ih =>
    intro w file
    by_cases hdir : is_directory w file = true
    · by_cases hdot : file = "."
      · subst hdot
        cases hgc : get_childitem w with
        | error e =>
          refine ⟨?_, ?_⟩
          · intro w2 tr h
            simp [download, hdir, hgc] at h
          · intro hd
            simp [download, hdir, hgc, Res.effectsOf, Trace.app, Trace.ofEffs, Trace.nil]
        | ok names =>
          have hLp := downloadLoop_pres (fun w2 f2 => download P net excl n w2 f2) excl
            (fun w2 f2 => ih w2 f2) (sorted_childitem names) w
          cases hloop : downloadLoop (fun w2 f2 => download P net excl n w2 f2) excl
              (sorted_childitem names) w with
          | ok w2 tr2 =>
            refine ⟨?_, ?_⟩
            · intro w3 tr3 h
              simp [download, hdir, hgc, hloop] at h
              rw [← h.1]
              exact hLp.1 w2 tr2 hloop
            · intro hd
              have he := hLp.2 hd
              rw [hloop] at he
              simp only [Res.effectsOf] at he
              simp [download, hdir, hgc, hloop, Res.effectsOf, Trace.app, Trace.ofEffs,
                Trace.nil, he]
          | err e w2 tr2 =>
            refine ⟨?_, ?_⟩
            · intro w3 tr3 h
              simp [download, hdir, hgc, hloop] at h
            · intro hd
              have he := hLp.2 hd
              rw [hloop] at he
              simp only [Res.effectsOf] at he
              simp [download, hdir, hgc, hloop, Res.effectsOf, Trace.app, Trace.ofEffs,
                Trace.nil, he]
      · cases hdesc : set_location P w (PathRef.child file) none true with
        | err e w1 effs =>
          refine ⟨?_, ?_⟩
          · intro w2 tr h
            simp [download, hdir, hdot, hdesc] at h
          · intro hd
            have he := set_location_dry_effs P w (PathRef.child file) none true hd
            rw [hdesc] at he
            simp only [LocRes.effectsOf] at he
            simp [download, hdir, hdot, hdesc, Res.effectsOf, Trace.ofEffs, he]
        | ok lpwd rpwd w1 effs =>
          obtain ⟨hlp, hrp, hfd, hfsk, hrc, ⟨dr, er, hRlook⟩, hlocal, hdryd⟩ :=
            set_location_descent_ok P w file lpwd rpwd w1 effs hdesc
          cases hgc : get_childitem w1 with
          | error e =>
            refine ⟨?_, ?_⟩
            · intro w2 tr h
              simp [download, hdir, hdot, hdesc, hgc] at h
            · intro hd
              obtain ⟨_, _, he⟩ := hdryd hd
              simp [download, hdir, hdot, hdesc, hgc, Res.effectsOf, Trace.app,
                Trace.ofEffs, Trace.ofEvent, he]
          | ok names =>
            have hLp := downloadLoop_pres (fun w2 f2 => download P net excl n w2 f2) excl
              (fun w2 f2 => ih w2 f2) (sorted_childitem names) w1
            cases hloop : downloadLoop (fun w2 f2 => download P net excl n w2 f2) excl
                (sorted_childitem names) w1 with
            | err e w2 tr2 =>
              refine ⟨?_, ?_⟩
              · intro w3 tr3 h
                simp [download, hdir, hdot, hdesc, hgc, hloop] at h
              · intro hd
                obtain ⟨_, _, he⟩ := hdryd hd
                have he2 := hLp.2 (hfd.trans hd)
                rw [hloop] at he2
                simp only [Res.effectsOf] at he2
                simp [download, hdir, hdot, hdesc, hgc, hloop, Res.effectsOf, Trace.app,
                  Trace.ofEffs, Trace.ofEvent, he, he2]
            | ok w2 tr2 =>
              have hp12 : presTo w1 w2 := hLp.1 w2 tr2 hloop
              cases hasc : set_location P w2 (PathRef.abs lpwd) (some (PathRef.abs rpwd))
                  false with
              | err e w3 effs3 =>
                refine ⟨?_, ?_⟩
                · intro w4 tr4 h
                  simp [download, hdir, hdot, hdesc, hgc, hloop, hasc] at h
                · intro hd
                  obtain ⟨_, _, he⟩ := hdryd hd
                  have he2 := hLp.2 (hfd.trans hd)
                  rw [hloop] at he2
                  simp only [Res.effectsOf] at he2
                  have he3 := set_location_dry_effs P w2 (PathRef.abs lpwd)
                    (some (PathRef.abs rpwd)) false
                    (hp12.2.2.1.trans (hfd.trans hd))
                  rw [hasc] at he3
                  simp only [LocRes.effectsOf] at he3
                  simp [download, hdir, hdot, hdesc, hgc, hloop, hasc, Res.effectsOf,
                    Trace.app, Trace.ofEffs, Trace.ofEvent, he, he2, he3]
              | ok a2 b2 w3 effs3 =>
                obtain ⟨ha2, hb2, hl3, hr3, hd3, hs3, hrc3, heffs3, hloc3⟩ :=
                  set_location_restore_ok P w2 lpwd rpwd a2 b2 w3 effs3 hasc
                have hloc3v : w3.localCwd = w.localCwd := by
                  cases hloc3 with
                  | inl hcase => rw [hcase, hlp]
                  | inr hcase =>
                    obtain ⟨hd2, hc1, hlknone⟩ := hcase
                    have hdw : w.dry_run = true := by
                      rw [← hfd, ← hp12.2.2.1]
                      exact hd2
                    cases hlocal with
                    | inl hA =>
                      obtain ⟨hc2, dl, el, hlkl⟩ := hA
                      obtain ⟨dd, ees, hpar, _⟩ :=
                        fsLookup_parent w.localCwd file w1.localFS _ hlkl
                      have hw2fs : w2.localFS = w1.localFS :=
                        (hp12.2.2.2.2 (hfd.trans hdw)).1
                      rw [hw2fs, hlp] at hlknone
                      rw [hpar] at hlknone
                      exact absurd hlknone (by simp)
                    | inr hB =>
                      obtain ⟨_, hc2, _⟩ := hB
                      rw [hc1, hp12.1, hc2]
                cases hrd : remove_directoryitem w3 file with
                | err e w4 effs4 =>
                  refine ⟨?_, ?_⟩
                  · intro w5 tr5 h
                    simp [download, hdir, hdot, hdesc, hgc, hloop, hasc, hrd] at h
                  · intro hd
                    obtain ⟨_, _, he⟩ := hdryd hd
                    have he2 := hLp.2 (hfd.trans hd)
                    rw [hloop] at he2
                    simp only [Res.effectsOf] at he2
                    have hsh := remove_directoryitem_shape w3 file
                    rw [hrd] at hsh
                    simp only [StepRes.worldOf, StepRes.effsOf] at hsh
                    have hd3v : w3.dry_run = true := by
                      rw [hd3, hp12.2.2.1, hfd]
                      exact hd
                    obtain ⟨_, he4⟩ := hsh.2.2.2.2.2 hd3v
                    simp [download, hdir, hdot, hdesc, hgc, hloop, hasc, hrd,
                      Res.effectsOf, Trace.app, Trace.ofEffs, Trace.ofEvent, he, he2,
                      heffs3, he4]
                | ok w4 effs4 =>
                  have hsh := remove_directoryitem_shape w3 file
                  rw [hrd] at hsh
                  simp only [StepRes.worldOf, StepRes.effsOf] at hsh
                  refine ⟨?_, ?_⟩
                  · intro w5 tr5 h
                    simp [download, hdir, hdot, hdesc, hgc, hloop, hasc, hrd] at h
                    rw [← h.1]
                    refine ⟨?_, ?_, ?_, ?_, ?_⟩
                    · rw [hsh.2.1, hloc3v]
                    · rw [hsh.2.2.1, hrc3, hrp]
                    · rw [hsh.2.2.2.1, hd3, hp12.2.2.1, hfd]
                    · rw [hsh.2.2.2.2.1, hs3, hp12.2.2.2.1, hfsk]
                    · intro hd
                      have hd3v : w3.dry_run = true := by
                        rw [hd3, hp12.2.2.1, hfd]
                        exact hd
                      obtain ⟨hrfs4, _⟩ := hsh.2.2.2.2.2 hd3v
                      obtain ⟨hlfs1, hrfs1, _⟩ := hdryd hd
                      obtain ⟨hlfs2, hrfs2⟩ := hp12.2.2.2.2 (hfd.trans hd)
                      constructor
                      · rw [hsh.1, hl3, hlfs2, hlfs1]
                      · rw [hrfs4, hr3, hrfs2, hrfs1]
                  · intro hd
                    obtain ⟨_, _, he⟩ := hdryd hd
                    have he2 := hLp.2 (hfd.trans hd)
                    rw [hloop] at he2
                    simp only [Res.effectsOf] at he2
                    have hd3v : w3.dry_run = true := by
                      rw [hd3, hp12.2.2.1, hfd]
                      exact hd
                    obtain ⟨_, he4⟩ := hsh.2.2.2.2.2 hd3v
                    simp [download, hdir, hdot, hdesc, hgc, hloop, hasc, hrd,
                      Res.effectsOf, Trace.app, Trace.ofEffs, Trace.ofEvent, he, he2,
                      heffs3, he4]
    · -- plain-file leaf
      have hsh := download_file_shape net w file
      cases hdf : download_file net w file with
      | err e w1 effs =>
        rw [hdf] at hsh
        simp only [StepRes.worldOf, StepRes.effsOf] at hsh
        refine ⟨?_, ?_⟩
        · intro w2 tr h
          simp [download, hdir, hdf] at h
        · intro hd
          obtain ⟨_, he⟩ := hsh.2.2.2.2.2 hd
          simp [download, hdir, hdf, Res.effectsOf, Trace.ofEffs, he]
      | ok w1 effs =>
        rw [hdf] at hsh
        simp only [StepRes.worldOf, StepRes.effsOf] at hsh
        by_cases hd1 : w1.dry_run = true
        · refine ⟨?_, ?_⟩
          · intro w2 tr h
            simp [download, hdir, hdf, hd1] at h
            rw [← h.1]
            refine ⟨hsh.1, hsh.2.2.1, hsh.2.2.2.1, hsh.2.2.2.2.1, fun hd => ?_⟩
            obtain ⟨hlfs, _⟩ := hsh.2.2.2.2.2 hd
            exact ⟨hlfs, hsh.2.1⟩
          · intro hd
            obtain ⟨_, he⟩ := hsh.2.2.2.2.2 hd
            simp [download, hdir, hdf, hd1, Res.effectsOf, Trace.ofEffs, he]
        · have hdw : ¬ (w.dry_run = true) := by
            rw [← hsh.2.2.2.1]
            exact hd1
          refine ⟨?_, fun hd => absurd hd hdw⟩
          intro w2 tr h
          cases hm : (if w1.skip_download = true then Except.ok true
              else test_matched w1 file) with
          | error e2 =>
            simp [download, hdir, hdf, hd1, hm] at h
          | ok matched =>
            by_cases hmt : matched = true
            · cases hri : remove_item w1 file with
              | err e2 w2b effs2 =>
                simp [download, hdir, hdf, hd1, hm, hmt, hri] at h
              | ok w2b effs2 =>
                have hsh2 := remove_item_shape w1 file
                rw [hri] at hsh2
                simp only [StepRes.worldOf, StepRes.effsOf] at hsh2
                simp [download, hdir, hdf, hd1, hm, hmt, hri] at h
                rw [← h.1]
                refine ⟨?_, ?_, ?_, ?_, fun hd => absurd hd hdw⟩
                · rw [hsh2.2.1, hsh.1]
                · rw [hsh2.2.2.1, hsh.2.2.1]
                · rw [hsh2.2.2.2.1, hsh.2.2.2.1]
                · rw [hsh2.2.2.2.2.1, hsh.2.2.2.2.1]
            · simp [download, hdir, hdf, hd1, hm, hmt] at h
              rw [← h.1]
              refine ⟨hsh.1, hsh.2.2.1, hsh.2.2.2.1, hsh.2.2.2.2.1,
                fun hd => absurd hd hdw⟩

theorem uploadChildStep_pres (rec : World → String → Res) (excl : String → Bool)
    (hrec : ∀ w f, (∀ w2 tr, rec w f = Res.ok w2 tr → presTo w w2) ∧
      (w.dry_run = true → (rec w f).effectsOf = [])) (w : World) (f : String) :
    (∀ w2 tr, uploadChildStep rec excl w f = Res.ok w2 tr → presTo w w2) ∧
    (w.dry_run = true → (uploadChildStep rec excl w f).effectsOf = []) := by
  by_cases hx : excl f = true
  · refine ⟨?_, ?_⟩
    · intro w2 tr h
      simp [uploadChildStep, hx] at h
      rw [← h.1]
      exact presTo_refl w
    · intro _
      simp [uploadChildStep, hx, Res.effectsOf, Trace.ofEvent]
  · have hxf : excl f = false := by
      cases hc : excl f
      · rfl
      · exact absurd hc hx
    cases hst : os_stat_size w f with
    | none =>
      refine ⟨?_, ?_⟩
      · intro w2 tr h
        simp [uploadChildStep, hxf, hst] at h
      · intro _
        simp [uploadChildStep, hxf, hst, Res.effectsOf, Trace.nil]
    | some lsz =>
      by_cases hg : get_file_size w f = some lsz
      · refine ⟨?_, ?_⟩
        · intro w2 tr h
          simp [uploadChildStep, hxf, hst, hg] at h
          rw [← h.1]
          exact presTo_refl w
        · intro _
          simp [uploadChildStep, hxf, hst, hg, Res.effectsOf, Trace.ofEvent]
      · cases hcall : rec w f with
        | err e w1 tr1 =>
          refine ⟨?_, ?_⟩
          · intro w2 tr h
            simp [uploadChildStep, hxf, hst, hg, hcall] at h
          · intro hd
            have he := (hrec w f).2 hd
            rw [hcall] at he
            simp only [Res.effectsOf] at he
            simp [uploadChildStep, hxf, hst, hg, hcall, Res.effectsOf, Trace.app,
              Trace.ofCall, he]
        | ok w1 tr1 =>
          refine ⟨?_, ?_⟩
          · intro w2 tr h
            simp [uploadChildStep, hxf, hst, hg, hcall] at h
            rw [← h.1]
            exact (hrec w f).1 w1 tr1 hcall
          · intro hd
            have he := (hrec w f).2 hd
            rw [hcall] at he
            simp only [Res.effectsOf] at he
            simp [uploadChildStep, hxf, hst, hg, hcall, Res.effectsOf, Trace.app,
              Trace.ofCall, Trace.ofEvent, he]

theorem uploadLoop_pres (rec : World → String → Res) (excl : String → Bool)
    (hrec : ∀ w f, (∀ w2 tr, rec w f = Res.ok w2 tr → presTo w w2) ∧
      (w.dry_run = true → (rec w f).effectsOf = [])) :
    ∀ (l : List String) (w : World),
      (∀ w2 tr, uploadLoop rec excl l w = Res.ok w2 tr → presTo w w2) ∧
      (w.dry_run = true → (uploadLoop rec excl l w).effectsOf = []) := by
  intro l
  induction l with
  | nil =>
    intro w
    refine ⟨?_, ?_⟩
    · intro w2 tr h
      simp only [uploadLoop, Res.ok.injEq] at h
      rw [← h.1]
      exact presTo_refl w
    · intro _
      simp [uploadLoop, Res.effectsOf, Trace.nil]
  | cons f fs ih =>
    intro w
    have hstep := uploadChildStep_pres rec excl hrec w f
    cases hcall : uploadChildStep rec excl w f with
    | err e w1 tr1 =>
      refine ⟨?_, ?_⟩
      · intro w2 tr h
        simp [uploadLoop, hcall] at h
      · intro hd
        have he := hstep.2 hd
        rw [hcall] at he
        simp only [Res.effectsOf] at he
        simp [uploadLoop, hcall, Res.effectsOf, he]
    | ok w1 tr1 =>
      have hp1 : presTo w w1 := hstep.1 w1 tr1 hcall
      cases hrest : uploadLoop rec excl fs w1 with
      | ok w2 tr2 =>
        refine ⟨?_, ?_⟩
        · intro w3 tr3 h
          simp [uploadLoop, hcall, hrest] at h
          rw [← h.1]
          exact presTo_trans hp1 ((ih w1).1 w2 tr2 hrest)
        · intro hd
          have he1 := hstep.2 hd
          rw [hcall] at he1
          simp only [Res.effectsOf] at he1
          have he2 := (ih w1).2 (hp1.2.2.1.trans hd)
          rw [hrest] at he2
          simp only [Res.effectsOf] at he2
          simp [uploadLoop, hcall, hrest, Res.effectsOf, Trace.app, he1, he2]
      | err e w2 tr2 =>
        refine ⟨?_, ?_⟩
        · intro w3 tr3 h
          simp [uploadLoop, hcall, hrest] at h
        · intro hd
          have he1 := hstep.2 hd
          rw [hcall] at he1
          simp only [Res.effectsOf] at he1
          have he2 := (ih w1).2 (hp1.2.2.1.trans hd)
          rw [hrest] at he2
          simp only [Res.effectsOf] at he2
          simp [uploadLoop, hcall, hrest, Res.effectsOf, Trace.app, he1, he2]

theorem upload_pres (P : ConnInfo) (excl : String → Bool) :
    ∀ (n : Nat) (w : World) (file : String),
      (∀ w2 tr, upload P excl n w file = Res.ok w2 tr → presTo w w2) ∧
      (w.dry_run = true → (upload P excl n w file).effectsOf = []) := by
  intro n
  induction n with
  | zero =>
    intro w file
    refine ⟨?_, ?_⟩
    · intro w2 tr h
      simp [upload] at h
    · intro _
      simp [upload, Res.effectsOf, Trace.nil]
  | succ n ih =>
    intro w file
    by_cases hisf : os_path_isfile w file = true
    · have hsh := upload_file_shape w file
      cases hup : upload_file w file with
      | err e w1 effs =>
        rw [hup] at hsh
        simp only [StepRes.worldOf, StepRes.effsOf] at hsh
        refine ⟨?_, ?_⟩
        · intro w2 tr h
          simp [upload, hisf, hup] at h
        · intro hd
          obtain ⟨_, he⟩ := hsh.2.2.2.2.2 hd
          simp [upload, hisf, hup, Res.effectsOf, Trace.ofEffs, he]
      | ok w1 effs =>
        rw [hup] at hsh
        simp only [StepRes.worldOf, StepRes.effsOf] at hsh
        refine ⟨?_, ?_⟩
        · intro w2 tr h
          simp [upload, hisf, hup] at h
          rw [← h.1]
          refine ⟨hsh.2.1, hsh.2.2.1, hsh.2.2.2.1, hsh.2.2.2.2.1, fun hd => ?_⟩
          obtain ⟨hrfs, _⟩ := hsh.2.2.2.2.2 hd
          exact ⟨hsh.1, hrfs⟩
        · intro hd
          obtain ⟨_, he⟩ := hsh.2.2.2.2.2 hd
          simp [upload, hisf, hup, Res.effectsOf, Trace.ofEffs, he]
    · by_cases hdd : ((file = ".") || os_path_isdir w file) = true
      · by_cases hdot : file = "."
        · subst hdot
          cases hld : os_listdir w with
          | error e =>
            refine ⟨?_, ?_⟩
            · intro w2 tr h
              simp [upload, hisf, hld] at h
            · intro hd
              simp [upload, hisf, hld, Res.effectsOf, Trace.nil]
          | ok names =>
            have hLp := uploadLoop_pres (fun w2 f2 => upload P excl n w2 f2) excl
              (fun w2 f2 => ih w2 f2) names w
            cases hloop : uploadLoop (fun w2 f2 => upload P excl n w2 f2) excl names w with
            | ok w2 tr2 =>
              refine ⟨?_, ?_⟩
              · intro w3 tr3 h
                simp [upload, hisf, hld, hloop] at h
                rw [← h.1]
                exact hLp.1 w2 tr2 hloop
              · intro hd
                have he := hLp.2 hd
                rw [hloop] at he
                simp only [Res.effectsOf] at he
                simp [upload, hisf, hld, hloop, Res.effectsOf, Trace.app, Trace.nil, he]
            | err e w2 tr2 =>
              refine ⟨?_, ?_⟩
              · intro w3 tr3 h
                simp [upload, hisf, hld, hloop] at h
              · intro hd
                have he := hLp.2 hd
                rw [hloop] at he
                simp only [Res.effectsOf] at he
                simp [upload, hisf, hld, hloop, Res.effectsOf, Trace.app, Trace.nil, he]
        · have hisd : os_path_isdir w file = true := by
            cases hc : os_path_isdir w file
            · rw [hc] at hdd
              simp [hdot] at hdd
            · rfl
          cases hdesc : set_location P w (PathRef.child file) none true with
          | ok lpwd rpwd w1 effs =>
            obtain ⟨hlp, hrp, hfd, hfsk, hrc, hrwit, hlocal, hdryd⟩ :=
              set_location_descent_ok P w file lpwd rpwd w1 effs hdesc
            cases hld : os_listdir w1 with
            | error e =>
              refine ⟨?_, ?_⟩
              · intro w2 tr h
                simp [upload, hisf, hisd, hdot, hdesc, hld] at h
              · intro hd
                obtain ⟨_, _, he⟩ := hdryd hd
                simp [upload, hisf, hisd, hdot, hdesc, hld, Res.effectsOf, Trace.app,
                  Trace.ofEffs, Trace.ofEvent, he]
            | ok names =>
              have hLp := uploadLoop_pres (fun w2 f2 => upload P excl n w2 f2) excl
                (fun w2 f2 => ih w2 f2) names w1
              cases hloop : uploadLoop (fun w2 f2 => upload P excl n w2 f2) excl
                  names w1 with
              | err e w2 tr2 =>
                refine ⟨?_, ?_⟩
                · intro w3 tr3 h
                  simp [upload, hisf, hisd, hdot, hdesc, hld, hloop] at h
                · intro hd
                  obtain ⟨_, _, he⟩ := hdryd hd
                  have he2 := hLp.2 (hfd.trans hd)
                  rw [hloop] at he2
                  simp only [Res.effectsOf] at he2
                  simp [upload, hisf, hisd, hdot, hdesc, hld, hloop, Res.effectsOf,
                    Trace.app, Trace.ofEffs, Trace.ofEvent, he, he2]
              | ok w2 tr2 =>
                have hp12 : presTo w1 w2 := hLp.1 w2 tr2 hloop
                cases hasc : set_location P w2 (PathRef.abs lpwd)
                    (some (PathRef.abs rpwd)) false with
                | err e w3 effs3 =>
                  refine ⟨?_, ?_⟩
                  · intro w4 tr4 h
                    simp [upload, hisf, hisd, hdot, hdesc, hld, hloop, hasc] at h
                  · intro hd
                    obtain ⟨_, _, he⟩ := hdryd hd
                    have he2 := hLp.2 (hfd.trans hd)
                    rw [hloop] at he2
                    simp only [Res.effectsOf] at he2
                    have he3 := set_location_dry_effs P w2 (PathRef.abs lpwd)
                      (some (PathRef.abs rpwd)) false (hp12.2.2.1.trans (hfd.trans hd))
                    rw [hasc] at he3
                    simp only [LocRes.effectsOf] at he3
                    simp [upload, hisf, hisd, hdot, hdesc, hld, hloop, hasc,
                      Res.effectsOf, Trace.app, Trace.ofEffs, Trace.ofEvent, he, he2, he3]
                | ok a2 b2 w3 effs3 =>
                  obtain ⟨ha2, hb2, hl3, hr3, hd3, hs3, hrc3, heffs3, hloc3⟩ :=
                    set_location_restore_ok P w2 lpwd rpwd a2 b2 w3 effs3 hasc
                  have hloc3v : w3.localCwd = w.localCwd := by
                    cases hloc3 with
                    | inl hcase => rw [hcase, hlp]
                    | inr hcase =>
                      obtain ⟨hd2, hc1, hlknone⟩ := hcase
                      have hdw : w.dry_run = true := by
                        rw [← hfd, ← hp12.2.2.1]
                        exact hd2
                      cases hlocal with
                      | inl hA =>
                        obtain ⟨hc2, dl, el, hlkl⟩ := hA
                        obtain ⟨dd, ees, hpar, _⟩ :=
                          fsLookup_parent w.localCwd file w1.localFS _ hlkl
                        have hw2fs : w2.localFS = w1.localFS :=
                          (hp12.2.2.2.2 (hfd.trans hdw)).1
                        rw [hw2fs, hlp] at hlknone
                        rw [hpar] at hlknone
                        exact absurd hlknone (by simp)
                      | inr hB =>
                        obtain ⟨_, hc2, _⟩ := hB
                        rw [hc1, hp12.1, hc2]
                  refine ⟨?_, ?_⟩
                  · intro w4 tr4 h
                    simp [upload, hisf, hisd, hdot, hdesc, hld, hloop, hasc] at h
                    rw [← h.1]
                    refine ⟨hloc3v, ?_, ?_, ?_, fun hd => ?_⟩
                    · rw [hrc3, hrp]
                    · rw [hd3, hp12.2.2.1, hfd]
                    · rw [hs3, hp12.2.2.2.1, hfsk]
                    · obtain ⟨hlfs1, hrfs1, _⟩ := hdryd hd
                      obtain ⟨hlfs2, hrfs2⟩ := hp12.2.2.2.2 (hfd.trans hd)
                      exact ⟨by rw [hl3, hlfs2, hlfs1], by rw [hr3, hrfs2, hrfs1]⟩
                  · intro hd
                    obtain ⟨_, _, he⟩ := hdryd hd
                    have he2 := hLp.2 (hfd.trans hd)
                    rw [hloop] at he2
                    simp only [Res.effectsOf] at he2
                    simp [upload, hisf, hisd, hdot, hdesc, hld, hloop, hasc,
                      Res.effectsOf, Trace.app, Trace.ofEffs, Trace.ofEvent, he, he2,
                      heffs3]
          | err e w1 effs =>
            cases e with
            | fnf s =>
              by_cases hdry : w.dry_run = true
              · obtain ⟨hl1, hr1, hrc1, hfd1, hfs1, heffs1, hloc1⟩ :=
                  set_location_descent_err_dry P w file (Err.fnf s) w1 effs hdry hdesc
                cases hld : os_listdir w1 with
                | error e2 =>
                  refine ⟨?_, ?_⟩
                  · intro w2 tr h
                    simp [upload, hisf, hisd, hdot, hdesc, hdry, hld] at h
                  · intro hd
                    simp [upload, hisf, hisd, hdot, hdesc, hdry, hld, Res.effectsOf,
                      Trace.app, Trace.ofEffs, Trace.ofEvent, heffs1]
                | ok names =>
                  have hLp := uploadLoop_pres (fun w2 f2 => upload P excl n w2 f2) excl
                    (fun w2 f2 => ih w2 f2) names w1
                  cases hloop : uploadLoop (fun w2 f2 => upload P excl n w2 f2) excl
                      names w1 with
                  | err e2 w2 tr2 =>
                    refine ⟨?_, ?_⟩
                    · intro w3 tr3 h
                      simp [upload, hisf, hisd, hdot, hdesc, hdry, hld, hloop] at h
                    · intro hd
                      have he2 := hLp.2 (hfd1.trans hd)
                      rw [hloop] at he2
                      simp only [Res.effectsOf] at he2
                      simp [upload, hisf, hisd, hdot, hdesc, hdry, hld, hloop,
                        Res.effectsOf, Trace.app, Trace.ofEffs, Trace.ofEvent, heffs1, he2]
                  | ok w2 tr2 =>
                    have hp12 : presTo w1 w2 := hLp.1 w2 tr2 hloop
                    cases hasc : set_location P w2 (PathRef.abs w.localCwd)
                        (some (PathRef.abs w.remoteCwd)) false with
                    | err e2 w3 effs3 =>
                      refine ⟨?_, ?_⟩
                      · intro w4 tr4 h
                        simp [upload, hisf, hisd, hdot, hdesc, hdry, hld, hloop, hasc] at h
                      · intro hd
                        have he2 := hLp.2 (hfd1.trans hd)
                        rw [hloop] at he2
                        simp only [Res.effectsOf] at he2
                        have he3 := set_location_dry_effs P w2 (PathRef.abs w.localCwd)
                          (some (PathRef.abs w.remoteCwd)) false
                          (hp12.2.2.1.trans (hfd1.trans hd))
                        rw [hasc] at he3
                        simp only [LocRes.effectsOf] at he3
                        simp [upload, hisf, hisd, hdot, hdesc, hdry, hld, hloop, hasc,
                          Res.effectsOf, Trace.app, Trace.ofEffs, Trace.ofEvent,
                          heffs1, he2, he3]
                    | ok a2 b2 w3 effs3 =>
                      obtain ⟨ha2, hb2, hl3, hr3, hd3, hs3, hrc3, heffs3, hloc3⟩ :=
                        set_location_restore_ok P w2 w.localCwd w.remoteCwd a2 b2 w3
                          effs3 hasc
                      have hloc3v : w3.localCwd = w.localCwd := by
                        cases hloc3 with
                        | inl hcase => exact hcase
                        | inr hcase =>
                          obtain ⟨hd2, hc1, hlknone⟩ := hcase
                          cases hloc1 with
                          | inl hA =>
                            rw [hc1, hp12.1, hA]
                          | inr hB =>
                            obtain ⟨hc2, dl, el, hlkl⟩ := hB
                            obtain ⟨dd, ees, hpar, _⟩ :=
                              fsLookup_parent w.localCwd file w.localFS _ hlkl
                            have hw2fs : w2.localFS = w.localFS := by
                              rw [(hp12.2.2.2.2 (hfd1.trans hdry)).1, hl1]
                            rw [hw2fs] at hlknone
                            rw [hpar] at hlknone
                            exact absurd hlknone (by simp)
                      refine ⟨?_, ?_⟩
                      · intro w4 tr4 h
                        simp [upload, hisf, hisd, hdot, hdesc, hdry, hld, hloop,
                          hasc] at h
                        rw [← h.1]
                        refine ⟨hloc3v, hrc3, ?_, ?_, fun hd => ?_⟩
                        · rw [hd3, hp12.2.2.1, hfd1]
                        · rw [hs3, hp12.2.2.2.1, hfs1]
                        · obtain ⟨hlfs2, hrfs2⟩ := hp12.2.2.2.2 (hfd1.trans hd)
                          exact ⟨by rw [hl3, hlfs2, hl1], by rw [hr3, hrfs2, hr1]⟩
                      · intro hd
                        have he2 := hLp.2 (hfd1.trans hd)
                        rw [hloop] at he2
                        simp only [Res.effectsOf] at he2
                        simp [upload, hisf, hisd, hdot, hdesc, hdry, hld, hloop, hasc,
                          Res.effectsOf, Trace.app, Trace.ofEffs, Trace.ofEvent,
                          heffs1, he2, heffs3]
              · refine ⟨?_, ?_⟩
                · intro w2 tr h
                  simp [upload, hisf, hisd, hdot, hdesc, hdry] at h
                · intro hd
                  exact absurd hd hdry
            | errorPerm =>
              refine ⟨?_, ?_⟩
              · intro w2 tr h
                simp [upload, hisf, hisd, hdot, hdesc] at h
              · intro hd
                have he := set_location_dry_effs P w (PathRef.child file) none true hd
                rw [hdesc] at he
                simp only [LocRes.effectsOf] at he
                simp [upload, hisf, hisd, hdot, hdesc, Res.effectsOf, Trace.ofEffs, he]
            | notADirectory =>
              refine ⟨?_, ?_⟩
              · intro w2 tr h
                simp [upload, hisf, hisd, hdot, hdesc] at h
              · intro hd
                have he := set_location_dry_effs P w (PathRef.child file) none true hd
                rw [hdesc] at he
                simp only [LocRes.effectsOf] at he
                simp [upload, hisf, hisd, hdot, hdesc, Res.effectsOf, Trace.ofEffs, he]
            | osError =>
              refine ⟨?_, ?_⟩
              · intro w2 tr h
                simp [upload, hisf, hisd, hdot, hdesc] at h
              · intro hd
                have he := set_location_dry_effs P w (PathRef.child file) none true hd
                rw [hdesc] at he
                simp only [LocRes.effectsOf] at he
                simp [upload, hisf, hisd, hdot, hdesc, Res.effectsOf, Trace.ofEffs, he]
            | fuelOut =>
              refine ⟨?_, ?_⟩
              · intro w2 tr h
                simp [upload, hisf, hisd, hdot, hdesc] at h
              · intro hd
                have he := set_location_dry_effs P w (PathRef.child file) none true hd
                rw [hdesc] at he
                simp only [LocRes.effectsOf] at he
                simp [upload, hisf, hisd, hdot, hdesc, Res.effectsOf, Trace.ofEffs, he]
      · refine ⟨?_, ?_⟩
        · intro w2 tr h
          simp [upload, hisf, hdd] at h
          rw [← h.1]
          exact presTo_refl w
        · intro hd
          simp [upload, hisf, hdd, Res.effectsOf, Trace.nil]

/-- World for the C7 counterexample: the remote tree holds `d/s/x` and the
walk excludes `x`, so removing the non-empty remote directory `s` raises
`error_perm` mid-walk, after the frame for `d` has already changed
directory. -/
def c7World : World :=
  { localFS := FSNode.dir 0 []
    localCwd := []
    remoteFS := FSNode.dir 0 [("d", FSNode.dir 7 [("s", FSNode.dir 7 [("x", FSNode.file 3)])])]
    remoteCwd := []
    dry_run := false
    skip_download := false }

/-- Exclusion predicate used by the C7 counterexample. -/
def exclude_x (nm : String) : Bool := nm = "x"

/-- C7 (counterexample): a download-then-upload cycle that raises an
exception mid-walk (`rmd` on a non-empty remote directory) leaves the
process's working directory at `/d`, not at its pre-call value `/`: the
recursive frames restore the captured `(local, remote)` pair only on normal
completion, never on the exception path. -/
theorem claim_C7_counterexample :
    (download_then_upload ⟨"ftp", some "u", "h"⟩ id exclude_x exclude_none 6 c7World
      "." ".").isErr = true
    ∧ (download_then_upload ⟨"ftp", some "u", "h"⟩ id exclude_x exclude_none 6 c7World
      "." ".").worldOf.localCwd = ["d"]
    ∧ (download_then_upload ⟨"ftp", some "u", "h"⟩ id exclude_x exclude_none 6 c7World
      "." ".").worldOf.remoteCwd = ["d"]
    ∧ c7World.localCwd = [] ∧ c7World.remoteCwd = [] :=
  ⟨rfl, rfl, rfl, rfl, rfl⟩

/-- C7 (amended): when a download-then-upload cycle completes without a
propagating exception, the local and remote working directories both equal
their pre-call values — every recursive frame restores the captured
pre-descent pair on its normal exit paths (success or skip); on an
exception the directories may be left at the failing frame (see the
counterexample). -/
theorem claim_C7_amended (P : ConnInfo) (net : Nat → Nat)
    (excl1 excl2 : String → Bool) (fuel : Nat) (w : World) (file1 file2 : String)
    (w2 : World) (tr : Trace)
    (h : download_then_upload P net excl1 excl2 fuel w file1 file2 = Res.ok w2 tr) :
    w2.localCwd = w.localCwd ∧ w2.remoteCwd = w.remoteCwd := by
  rw [download_then_upload] at h
  cases hdl : download P net excl1 fuel w file1 with
  | err e w1 tr1 =>
    rw [hdl] at h
    exact absurd h (by simp)
  | ok w1 tr1 =>
    rw [hdl] at h
    have hp1 : presTo w w1 := (download_pres P net excl1 fuel w file1).1 w1 tr1 hdl
    cases hup : upload P excl2 fuel w1 file2 with
    | err e w3 tr3 =>
      simp [hup] at h
    | ok w3 tr3 =>
      simp [hup] at h
      have hp2 : presTo w1 w3 := (upload_pres P excl2 fuel w1 file2).1 w3 tr3 hup
      have hp : presTo w w3 := presTo_trans hp1 hp2
      rw [← h.1]
      exact ⟨hp.1, hp.2.1⟩

/-- Empty world on both sides, for the C7 witness cycle. -/
def c7okWorld : World :=
  { localFS := FSNode.dir 0 []
    localCwd := []
    remoteFS := FSNode.dir 0 []
    remoteCwd := []
    dry_run := false
    skip_download := false }

theorem claim_C7_amended_witness :
    c7okWorld.localCwd = c7okWorld.localCwd ∧ c7okWorld.remoteCwd = c7okWorld.remoteCwd :=
  claim_C7_amended ⟨"ftp", some "u", "h"⟩ id exclude_none exclude_none 1 c7okWorld
    "." "." c7okWorld ⟨[], [], []⟩ rfl

/-- Per-child events of a successful download loop: every listed child
emits its `(2, excluded)` event when the exclusion predicate holds, else its
`(1, downloaded)` event — independently of dry-run. -/
theorem downloadLoop_events (excl : String → Bool) :
    ∀ (l : List String) (rec : World → String → Res) (w0 w2 : World) (tr2 : Trace),
      downloadLoop rec excl l w0 = Res.ok w2 tr2 →
      ∀ f ∈ l,
        (excl f = true → (2, Event.excludedEv f) ∈ tr2.events) ∧
        (excl f = false → (1, Event.downloadedEv f) ∈ tr2.events) := by
  intro l
  induction l with
  | nil =>
    intro rec w0 w2 tr2 h f hf
    exact absurd hf (List.not_mem_nil f)
  | cons x rest ih =>
    intro rec w0 w2 tr2 h f hf
    cases hex : excl x with
    | true =>
      cases hrest : downloadLoop rec excl rest w0 with
      | err e w3 tr3 => simp [downloadLoop, hex, hrest] at h
      | ok w3 tr3 =>
        have hval : downloadLoop rec excl (x :: rest) w0 =
            Res.ok w3 ((Trace.ofEvent 2 (Event.excludedEv x)).app tr3) := by
          simp [downloadLoop, hex, hrest]
        rw [hval] at h
        injection h with hw htr
        subst htr
        cases List.mem_cons.mp hf with
        | inl hfx =>
          subst hfx
          refine ⟨fun _ => ?_, fun hc => ?_⟩
          · simp [Trace.app, Trace.ofEvent]
          · rw [hex] at hc
            exact Bool.noConfusion hc
        | inr hfr =>
          have hm := ih rec w0 w3 tr3 hrest f hfr
          refine ⟨fun hc => ?_, fun hc => ?_⟩
          · have hmem := hm.1 hc
            simp [Trace.app, Trace.ofEvent, List.mem_append, hmem]
          · have hmem := hm.2 hc
            simp [Trace.app, Trace.ofEvent, List.mem_append, hmem]
    | false =>
      cases hrec : rec w0 x with
      | err e w1 tr1 => simp [downloadLoop, hex, hrec] at h
      | ok w1 tr1 =>
        cases hrest : downloadLoop rec excl rest w1 with
        | err e w3 tr3 => simp [downloadLoop, hex, hrec, hrest] at h
        | ok w3 tr3 =>
          have hval : downloadLoop rec excl (x :: rest) w0 =
              Res.ok w3 ((((Trace.ofCall x).app tr1).app
                (Trace.ofEvent 1 (Event.downloadedEv x))).app tr3) := by
            simp [downloadLoop, hex, hrec, hrest]
          rw [hval] at h
          injection h with hw htr
          subst htr
          cases List.mem_cons.mp hf with
          | inl hfx =>
            subst hfx
            refine ⟨fun hc => ?_, fun _ => ?_⟩
            · rw [hex] at hc
              exact Bool.noConfusion hc
            · simp [Trace.app, Trace.ofCall, Trace.ofEvent, List.mem_append]
          | inr hfr =>
            have hm := ih rec w1 w3 tr3 hrest f hfr
            refine ⟨fun hc => ?_, fun hc => ?_⟩
            · have hmem := hm.1 hc
              simp [Trace.app, Trace.ofCall, Trace.ofEvent, List.mem_append, hmem]
            · have hmem := hm.2 hc
              simp [Trace.app, Trace.ofCall, Trace.ofEvent, List.mem_append, hmem]

/-- Per-child events of a successful upload loop: every listed child emits
its `(2, excluded)` event when the exclusion predicate holds, else its
`(1, uploaded)` event — independently of dry-run. -/
theorem uploadLoop_events (excl : String → Bool) :
    ∀ (l : List String) (rec : World → String → Res) (w0 w2 : World) (tr2 : Trace),
      uploadLoop rec excl l w0 = Res.ok w2 tr2 →
      ∀ f ∈ l,
        (excl f = true → (2, Event.excludedEv f) ∈ tr2.events) ∧
        (excl f = false → (1, Event.uploadedEv f) ∈ tr2.events) := by
  intro l
  induction l with
  | nil =>
    intro rec w0 w2 tr2 h f hf
    exact absurd hf (List.not_mem_nil f)
  | cons x rest ih =>
    intro rec w0 w2 tr2 h f hf
    simp only [uploadLoop] at h
    cases hstep : uploadChildStep rec excl w0 x with
    | err e w1 tr1 => simp [hstep] at h
    | ok w1 tr1 =>
      simp only [hstep] at h
      cases hrest : uploadLoop rec excl rest w1 with
      | err e w3 tr3 => simp [hrest] at h
      | ok w3 tr3 =>
        simp only [hrest] at h
        injection h with hw htr
        subst htr
        have hhead : (excl x = true → (2, Event.excludedEv x) ∈ tr1.events) ∧
            (excl x = false → (1, Event.uploadedEv x) ∈ tr1.events) := by
          cases hex : excl x with
          | true =>
            have hval : uploadChildStep rec excl w0 x =
                Res.ok w0 (Trace.ofEvent 2 (Event.excludedEv x)) := by
              simp [uploadChildStep, hex]
            rw [hval] at hstep
            injection hstep with hsw hst
            subst hst
            refine ⟨fun _ => ?_, fun hc => ?_⟩
            · simp [Trace.ofEvent]
            · exact Bool.noConfusion hc
          | false =>
            cases hstat : os_stat_size w0 x with
            | none =>
              have hval : uploadChildStep rec excl w0 x =
                  Res.err Err.osError w0 Trace.nil := by
                simp [uploadChildStep, hex, hstat]
              rw [hval] at hstep
              exact Res.noConfusion hstep
            | some lsz =>
              by_cases hg : get_file_size w0 x = some lsz
              · have hval : uploadChildStep rec excl w0 x =
                    Res.ok w0 (Trace.ofEvent 1 (Event.uploadedEv x)) := by
                  simp [uploadChildStep, hex, hstat, hg]
                rw [hval] at hstep
                injection hstep with hsw hst
                subst hst
                refine ⟨fun hc => ?_, fun _ => ?_⟩
                · exact Bool.noConfusion hc
                · simp [Trace.ofEvent]
              · cases hcall : rec w0 x with
                | err e wc trc =>
                  have hval : uploadChildStep rec excl w0 x =
                      Res.err e wc ((Trace.ofCall x).app trc) := by
                    simp [uploadChildStep, hex, hstat, hg, hcall]
                  rw [hval] at hstep
                  exact Res.noConfusion hstep
                | ok wc trc =>
                  have hval : uploadChildStep rec excl w0 x =
                      Res.ok wc (((Trace.ofCall x).app trc).app
                        (Trace.ofEvent 1 (Event.uploadedEv x))) := by
                    simp [uploadChildStep, hex, hstat, hg, hcall]
                  rw [hval] at hstep
                  injection hstep with hsw hst
                  subst hst
                  refine ⟨fun hc => ?_, fun _ => ?_⟩
                  · exact Bool.noConfusion hc
                  · simp [Trace.app, Trace.ofCall, Trace.ofEvent, List.mem_append]
        cases List.mem_cons.mp hf with
        | inl hfx =>
          subst hfx
          refine ⟨fun hc => ?_, fun hc => ?_⟩
          · have hmem := hhead.1 hc
            simp [Trace.app, List.mem_append, hmem]
          · have hmem := hhead.2 hc
            simp [Trace.app, List.mem_append, hmem]
        | inr hfr =>
          have hm := ih rec w1 w3 tr3 hrest f hfr
          refine ⟨fun hc => ?_, fun hc => ?_⟩
          · have hmem := hm.1 hc
            simp [Trace.app, List.mem_append, hmem]
          · have hmem := hm.2 hc
            simp [Trace.app, List.mem_append, hmem]

/-- Frame events of a successful download of a named remote directory: the
`(2, chdir)` and `(2, remove_directoryitem)` events are emitted on the
normal path — independently of dry-run. -/
theorem download_dir_frame_events (P : ConnInfo) (net : Nat → Nat)
    (excl : String → Bool) (n : Nat) (w : World) (file : String)
    (w4 : World) (tr : Trace)
    (hdir : is_directory w file = true) (hne : file ≠ ".")
    (h : download P net excl (Nat.succ n) w file = Res.ok w4 tr) :
    (∃ a b, (2, Event.chdirEv a b) ∈ tr.events) ∧
    (2, Event.remove_directoryitemEv file) ∈ tr.events := by
  cases hdesc : set_location P w (PathRef.child file) none true with
  | err e w1 effs =>
    have hval : download P net excl (Nat.succ n) w file =
        Res.err e w1 (Trace.ofEffs effs) := by
      simp [download, hdir, hne, hdesc]
    rw [hval] at h
    exact Res.noConfusion h
  | ok lp rp w1 effs =>
    cases hci : get_childitem w1 with
    | error e =>
      have hval : download P net excl (Nat.succ n) w file = Res.err e w1
          ((Trace.ofEffs effs).app
            (Trace.ofEvent 2 (Event.chdirEv w1.localCwd w1.remoteCwd))) := by
        simp [download, hdir, hne, hdesc, hci]
      rw [hval] at h
      exact Res.noConfusion h
    | ok names =>
      cases hloop : downloadLoop (fun w2 f2 => download P net excl n w2 f2) excl
          (sorted_childitem names) w1 with
      | err e w2 tr2 =>
        have hval : download P net excl (Nat.succ n) w file = Res.err e w2
            (((Trace.ofEffs effs).app
              (Trace.ofEvent 2 (Event.chdirEv w1.localCwd w1.remoteCwd))).app tr2) := by
          simp [download, hdir, hne, hdesc, hci, hloop]
        rw [hval] at h
        exact Res.noConfusion h
      | ok w2 tr2 =>
        cases hasc : set_location P w2 (PathRef.abs lp) (some (PathRef.abs rp)) false with
        | err e w3 effs3 =>
          have hval : download P net excl (Nat.succ n) w file = Res.err e w3
              (((Trace.ofEffs effs).app
                (Trace.ofEvent 2 (Event.chdirEv w1.localCwd w1.remoteCwd))).app
                  (tr2.app (Trace.ofEffs effs3))) := by
            simp [download, hdir, hne, hdesc, hci, hloop, hasc]
          rw [hval] at h
          exact Res.noConfusion h
        | ok a b w3 effs3 =>
          cases hrd : remove_directoryitem w3 file with
          | err e w5 effs4 =>
            have hval : download P net excl (Nat.succ n) w file = Res.err e w5
                (((Trace.ofEffs effs).app
                  (Trace.ofEvent 2 (Event.chdirEv w1.localCwd w1.remoteCwd))).app
                    (tr2.app (((Trace.ofEffs effs3).app
                      (Trace.ofEvent 2 (Event.chdirEv lp rp))).app
                        (Trace.ofEffs effs4)))) := by
              simp [download, hdir, hne, hdesc, hci, hloop, hasc, hrd]
            rw [hval] at h
            exact Res.noConfusion h
          | ok w5 effs4 =>
            have hval : download P net excl (Nat.succ n) w file = Res.ok w5
                (((Trace.ofEffs effs).app
                  (Trace.ofEvent 2 (Event.chdirEv w1.localCwd w1.remoteCwd))).app
                    (tr2.app (((Trace.ofEffs effs3).app
                      (Trace.ofEvent 2 (Event.chdirEv lp rp))).app
                        ((Trace.ofEffs effs4).app
                          (Trace.ofEvent 2 (Event.remove_directoryitemEv file)))))) := by
              simp [download, hdir, hne, hdesc, hci, hloop, hasc, hrd]
            rw [hval] at h
            injection h with hw htr
            subst htr
            refine ⟨⟨w1.localCwd, w1.remoteCwd, ?_⟩, ?_⟩ <;>
              simp [Trace.app, Trace.ofEffs, Trace.ofEvent, List.mem_append]

/-- Frame events of a successful upload of a named local directory: a
`(2, chdir)` event is emitted on the normal path (also when the dry-run
descent swallowed a `FileNotFoundError`) — independently of dry-run. -/
theorem upload_dir_frame_events (P : ConnInfo) (excl : String → Bool)
    (n : Nat) (w : World) (file : String) (w4 : World) (tr : Trace)
    (hisf : os_path_isfile w file = false) (hne : file ≠ ".")
    (hisd : os_path_isdir w file = true)
    (h : upload P excl (Nat.succ n) w file = Res.ok w4 tr) :
    ∃ a b, (2, Event.chdirEv a b) ∈ tr.events := by
  cases hdesc : set_location P w (PathRef.child file) none true with
  | ok lp rp w1 effs =>
    cases hls : os_listdir w1 with
    | error e =>
      have hval : upload P excl (Nat.succ n) w file = Res.err e w1
          ((Trace.ofEffs effs).app
            (Trace.ofEvent 2 (Event.chdirEv w1.localCwd w1.remoteCwd))) := by
        simp [upload, hisf, hne, hisd, hdesc, hls]
      rw [hval] at h
      exact Res.noConfusion h
    | ok names =>
      cases hloop : uploadLoop (fun w2 f2 => upload P excl n w2 f2) excl names w1 with
      | err e w2 tr2 =>
        have hval : upload P excl (Nat.succ n) w file = Res.err e w2
            (((Trace.ofEffs effs).app
              (Trace.ofEvent 2 (Event.chdirEv w1.localCwd w1.remoteCwd))).app tr2) := by
          simp [upload, hisf, hne, hisd, hdesc, hls, hloop]
        rw [hval] at h
        exact Res.noConfusion h
      | ok w2 tr2 =>
        cases hasc : set_location P w2 (PathRef.abs lp) (some (PathRef.abs rp)) false with
        | err e w3 effs3 =>
          have hval : upload P excl (Nat.succ n) w file = Res.err e w3
              (((Trace.ofEffs effs).app
                (Trace.ofEvent 2 (Event.chdirEv w1.localCwd w1.remoteCwd))).app
                  (tr2.app ((Trace.ofEvent 2 (Event.chdirEv lp rp)).app
                    (Trace.ofEffs effs3)))) := by
            simp [upload, hisf, hne, hisd, hdesc, hls, hloop, hasc]
          rw [hval] at h
          exact Res.noConfusion h
        | ok a b w3 effs3 =>
          have hval : upload P excl (Nat.succ n) w file = Res.ok w3
              (((Trace.ofEffs effs).app
                (Trace.ofEvent 2 (Event.chdirEv w1.localCwd w1.remoteCwd))).app
                  (tr2.app ((Trace.ofEvent 2 (Event.chdirEv lp rp)).app
                    (Trace.ofEffs effs3)))) := by
            simp [upload, hisf, hne, hisd, hdesc, hls, hloop, hasc]
          rw [hval] at h
          injection h with hw htr
          subst htr
          exact ⟨w1.localCwd, w1.remoteCwd,
            by simp [Trace.app, Trace.ofEffs, Trace.ofEvent, List.mem_append]⟩
  | err e w1 effs =>
    cases e with
    | fnf s =>
      cases hdry : w.dry_run with
      | false =>
        have hval : upload P excl (Nat.succ n) w file =
            Res.err (Err.fnf s) w1 (Trace.ofEffs effs) := by
          simp [upload, hisf, hne, hisd, hdesc, hdry]
        rw [hval] at h
        exact Res.noConfusion h
      | true =>
        cases hls : os_listdir w1 with
        | error e2 =>
          have hval : upload P excl (Nat.succ n) w file = Res.err e2 w1
              ((Trace.ofEffs effs).app
                (Trace.ofEvent 2 (Event.chdirEv w1.localCwd w1.remoteCwd))) := by
            simp [upload, hisf, hne, hisd, hdesc, hdry, hls]
          rw [hval] at h
          exact Res.noConfusion h
        | ok names =>
          cases hloop : uploadLoop (fun w2 f2 => upload P excl n w2 f2) excl names w1 with
          | err e2 w2 tr2 =>
            have hval : upload P excl (Nat.succ n) w file = Res.err e2 w2
                (((Trace.ofEffs effs).app
                  (Trace.ofEvent 2 (Event.chdirEv w1.localCwd w1.remoteCwd))).app tr2) := by
              simp [upload, hisf, hne, hisd, hdesc, hdry, hls, hloop]
            rw [hval] at h
            exact Res.noConfusion h
          | ok w2 tr2 =>
            cases hasc : set_location P w2 (PathRef.abs w.localCwd)
                (some (PathRef.abs w.remoteCwd)) false with
            | err e2 w3 effs3 =>
              have hval : upload P excl (Nat.succ n) w file = Res.err e2 w3
                  (((Trace.ofEffs effs).app
                    (Trace.ofEvent 2 (Event.chdirEv w1.localCwd w1.remoteCwd))).app
                      (tr2.app ((Trace.ofEvent 2
                        (Event.chdirEv w.localCwd w.remoteCwd)).app
                          (Trace.ofEffs effs3)))) := by
                simp [upload, hisf, hne, hisd, hdesc, hdry, hls, hloop, hasc]
              rw [hval] at h
              exact Res.noConfusion h
            | ok a b w3 effs3 =>
              have hval : upload P excl (Nat.succ n) w file = Res.ok w3
                  (((Trace.ofEffs effs).app
                    (Trace.ofEvent 2 (Event.chdirEv w1.localCwd w1.remoteCwd))).app
                      (tr2.app ((Trace.ofEvent 2
                        (Event.chdirEv w.localCwd w.remoteCwd)).app
                          (Trace.ofEffs effs3)))) := by
                simp [upload, hisf, hne, hisd, hdesc, hdry, hls, hloop, hasc]
              rw [hval] at h
              injection h with hw htr
              subst htr
              exact ⟨w1.localCwd, w1.remoteCwd,
                by simp [Trace.app, Trace.ofEffs, Trace.ofEvent, List.mem_append]⟩
    | errorPerm =>
      have hval : upload P excl (Nat.succ n) w file =
          Res.err Err.errorPerm w1 (Trace.ofEffs effs) := by
        simp [upload, hisf, hne, hisd, hdesc]
      rw [hval] at h
      exact Res.noConfusion h
    | notADirectory =>
      have hval : upload P excl (Nat.succ n) w file =
          Res.err Err.notADirectory w1 (Trace.ofEffs effs) := by
        simp [upload, hisf, hne, hisd, hdesc]
      rw [hval] at h
      exact Res.noConfusion h
    | osError =>
      have hval : upload P excl (Nat.succ n) w file =
          Res.err Err.osError w1 (Trace.ofEffs effs) := by
        simp [upload, hisf, hne, hisd, hdesc]
      rw [hval] at h
      exact Res.noConfusion h
    | fuelOut =>
      have hval : upload P excl (Nat.succ n) w file =
          Res.err Err.fuelOut w1 (Trace.ofEffs effs) := by
        simp [upload, hisf, hne, hisd, hdesc]
      rw [hval] at h
      exact Res.noConfusion h

/-- C2 (counterexample): in dry-run mode the suppressed `remove_item`
mutation of the file-download branch does NOT emit the event it would have
caused: a dry-run leaf download returns with no events at all, while the
same download with dry-run off performs the deletion and emits
`(2, remove_item)` (lines 246–249 guard both the call and the `out` with
`if not self.dry_run`). -/
theorem claim_C2_counterexample :
    download ⟨"ftp", some "u", "h"⟩ id exclude_none 1 (leafWorld true false) "f"
      = Res.ok (leafWorld true false) ⟨[], [], []⟩
    ∧ download ⟨"ftp", some "u", "h"⟩ id exclude_none 1 (leafWorld false false) "f"
      = Res.ok
        { localFS := FSNode.dir 0 [("f", FSNode.file 5)]
          localCwd := []
          remoteFS := FSNode.dir 0 []
          remoteCwd := []
          dry_run := false
          skip_download := false }
        ⟨[(2, Event.remove_itemEv "f")],
         [Effect.retr ["f"], Effect.writeLocal ["f"], Effect.deleteRemote ["f"]], []⟩ :=
  ⟨rfl, rfl⟩

/-- Dry-run world with a remote directory `d` holding one file `x`, mirrored
by an empty local directory `d`, for the C2 witness. -/
def c2DirWorld : World :=
  ⟨FSNode.dir 0 [("d", FSNode.dir 0 [])], [],
   FSNode.dir 0 [("d", FSNode.dir 0 [("x", FSNode.file 2)])], [], true, false⟩

/-- `c2DirWorld` after both sides entered `d`. -/
def c2DirIn : World :=
  ⟨FSNode.dir 0 [("d", FSNode.dir 0 [])], ["d"],
   FSNode.dir 0 [("d", FSNode.dir 0 [("x", FSNode.file 2)])], ["d"], true, false⟩

/-- Dry-run world with a size-matched file `x` on both sides, for the C2
witness. -/
def c2UpWorld : World :=
  ⟨FSNode.dir 0 [("x", FSNode.file 2)], [],
   FSNode.dir 0 [("x", FSNode.file 2)], [], true, false⟩

/-- C2 (amended): in dry-run mode no mutating remote or local filesystem
call occurs in any engine operation — `remove_item`, `new_directoryitem`,
`remove_directoryitem`, `download_file`, `upload_file`, `set_location`,
`set_remotelocation`, `download` and `upload` all produce an empty
mutating-effect log (on success and on raise alike) — but not every
suppressed mutation still emits its event: the file-download branch emits
no `remove_item` event under dry-run (it returns with an empty trace), as
the counterexample shows.  The directory-walk events survive: a successful
download of a named remote directory still emits its `chdir` events and its
`remove_directoryitem` event, every child listed by a successful download
loop emits its per-child `downloaded`/`excluded` event, every child listed
by a successful upload loop emits its per-child `uploaded`/`excluded`
event, and a successful upload of a named local directory still emits its
`chdir` events. -/
theorem claim_C2_amended (P : ConnInfo) (net : Nat → Nat) (excl : String → Bool)
    (fuel : Nat) (w : World) (file dname : String) (r : PathRef)
    (remote : Option PathRef) (make : Bool) (hdry : w.dry_run = true) :
    remove_item w file = StepRes.ok w []
    ∧ new_directoryitem w r = StepRes.ok w []
    ∧ remove_directoryitem w dname = StepRes.ok w []
    ∧ download_file net w file = StepRes.ok w []
    ∧ upload_file w file = StepRes.ok w []
    ∧ (set_remotelocation P w r make).effectsOf = []
    ∧ (set_location P w r remote make).effectsOf = []
    ∧ (download P net excl fuel w file).effectsOf = []
    ∧ (upload P excl fuel w file).effectsOf = []
    ∧ (is_directory w file = false →
        download P net excl (fuel + 1) w file = Res.ok w Trace.nil)
    ∧ (is_directory w file = true → file ≠ "." →
        ∀ w4 tr, download P net excl (fuel + 1) w file = Res.ok w4 tr →
          (∃ a b, (2, Event.chdirEv a b) ∈ tr.events) ∧
          (2, Event.remove_directoryitemEv file) ∈ tr.events)
    ∧ (∀ (cl : List String) (rec : World → String → Res) (w0 w2 : World) (tr2 : Trace),
        downloadLoop rec excl cl w0 = Res.ok w2 tr2 →
        ∀ f ∈ cl,
          (excl f = true → (2, Event.excludedEv f) ∈ tr2.events) ∧
          (excl f = false → (1, Event.downloadedEv f) ∈ tr2.events))
    ∧ (∀ (cl : List String) (rec : World → String → Res) (w0 w2 : World) (tr2 : Trace),
        uploadLoop rec excl cl w0 = Res.ok w2 tr2 →
        ∀ f ∈ cl,
          (excl f = true → (2, Event.excludedEv f) ∈ tr2.events) ∧
          (excl f = false → (1, Event.uploadedEv f) ∈ tr2.events))
    ∧ (os_path_isfile w file = false → file ≠ "." → os_path_isdir w file = true →
        ∀ w4 tr, upload P excl (fuel + 1) w file = Res.ok w4 tr →
          ∃ a b, (2, Event.chdirEv a b) ∈ tr.events) := by
  refine ⟨?_, ?_, ?_, ?_, ?_, ?_, ?_, ?_, ?_, ?_, ?_, ?_, ?_, ?_⟩
  · simp [remove_item, hdry]
  · simp [new_directoryitem, hdry]
  · simp [remove_directoryitem, hdry]
  · simp [download_file, hdry]
  · simp [upload_file, hdry]
  · exact set_remotelocation_dry_effs P w r make hdry
  · exact set_location_dry_effs P w r remote make hdry
  · exact (download_pres P net excl fuel w file).2 hdry
  · exact (upload_pres P excl fuel w file).2 hdry
  · intro hnd
    simp [download, hnd, download_file, hdry, Trace.ofEffs, Trace.nil]
  · intro hdir hne w4 tr hdl
    exact download_dir_frame_events P net excl fuel w file w4 tr hdir hne hdl
  · intro cl rec w0 w2 tr2 hdl f hfmem
    exact downloadLoop_events excl cl rec w0 w2 tr2 hdl f hfmem
  · intro cl rec w0 w2 tr2 hup f hfmem
    exact uploadLoop_events excl cl rec w0 w2 tr2 hup f hfmem
  · intro hisf hne hisd w4 tr hup
    exact upload_dir_frame_events P excl fuel w file w4 tr hisf hne hisd hup

theorem claim_C2_amended_witness :
    (remove_item (leafWorld true false) "f" = StepRes.ok (leafWorld true false) []
    ∧ new_directoryitem (leafWorld true false) (PathRef.child "d")
        = StepRes.ok (leafWorld true false) []
    ∧ remove_directoryitem (leafWorld true false) "d" = StepRes.ok (leafWorld true false) []
    ∧ download_file id (leafWorld true false) "f" = StepRes.ok (leafWorld true false) []
    ∧ upload_file (leafWorld true false) "f" = StepRes.ok (leafWorld true false) []
    ∧ (set_remotelocation ⟨"ftp", some "u", "h"⟩ (leafWorld true false)
        (PathRef.child "d") true).effectsOf = []
    ∧ (set_location ⟨"ftp", some "u", "h"⟩ (leafWorld true false) (PathRef.child "d")
        none true).effectsOf = []
    ∧ (download ⟨"ftp", some "u", "h"⟩ id exclude_none 3 (leafWorld true false)
        "f").effectsOf = []
    ∧ (upload ⟨"ftp", some "u", "h"⟩ exclude_none 3 (leafWorld true false)
        "f").effectsOf = []
    ∧ (is_directory (leafWorld true false) "f" = false →
        download ⟨"ftp", some "u", "h"⟩ id exclude_none (3 + 1) (leafWorld true false) "f"
          = Res.ok (leafWorld true false) Trace.nil))
    ∧ ((∃ a b, (2, Event.chdirEv a b) ∈
          (⟨[(2, Event.chdirEv ["d"] ["d"]), (1, Event.downloadedEv "x"),
             (2, Event.chdirEv [] []), (2, Event.remove_directoryitemEv "d")],
            [], ["x"]⟩ : Trace).events)
      ∧ (2, Event.remove_directoryitemEv "d") ∈
          (⟨[(2, Event.chdirEv ["d"] ["d"]), (1, Event.downloadedEv "x"),
             (2, Event.chdirEv [] []), (2, Event.remove_directoryitemEv "d")],
            [], ["x"]⟩ : Trace).events)
    ∧ (1, Event.downloadedEv "x") ∈
        (⟨[(1, Event.downloadedEv "x")], [], ["x"]⟩ : Trace).events
    ∧ (1, Event.uploadedEv "x") ∈
        (⟨[(1, Event.uploadedEv "x")], [], []⟩ : Trace).events
    ∧ (∃ a b, (2, Event.chdirEv a b) ∈
        (⟨[(2, Event.chdirEv ["d"] ["d"]), (2, Event.chdirEv [] [])], [], []⟩ :
          Trace).events) := by
  obtain ⟨a1, a2, a3, a4, a5, a6, a7, a8, a9, a10, _, _, _, _⟩ :=
    claim_C2_amended ⟨"ftp", some "u", "h"⟩ id exclude_none 3 (leafWorld true false)
      "f" "d" (PathRef.child "d") none true rfl
  obtain ⟨_, _, _, _, _, _, _, _, _, _, b11, b12, b13, b14⟩ :=
    claim_C2_amended ⟨"ftp", some "u", "h"⟩ id exclude_none 1 c2DirWorld
      "d" "d" (PathRef.child "d") none true rfl
  exact ⟨⟨a1, a2, a3, a4, a5, a6, a7, a8, a9, a10⟩,
    b11 (by rfl) (by decide) c2DirWorld _ (by rfl),
    (b12 ["x"] (fun w2 f2 => download ⟨"ftp", some "u", "h"⟩ id exclude_none 1 w2 f2)
      c2DirIn c2DirIn _ (by rfl) "x" (by simp)).2 (by rfl),
    (b13 ["x"] (fun w2 f2 => upload ⟨"ftp", some "u", "h"⟩ exclude_none 1 w2 f2)
      c2UpWorld c2UpWorld _ (by rfl) "x" (by simp)).2 (by rfl),
    b14 (by rfl) (by decide) (by rfl) c2DirWorld _ (by rfl)⟩

theorem prefix_snoc_eq (p : List String) (a b : String)
    (h : (p ++ [a]) <+: (p ++ [b])) : a = b := by
  have hlen : (p ++ [a]).length = (p ++ [b]).length := by simp
  have heq : p ++ [a] = p ++ [b] := h.eq_of_length hlen
  have := List.append_cancel_left heq
  simpa using this

theorem prefix_snoc_incomp (p : List String) (a b : String) (hab : a ≠ b) (q : List String)
    (ha : (p ++ [a]) <+: q) : ¬ ((p ++ [b]) <+: q) ∧ ¬ (q <+: (p ++ [b])) := by
  constructor
  · intro hb
    cases List.prefix_or_prefix_of_prefix ha hb with
    | inl hc => exact hab (prefix_snoc_eq p a b hc)
    | inr hc => exact hab (prefix_snoc_eq p b a hc).symm
  · intro hqb
    exact hab (prefix_snoc_eq p a b (ha.trans hqb))

theorem incomp_snoc (base q : List String) (f : String)
    (h1 : ¬ (base <+: q)) (h2 : ¬ (q <+: base)) :
    ¬ ((base ++ [f]) <+: q) ∧ ¬ (q <+: (base ++ [f])) := by
  constructor
  · intro hc
    exact h1 ((List.prefix_append base [f]).trans hc)
  · intro hc
    cases List.prefix_or_prefix_of_prefix hc (List.prefix_append base [f]) with
    | inl hd => exact h2 hd
    | inr hd => exact h1 hd

/-- Directory entries survive a file write: every path resolving to a
directory before `fsStorAt` still resolves to a directory with the same
stat size afterwards. -/
theorem fsStorAt_dirPres (path : List String) :
    ∀ (fs : FSNode) (sz : Nat) (fs2 : FSNode), fsStorAt fs path sz = some fs2 →
      ∀ q d es, fsLookup fs q = some (FSNode.dir d es) →
        ∃ es2, fsLookup fs2 q = some (FSNode.dir d es2) := by
  induction path with
  | nil => intro fs sz fs2 h; simp [fsStorAt] at h
  | cons k rest ih =>
    intro fs sz fs2 h q d es hq
    cases fs with
    | file s => simp [fsStorAt] at h
    | dir d0 es0 =>
      cases q with
      | nil =>
        simp only [fsLookup, Option.some.injEq] at hq
        cases rest with
        | nil =>
          cases hk : lookupEntry es0 k with
          | none =>
            simp only [fsStorAt, hk] at h
            injection h with h2
            subst h2
            injection hq with hd he
            subst hd
            exact ⟨es0 ++ [(k, FSNode.file sz)], by simp [fsLookup]⟩
          | some c =>
            cases c with
            | file s2 =>
              simp only [fsStorAt, hk] at h
              injection h with h2
              subst h2
              injection hq with hd he
              subst hd
              exact ⟨setEntry es0 k (FSNode.file sz), by simp [fsLookup]⟩
            | dir d2 es2 => simp [fsStorAt, hk] at h
        | cons r rest2 =>
          cases hk : lookupEntry es0 k with
          | none => simp [fsStorAt, hk] at h
          | some c =>
            cases hc : fsStorAt c (r :: rest2) sz with
            | none => simp [fsStorAt, hk, hc] at h
            | some c2 =>
              simp only [fsStorAt, hk, hc] at h
              injection h with h2
              subst h2
              injection hq with hd he
              subst hd
              exact ⟨setEntry es0 k c2, by simp [fsLookup]⟩
      | cons qk qrest =>
        simp only [fsLookup] at hq
        cases hqk : lookupEntry es0 qk with
        | none => rw [hqk] at hq; exact absurd hq (by simp)
        | some cq =>
          rw [hqk] at hq
          simp only at hq
          by_cases hkq : qk = k
          · subst hkq
            cases rest with
            | nil =>
              cases cq with
              | file s3 =>
                cases qrest <;> simp [fsLookup] at hq
              | dir d3 es3 =>
                simp [fsStorAt, hqk] at h
            | cons r rest2 =>
              cases hc : fsStorAt cq (r :: rest2) sz with
              | none => simp [fsStorAt, hqk, hc] at h
              | some c2 =>
                simp only [fsStorAt, hqk, hc] at h
                injection h with h2
                subst h2
                obtain ⟨es2, hes2⟩ := ih cq sz c2 hc qrest d es hq
                refine ⟨es2, ?_⟩
                simp [fsLookup, lookupEntry_setEntry_self es0 qk _ _ hqk, hes2]
          · -- untouched sibling entry
            cases rest with
            | nil =>
              cases hk : lookupEntry es0 k with
              | none =>
                simp only [fsStorAt, hk] at h
                injection h with h2
                subst h2
                refine ⟨es, ?_⟩
                have : lookupEntry (es0 ++ [(k, FSNode.file sz)]) qk = some cq := by
                  rw [lookupEntry_append]
                  simp [hqk]
                simp [fsLookup, this, hq]
              | some c =>
                cases c with
                | file s2 =>
                  simp only [fsStorAt, hk] at h
                  injection h with h2
                  subst h2
                  refine ⟨es, ?_⟩
                  simp [fsLookup, lookupEntry_setEntry_ne es0 k qk _ hkq, hqk, hq]
                | dir d2 es2 => simp [fsStorAt, hk] at h
            | cons r rest2 =>
              cases hk : lookupEntry es0 k with
              | none => simp [fsStorAt, hk] at h
              | some c =>
                cases hc : fsStorAt c (r :: rest2) sz with
                | none => simp [fsStorAt, hk, hc] at h
                | some c2 =>
                  simp only [fsStorAt, hk, hc] at h
                  injection h with h2
                  subst h2
                  refine ⟨es, ?_⟩
                  simp [fsLookup, lookupEntry_setEntry_ne es0 k qk _ hkq, hqk, hq]

/-- A file write at `path` leaves the lookup at every path that is neither
an extension nor a prefix of `path` unchanged. -/
theorem fsStorAt_outside (path : List String) :
    ∀ (fs : FSNode) (sz : Nat) (fs2 : FSNode), fsStorAt fs path sz = some fs2 →
      ∀ q, ¬ (path <+: q) → ¬ (q <+: path) → fsLookup fs2 q = fsLookup fs q := by
  induction path with
  | nil => intro fs sz fs2 h; simp [fsStorAt] at h
  | cons k rest ih =>
    intro fs sz fs2 h q hq1 hq2
    cases fs with
    | file s => simp [fsStorAt] at h
    | dir d0 es0 =>
      cases q with
      | nil => exact absurd (List.nil_prefix) hq2
      | cons qk qrest =>
        by_cases hkq : qk = k
        · subst hkq
          cases rest with
          | nil =>
            exact absurd (List.cons_prefix_cons.mpr ⟨rfl, List.nil_prefix⟩) hq1
          | cons r rest2 =>
            cases hk : lookupEntry es0 qk with
            | none => simp [fsStorAt, hk] at h
            | some c =>
              cases hc : fsStorAt c (r :: rest2) sz with
              | none => simp [fsStorAt, hk, hc] at h
              | some c2 =>
                simp only [fsStorAt, hk, hc] at h
                injection h with h2
                subst h2
                have hr1 : ¬ ((r :: rest2) <+: qrest) :=
                  fun hp => hq1 (List.cons_prefix_cons.mpr ⟨rfl, hp⟩)
                have hr2 : ¬ (qrest <+: (r :: rest2)) :=
                  fun hp => hq2 (List.cons_prefix_cons.mpr ⟨rfl, hp⟩)
                have hrec := ih c sz c2 hc qrest hr1 hr2
                simp only [fsLookup, lookupEntry_setEntry_self es0 qk c2 c hk, hk]
                exact hrec
        · cases rest with
          | nil =>
            cases hk : lookupEntry es0 k with
            | none =>
              simp only [fsStorAt, hk] at h
              injection h with h2
              subst h2
              have happ : lookupEntry (es0 ++ [(k, FSNode.file sz)]) qk =
                  lookupEntry es0 qk := by
                rw [lookupEntry_append]
                cases hqk : lookupEntry es0 qk with
                | some v => rfl
                | none => simp [lookupEntry, Ne.symm hkq]
              simp only [fsLookup, happ]
            | some c =>
              cases c with
              | file s2 =>
                simp only [fsStorAt, hk] at h
                injection h with h2
                subst h2
                simp only [fsLookup, lookupEntry_setEntry_ne es0 k qk _ hkq]
              | dir d2 es2 => simp [fsStorAt, hk] at h
          | cons r rest2 =>
            cases hk : lookupEntry es0 k with
            | none => simp [fsStorAt, hk] at h
            | some c =>
              cases hc : fsStorAt c (r :: rest2) sz with
              | none => simp [fsStorAt, hk, hc] at h
              | some c2 =>
                simp only [fsStorAt, hk, hc] at h
                injection h with h2
                subst h2
                simp only [fsLookup, lookupEntry_setEntry_ne es0 k qk _ hkq]

/-- A directory creation at `path` leaves the lookup at every path that is
neither an extension nor a prefix of `path` unchanged. -/
theorem fsMkdirAt_outside (path : List String) :
    ∀ (fs : FSNode) (fs2 : FSNode), fsMkdirAt fs path = some fs2 →
      ∀ q, ¬ (path <+: q) → ¬ (q <+: path) → fsLookup fs2 q = fsLookup fs q := by
  induction path with
  | nil => intro fs fs2 h; simp [fsMkdirAt] at h
  | cons k rest ih =>
    intro fs fs2 h q hq1 hq2
    cases fs with
    | file s => simp [fsMkdirAt] at h
    | dir d0 es0 =>
      cases q with
      | nil => exact absurd (List.nil_prefix) hq2
      | cons qk qrest =>
        by_cases hkq : qk = k
        · subst hkq
          cases rest with
          | nil =>
            exact absurd (List.cons_prefix_cons.mpr ⟨rfl, List.nil_prefix⟩) hq1
          | cons r rest2 =>
            cases hk : lookupEntry es0 qk with
            | none => simp [fsMkdirAt, hk] at h
            | some c =>
              cases hc : fsMkdirAt c (r :: rest2) with
              | none => simp [fsMkdirAt, hk, hc] at h
              | some c2 =>
                simp only [fsMkdirAt, hk, hc] at h
                injection h with h2
                subst h2
                have hr1 : ¬ ((r :: rest2) <+: qrest) :=
                  fun hp => hq1 (List.cons_prefix_cons.mpr ⟨rfl, hp⟩)
                have hr2 : ¬ (qrest <+: (r :: rest2)) :=
                  fun hp => hq2 (List.cons_prefix_cons.mpr ⟨rfl, hp⟩)
                have hrec := ih c c2 hc qrest hr1 hr2
                simp only [fsLookup, lookupEntry_setEntry_self es0 qk c2 c hk, hk]
                exact hrec
        · cases rest with
          | nil =>
            cases hk : lookupEntry es0 k with
            | none =>
              simp only [fsMkdirAt, hk] at h
              injection h with h2
              subst h2
              have happ : lookupEntry (es0 ++ [(k, FSNode.dir 0 [])]) qk =
                  lookupEntry es0 qk := by
                rw [lookupEntry_append]
                cases hqk : lookupEntry es0 qk with
                | some v => rfl
                | none => simp [lookupEntry, Ne.symm hkq]
              simp only [fsLookup, happ]
            | some c => simp [fsMkdirAt, hk] at h
          | cons r rest2 =>
            cases hk : lookupEntry es0 k with
            | none => simp [fsMkdirAt, hk] at h
            | some c =>
              cases hc : fsMkdirAt c (r :: rest2) with
              | none => simp [fsMkdirAt, hk, hc] at h
              | some c2 =>
                simp only [fsMkdirAt, hk, hc] at h
                injection h with h2
                subst h2
                simp only [fsLookup, lookupEntry_setEntry_ne es0 k qk _ hkq]

/-- Directory entries survive a `mkdir`: every path resolving to a directory
before `fsMkdirAt` still resolves to a directory with the same stat size
afterwards. -/
theorem fsMkdirAt_dirPres (path : List String) :
    ∀ (fs : FSNode) (fs2 : FSNode), fsMkdirAt fs path = some fs2 →
      ∀ q d es, fsLookup fs q = some (FSNode.dir d es) →
        ∃ es2, fsLookup fs2 q = some (FSNode.dir d es2) := by
  induction path with
  | nil => intro fs fs2 h; simp [fsMkdirAt] at h
  | cons k rest ih =>
    intro fs fs2 h q d es hq
    cases fs with
    | file s => simp [fsMkdirAt] at h
    | dir d0 es0 =>
      cases q with
      | nil =>
        simp only [fsLookup, Option.some.injEq] at hq
        cases rest with
        | nil =>
          cases hk : lookupEntry es0 k with
          | none =>
            simp only [fsMkdirAt, hk] at h
            injection h with h2
            subst h2
            injection hq with hd he
            subst hd
            exact ⟨es0 ++ [(k, FSNode.dir 0 [])], by simp [fsLookup]⟩
          | some c => simp [fsMkdirAt, hk] at h
        | cons r rest2 =>
          cases hk : lookupEntry es0 k with
          | none => simp [fsMkdirAt, hk] at h
          | some c =>
            cases hc : fsMkdirAt c (r :: rest2) with
            | none => simp [fsMkdirAt, hk, hc] at h
            | some c2 =>
              simp only [fsMkdirAt, hk, hc] at h
              injection h with h2
              subst h2
              injection hq with hd he
              subst hd
              exact ⟨setEntry es0 k c2, by simp [fsLookup]⟩
      | cons qk qrest =>
        simp only [fsLookup] at hq
        cases hqk : lookupEntry es0 qk with
        | none => rw [hqk] at hq; exact absurd hq (by simp)
        | some cq =>
          rw [hqk] at hq
          simp only at hq
          by_cases hkq : qk = k
          · subst hkq
            cases rest with
            | nil =>
              simp [fsMkdirAt, hqk] at h
            | cons r rest2 =>
              cases hc : fsMkdirAt cq (r :: rest2) with
              | none => simp [fsMkdirAt, hqk, hc] at h
              | some c2 =>
                simp only [fsMkdirAt, hqk, hc] at h
                injection h with h2
                subst h2
                obtain ⟨es2, hes2⟩ := ih cq c2 hc qrest d es hq
                refine ⟨es2, ?_⟩
                simp [fsLookup, lookupEntry_setEntry_self es0 qk _ _ hqk, hes2]
          · cases rest with
            | nil =>
              cases hk : lookupEntry es0 k with
              | none =>
                simp only [fsMkdirAt, hk] at h
                injection h with h2
                subst h2
                refine ⟨es, ?_⟩
                have : lookupEntry (es0 ++ [(k, FSNode.dir 0 [])]) qk = some cq := by
                  rw [lookupEntry_append]
                  simp [hqk]
                simp [fsLookup, this, hq]
              | some c => simp [fsMkdirAt, hk] at h
            | cons r rest2 =>
              cases hk : lookupEntry es0 k with
              | none => simp [fsMkdirAt, hk] at h
              | some c =>
                cases hc : fsMkdirAt c (r :: rest2) with
                | none => simp [fsMkdirAt, hk, hc] at h
                | some c2 =>
                  simp only [fsMkdirAt, hk, hc] at h
                  injection h with h2
                  subst h2
                  refine ⟨es, ?_⟩
                  simp [fsLookup, lookupEntry_setEntry_ne es0 k qk _ hkq, hqk, hq]

theorem World_fields_eq (w w2 : World)
    (h1 : w.localFS = w2.localFS) (h2 : w.localCwd = w2.localCwd)
    (h3 : w.remoteFS = w2.remoteFS) (h4 : w.remoteCwd = w2.remoteCwd)
    (h5 : w.dry_run = w2.dry_run) (h6 : w.skip_download = w2.skip_download) :
    w = w2 := by
  obtain ⟨a1, a2, a3, a4, a5, a6⟩ := w
  obtain ⟨b1, b2, b3, b4, b5, b6⟩ := w2
  simp only at h1 h2 h3 h4 h5 h6
  subst h1; subst h2; subst h3; subst h4; subst h5; subst h6
  rfl

/-- In a well-formed tree no directory has an entry named `.`, so appending
`.` to any path resolves to nothing. -/
theorem fsLookup_dot_none (fs : FSNode) (p : List String) (hwf : FSWf fs) :
    fsLookup fs (p ++ ["."]) = none := by
  cases hL : fsLookup fs (p ++ ["."]) with
  | none => rfl
  | some n =>
    obtain ⟨d, es, hp, he⟩ := fsLookup_parent p "." fs n hL
    have hwfd := FSWf_lookup fs p _ hwf hp
    cases hwfd with
    | dir _ _ hnd hdot hall =>
      have hmem := lookupEntry_mem es "." n he
      exact absurd rfl (hdot _ hmem).1

theorem os_path_isfile_dot (w : World) (hwf : FSWf w.localFS) :
    os_path_isfile w "." = false := by
  simp [os_path_isfile, fsLookup_dot_none w.localFS w.localCwd hwf]

/-- Listing names of a well-formed directory node: pairwise distinct and
never the special name `.`. -/
theorem FSWf_names (fs : FSNode) (p : List String) (d : Nat)
    (es : List (String × FSNode)) (hwf : FSWf fs)
    (h : fsLookup fs p = some (FSNode.dir d es)) :
    (es.map Prod.fst).Nodup ∧ ∀ f ∈ es.map Prod.fst, f ≠ "." := by
  have hw := FSWf_lookup fs p _ hwf h
  cases hw with
  | dir _ _ hnd hdot hall =>
    refine ⟨hnd, ?_⟩
    intro f hf
    simp only [List.mem_map] at hf
    obtain ⟨e, he, hfe⟩ := hf
    exact hfe ▸ (hdot e he).1

theorem remoteChdir_shape (w : World) (r : PathRef) (w2 : World)
    (h : remoteChdir w r = some w2) :
    w2 = { w with remoteCwd := resolveRef w.remoteCwd r } ∧
    ∃ d es, fsLookup w.remoteFS (resolveRef w.remoteCwd r) = some (FSNode.dir d es) := by
  cases hL : fsLookup w.remoteFS (resolveRef w.remoteCwd r) with
  | none => simp [remoteChdir, hL] at h
  | some n =>
    cases n with
    | file s => simp [remoteChdir, hL] at h
    | dir d es =>
      simp [remoteChdir, hL] at h
      exact ⟨h.symm, d, es, rfl⟩

/-- Characterization of a successful `set_remotelocation`: the returned
`last` is the previous directory, only the remote side changes, the target
exists as a directory afterwards, lookups away from the target are
untouched, and existing directories survive. -/
theorem set_remotelocation_ok_changes (P : ConnInfo) (w : World) (dir : PathRef)
    (make : Bool) (a : List String) (w2 : World) (effs : List Effect)
    (h : set_remotelocation P w dir make = RLRes.ok a w2 effs) :
    a = w.remoteCwd ∧
    w2.localFS = w.localFS ∧ w2.localCwd = w.localCwd ∧
    w2.dry_run = w.dry_run ∧ w2.skip_download = w.skip_download ∧
    w2.remoteCwd = resolveRef w.remoteCwd dir ∧
    (∃ d es, fsLookup w2.remoteFS (resolveRef w.remoteCwd dir) = some (FSNode.dir d es)) ∧
    (∀ q, ¬ (resolveRef w.remoteCwd dir <+: q) → ¬ (q <+: resolveRef w.remoteCwd dir) →
      fsLookup w2.remoteFS q = fsLookup w.remoteFS q) ∧
    (∀ q d es, fsLookup w.remoteFS q = some (FSNode.dir d es) →
      ∃ es2, fsLookup w2.remoteFS q = some (FSNode.dir d es2)) := by
  obtain ⟨lfs, lcwd, rfs, rcwd, dry, skip⟩ := w
  simp only at h ⊢
  cases hL0 : fsLookup rfs (resolveRef rcwd dir) with
  | some n =>
    cases n with
    | dir d0 es0 =>
      simp only [set_remotelocation, remoteChdir, hL0] at h
      injection h with h1 h2 h3
      subst h1
      rw [← h2]
      refine ⟨rfl, rfl, rfl, rfl, rfl, rfl, ⟨d0, es0, hL0⟩, fun q _ _ => rfl,
        fun q d es hq => ⟨es, hq⟩⟩
    | file s0 =>
      cases dry with
      | true => simp [set_remotelocation, remoteChdir, hL0] at h
      | false =>
        cases make with
        | false => simp [set_remotelocation, remoteChdir, hL0] at h
        | true =>
          cases hm : fsMkdirAt rfs (resolveRef rcwd dir) with
          | none =>
            simp [set_remotelocation, remoteChdir, hL0, new_directoryitem, hm] at h
          | some fs2 =>
            cases hc2 : fsLookup fs2 (resolveRef rcwd dir) with
            | none =>
              simp [set_remotelocation, remoteChdir, hL0, new_directoryitem, hm,
                set_remotelocation_retry, hc2] at h
            | some m =>
              cases m with
              | file s2 =>
                simp [set_remotelocation, remoteChdir, hL0, new_directoryitem, hm,
                  set_remotelocation_retry, hc2] at h
              | dir d2 es2 =>
                have hval : set_remotelocation P ⟨lfs, lcwd, rfs, rcwd, false, skip⟩ dir true =
                    RLRes.ok rcwd ⟨lfs, lcwd, fs2, resolveRef rcwd dir, false, skip⟩
                      [Effect.mkdirRemote (resolveRef rcwd dir)] := by
                  simp [set_remotelocation, remoteChdir, hL0, new_directoryitem, hm,
                    set_remotelocation_retry, hc2]
                rw [hval] at h
                injection h with h1 h2 h3
                subst h1
                rw [← h2]
                refine ⟨rfl, rfl, rfl, rfl, rfl, rfl, ⟨d2, es2, hc2⟩, ?_, ?_⟩
                · intro q hq1 hq2
                  exact fsMkdirAt_outside _ rfs fs2 hm q hq1 hq2
                · intro q d es hq
                  exact fsMkdirAt_dirPres _ rfs fs2 hm q d es hq
  | none =>
    cases dry with
    | true => simp [set_remotelocation, remoteChdir, hL0] at h
    | false =>
      cases make with
      | false => simp [set_remotelocation, remoteChdir, hL0] at h
      | true =>
        cases hm : fsMkdirAt rfs (resolveRef rcwd dir) with
        | none =>
          simp [set_remotelocation, remoteChdir, hL0, new_directoryitem, hm] at h
        | some fs2 =>
          cases hc2 : fsLookup fs2 (resolveRef rcwd dir) with
          | none =>
            simp [set_remotelocation, remoteChdir, hL0, new_directoryitem, hm,
              set_remotelocation_retry, hc2] at h
          | some m =>
            cases m with
            | file s2 =>
              simp [set_remotelocation, remoteChdir, hL0, new_directoryitem, hm,
                set_remotelocation_retry, hc2] at h
            | dir d2 es2 =>
              have hval : set_remotelocation P ⟨lfs, lcwd, rfs, rcwd, false, skip⟩ dir true =
                  RLRes.ok rcwd ⟨lfs, lcwd, fs2, resolveRef rcwd dir, false, skip⟩
                    [Effect.mkdirRemote (resolveRef rcwd dir)] := by
                simp [set_remotelocation, remoteChdir, hL0, new_directoryitem, hm,
                  set_remotelocation_retry, hc2]
              rw [hval] at h
              injection h with h1 h2 h3
              subst h1
              rw [← h2]
              refine ⟨rfl, rfl, rfl, rfl, rfl, rfl, ⟨d2, es2, hc2⟩, ?_, ?_⟩
              · intro q hq1 hq2
                exact fsMkdirAt_outside _ rfs fs2 hm q hq1 hq2
              · intro q d es hq
                exact fsMkdirAt_dirPres _ rfs fs2 hm q d es hq

/-- The remote path that an `upload P excl n w file` call owns: the current
remote directory for the `'.'` frame, its `file` child otherwise. -/
def utarget (w : World) (file : String) : List String :=
  if file = "." then w.remoteCwd else w.remoteCwd ++ [file]

/-- Characterization of the successful descent `set_location(dir=file,
make=True)` into a named child that exists locally as a directory, with
dry-run off: both sides enter the child, the local tree is untouched, the
remote child exists as a directory afterwards, and remote changes are
confined to the child path. -/
theorem set_location_child_ok_changes (P : ConnInfo) (w : World) (name : String)
    (a b : List String) (w1 : World) (effs : List Effect)
    (dl : Nat) (el : List (String × FSNode))
    (hL : fsLookup w.localFS (w.localCwd ++ [name]) = some (FSNode.dir dl el))
    (h : set_location P w (PathRef.child name) none true = LocRes.ok a b w1 effs) :
    a = w.localCwd ∧ b = w.remoteCwd ∧
    w1.localFS = w.localFS ∧ w1.localCwd = w.localCwd ++ [name] ∧
    w1.dry_run = w.dry_run ∧ w1.skip_download = w.skip_download ∧
    w1.remoteCwd = w.remoteCwd ++ [name] ∧
    (∃ d es, fsLookup w1.remoteFS (w.remoteCwd ++ [name]) = some (FSNode.dir d es)) ∧
    (∀ q, ¬ ((w.remoteCwd ++ [name]) <+: q) → ¬ (q <+: (w.remoteCwd ++ [name])) →
      fsLookup w1.remoteFS q = fsLookup w.remoteFS q) ∧
    (∀ q d es, fsLookup w.remoteFS q = some (FSNode.dir d es) →
      ∃ es2, fsLookup w1.remoteFS q = some (FSNode.dir d es2)) := by
  have hch : localChdir w (PathRef.child name) =
      Except.ok { w with localCwd := w.localCwd ++ [name] } := by
    simp [localChdir, resolveRef, hL]
  simp only [set_location, hch] at h
  cases hsr : set_remotelocation P { w with localCwd := w.localCwd ++ [name] }
      (PathRef.child name) true with
  | err e w2 effs2 => simp [hsr] at h
  | ok rlast w2 effs2 =>
    simp only [hsr, List.nil_append] at h
    injection h with h1 h2 h3 h4
    subst h1
    subst h2
    obtain ⟨ha, hlfs, hlcwd, hdry, hskip, hrcwd, hex, hout, hdp⟩ :=
      set_remotelocation_ok_changes P _ (PathRef.child name) true rlast w2 effs2 hsr
    simp only [resolveRef] at ha hlfs hlcwd hdry hskip hrcwd hex hout hdp
    rw [← h3]
    exact ⟨rfl, ha, hlfs, hlcwd, hdry, hskip, hrcwd, hex, hout, hdp⟩

/-- When both the local child and the remote child already exist as
directories, the descent `set_location(dir=name, make=True)` simply enters
them, emitting nothing. -/
theorem set_location_descent_value (P : ConnInfo) (w : World) (name : String)
    (dl : Nat) (el : List (String × FSNode)) (dr : Nat) (er : List (String × FSNode))
    (hL : fsLookup w.localFS (w.localCwd ++ [name]) = some (FSNode.dir dl el))
    (hR : fsLookup w.remoteFS (w.remoteCwd ++ [name]) = some (FSNode.dir dr er)) :
    set_location P w (PathRef.child name) none true =
      LocRes.ok w.localCwd w.remoteCwd
        { w with
            localCwd := w.localCwd ++ [name]
            remoteCwd := w.remoteCwd ++ [name] } [] := by
  simp [set_location, localChdir, resolveRef, set_remotelocation, remoteChdir, hL, hR]

/-- When both absolute targets exist as directories, the restoring
`set_location(dir=lpwd, remote=rpwd, make=False)` simply enters them,
emitting nothing. -/
theorem set_location_restore_value (P : ConnInfo) (w : World) (p q : List String)
    (dl : Nat) (el : List (String × FSNode)) (dr : Nat) (er : List (String × FSNode))
    (hL : fsLookup w.localFS p = some (FSNode.dir dl el))
    (hR : fsLookup w.remoteFS q = some (FSNode.dir dr er)) :
    set_location P w (PathRef.abs p) (some (PathRef.abs q)) false =
      LocRes.ok w.localCwd w.remoteCwd
        { w with
            localCwd := p
            remoteCwd := q } [] := by
  simp [set_location, localChdir, resolveRef, set_remotelocation, remoteChdir, hL, hR]

theorem get_file_size_some (w : World) (f : String) (s : Nat)
    (h : get_file_size w f = some s) :
    fsLookup w.remoteFS (w.remoteCwd ++ [f]) = some (FSNode.file s) := by
  cases hL : fsLookup w.remoteFS (w.remoteCwd ++ [f]) with
  | none => simp [get_file_size, hL] at h
  | some n =>
    cases n with
    | file s2 =>
      have : get_file_size w f = some s2 := by simp [get_file_size, hL]
      rw [this] at h
      injection h with h2
      rw [h2]
    | dir d es => simp [get_file_size, hL] at h

/-- The induction bundle for `upload` with dry-run off and a well-formed
local tree: (a) only the remote tree changes; (b) remote lookups away from
the owned target path are untouched; (c) existing remote directories
survive; (d) after a directory frame the owned child path holds a
directory; (e) re-running the same call from any world that agrees with the
final remote tree under the owned path (and matches on the other fields) is
a success that changes nothing and performs no filesystem effect. -/
def UploadMain (P : ConnInfo) (excl : String → Bool) (n : Nat) : Prop :=
  ∀ (w : World) (file : String) (w1 : World) (tr1 : Trace),
    FSWf w.localFS → w.dry_run = false →
    upload P excl n w file = Res.ok w1 tr1 →
    (w1.localFS = w.localFS ∧ w1.localCwd = w.localCwd ∧ w1.remoteCwd = w.remoteCwd ∧
      w1.dry_run = false ∧ w1.skip_download = w.skip_download) ∧
    (∀ q, ¬ (utarget w file <+: q) → ¬ (q <+: utarget w file) →
      fsLookup w1.remoteFS q = fsLookup w.remoteFS q) ∧
    (∀ q d es, fsLookup w.remoteFS q = some (FSNode.dir d es) →
      ∃ es2, fsLookup w1.remoteFS q = some (FSNode.dir d es2)) ∧
    (file ≠ "." → os_path_isfile w file = false → os_path_isdir w file = true →
      ∃ d es, fsLookup w1.remoteFS (w.remoteCwd ++ [file]) = some (FSNode.dir d es)) ∧
    (os_path_isfile w file = false →
      ∀ w2, w2.localFS = w.localFS → w2.localCwd = w.localCwd → w2.remoteCwd = w.remoteCwd →
        w2.dry_run = false → w2.skip_download = w.skip_download →
        (∀ q, utarget w file <+: q → fsLookup w2.remoteFS q = fsLookup w1.remoteFS q) →
        ∃ tr2, upload P excl n w2 file = Res.ok w2 tr2 ∧ tr2.effects = [])

/-- One-child analogue of the upload induction bundle, for a successful
`uploadChildStep`. -/
theorem uploadChildStep_main (P : ConnInfo) (excl : String → Bool) (n : Nat)
    (hrec : UploadMain P excl n)
    (w : World) (f : String) (wmid : World) (tr1 : Trace)
    (hwf : FSWf w.localFS) (hdry : w.dry_run = false) (hf : f ≠ ".")
    (hstep : uploadChildStep (fun w2 f2 => upload P excl n w2 f2) excl w f =
      Res.ok wmid tr1) :
    (wmid.localFS = w.localFS ∧ wmid.localCwd = w.localCwd ∧
      wmid.remoteCwd = w.remoteCwd ∧ wmid.dry_run = false ∧
      wmid.skip_download = w.skip_download) ∧
    (∀ q, ¬ ((w.remoteCwd ++ [f]) <+: q) → ¬ (q <+: (w.remoteCwd ++ [f])) →
      fsLookup wmid.remoteFS q = fsLookup w.remoteFS q) ∧
    (∀ q d es, fsLookup w.remoteFS q = some (FSNode.dir d es) →
      ∃ es2, fsLookup wmid.remoteFS q = some (FSNode.dir d es2)) ∧
    (∀ w2, w2.localFS = w.localFS → w2.localCwd = w.localCwd → w2.remoteCwd = w.remoteCwd →
      w2.dry_run = false → w2.skip_download = w.skip_download →
      (∀ q, (w.remoteCwd ++ [f]) <+: q →
        fsLookup w2.remoteFS q = fsLookup wmid.remoteFS q) →
      ∃ tr2, uploadChildStep (fun w3 f3 => upload P excl n w3 f3) excl w2 f =
        Res.ok w2 tr2 ∧ tr2.effects = []) := by
  cases hex : excl f with
  | true =>
    have hval : uploadChildStep (fun w2 f2 => upload P excl n w2 f2) excl w f =
        Res.ok w (Trace.ofEvent 2 (Event.excludedEv f)) := by
      simp [uploadChildStep, hex]
    rw [hval] at hstep
    injection hstep with hw htr
    subst hw
    refine ⟨⟨rfl, rfl, rfl, hdry, rfl⟩, fun q _ _ => rfl, fun q d es hq => ⟨es, hq⟩, ?_⟩
    intro w2 h1 h2 h3 h4 h5 hagree
    exact ⟨Trace.ofEvent 2 (Event.excludedEv f), by simp [uploadChildStep, hex], rfl⟩
  | false =>
    cases hstat : os_stat_size w f with
    | none =>
      have hval : uploadChildStep (fun w2 f2 => upload P excl n w2 f2) excl w f =
          Res.err Err.osError w Trace.nil := by
        simp [uploadChildStep, hex, hstat]
      rw [hval] at hstep
      exact Res.noConfusion hstep
    | some lsz =>
      by_cases hguard : get_file_size w f = some lsz
      · -- size already matches: the child is skipped
        have hval : uploadChildStep (fun w2 f2 => upload P excl n w2 f2) excl w f =
            Res.ok w (Trace.ofEvent 1 (Event.uploadedEv f)) := by
          simp [uploadChildStep, hex, hstat, hguard]
        rw [hval] at hstep
        injection hstep with hw htr
        subst hw
        have htf : fsLookup w.remoteFS (w.remoteCwd ++ [f]) = some (FSNode.file lsz) :=
          get_file_size_some w f lsz hguard
        refine ⟨⟨rfl, rfl, rfl, hdry, rfl⟩, fun q _ _ => rfl, fun q d es hq => ⟨es, hq⟩, ?_⟩
        intro w2 h1 h2 h3 h4 h5 hagree
        have hstat2 : os_stat_size w2 f = some lsz := by
          rw [show os_stat_size w2 f = os_stat_size w f from by simp [os_stat_size, h1, h2]]
          exact hstat
        have hg2 : get_file_size w2 f = some lsz := by
          have hlq : fsLookup w2.remoteFS (w.remoteCwd ++ [f]) =
              some (FSNode.file lsz) := by
            rw [hagree (w.remoteCwd ++ [f]) (List.prefix_refl _)]
            exact htf
          simp [get_file_size, h3, hlq]
        exact ⟨Trace.ofEvent 1 (Event.uploadedEv f),
          by simp [uploadChildStep, hex, hstat2, hg2], rfl⟩
      · -- sizes differ: the mirror recurses
        cases hcall : upload P excl n w f with
        | err e wc trc =>
          have hval : uploadChildStep (fun w2 f2 => upload P excl n w2 f2) excl w f =
              Res.err e wc ((Trace.ofCall f).app trc) := by
            simp [uploadChildStep, hex, hstat, hguard, hcall]
          rw [hval] at hstep
          exact Res.noConfusion hstep
        | ok wch trch =>
          have hval : uploadChildStep (fun w2 f2 => upload P excl n w2 f2) excl w f =
              Res.ok wch (((Trace.ofCall f).app trch).app
                (Trace.ofEvent 1 (Event.uploadedEv f))) := by
            simp [uploadChildStep, hex, hstat, hguard, hcall]
          rw [hval] at hstep
          injection hstep with hw htr
          subst hw
          obtain ⟨CBA, CBB, CBD, CBE, CBC⟩ := hrec w f wch trch hwf hdry hcall
          have hut : utarget w f = w.remoteCwd ++ [f] := by simp [utarget, hf]
          rw [hut] at CBB CBC
          cases hLn : fsLookup w.localFS (w.localCwd ++ [f]) with
          | none =>
            have : os_stat_size w f = none := by simp [os_stat_size, hLn]
            rw [this] at hstat
            exact Option.noConfusion hstat
          | some node =>
            cases node with
            | file sz =>
              have hsz : sz = lsz := by
                have hv : os_stat_size w f = some sz := by simp [os_stat_size, hLn]
                rw [hv] at hstat
                injection hstat
              subst hsz
              have hisf : os_path_isfile w f = true := by simp [os_path_isfile, hLn]
              cases n with
              | zero => simp [upload] at hcall
              | succ m =>
                cases hst : fsStorAt w.remoteFS (w.remoteCwd ++ [f]) sz with
                | none =>
                  have hupf : upload_file w f = StepRes.err Err.errorPerm w [] := by
                    simp [upload_file, hdry, hLn, hst]
                  simp [upload, hisf, hupf] at hcall
                | some rfs2 =>
                  have hupf : upload_file w f =
                      StepRes.ok { w with remoteFS := rfs2 }
                        [Effect.stor (w.remoteCwd ++ [f])] := by
                    simp [upload_file, hdry, hLn, hst]
                  simp only [upload, hisf, if_true, hupf] at hcall
                  injection hcall with hw2 htr2
                  have hlook : fsLookup wch.remoteFS (w.remoteCwd ++ [f]) =
                      some (FSNode.file sz) := by
                    rw [← hw2]
                    exact fsStorAt_lookup_self_app w.remoteCwd f w.remoteFS rfs2 sz hst
                  refine ⟨CBA, CBB, CBD, ?_⟩
                  intro w2 h1 h2 h3 h4 h5 hagree
                  have hstat2 : os_stat_size w2 f = some sz := by
                    rw [show os_stat_size w2 f = os_stat_size w f from by
                      simp [os_stat_size, h1, h2]]
                    exact hstat
                  have hg2 : get_file_size w2 f = some sz := by
                    have hlq : fsLookup w2.remoteFS (w.remoteCwd ++ [f]) =
                        some (FSNode.file sz) := by
                      rw [hagree (w.remoteCwd ++ [f]) (List.prefix_refl _)]
                      exact hlook
                    simp [get_file_size, h3, hlq]
                  exact ⟨Trace.ofEvent 1 (Event.uploadedEv f),
                    by simp [uploadChildStep, hex, hstat2, hg2], rfl⟩
            | dir dsz des =>
              have hisf : os_path_isfile w f = false := by simp [os_path_isfile, hLn]
              have hisd : os_path_isdir w f = true := by simp [os_path_isdir, hLn]
              obtain ⟨de, ese, hE⟩ := CBE hf hisf hisd
              refine ⟨CBA, CBB, CBD, ?_⟩
              intro w2 h1 h2 h3 h4 h5 hagree
              have hstat2 : os_stat_size w2 f = some lsz := by
                rw [show os_stat_size w2 f = os_stat_size w f from by
                  simp [os_stat_size, h1, h2]]
                exact hstat
              have hg2 : get_file_size w2 f = none := by
                have hlq : fsLookup w2.remoteFS (w.remoteCwd ++ [f]) =
                    some (FSNode.dir de ese) := by
                  rw [hagree (w.remoteCwd ++ [f]) (List.prefix_refl _)]
                  exact hE
                simp [get_file_size, h3, hlq]
              have hgne : ¬ (get_file_size w2 f = some lsz) := by simp [hg2]
              obtain ⟨trc2, hc2, hceff⟩ := CBC hisf w2 h1 h2 h3 h4 h5 hagree
              refine ⟨((Trace.ofCall f).app trc2).app
                (Trace.ofEvent 1 (Event.uploadedEv f)),
                by simp [uploadChildStep, hex, hstat2, hgne, hc2], ?_⟩
              simp [Trace.app, Trace.ofCall, Trace.ofEvent, hceff]

/-- Loop analogue of the upload induction bundle, for a successful
`uploadLoop` over pairwise-distinct child names none of which is `.`. -/
theorem uploadLoop_main (P : ConnInfo) (excl : String → Bool) (n : Nat)
    (hrec : UploadMain P excl n) :
    ∀ (l : List String) (w wend : World) (trend : Trace),
      FSWf w.localFS → w.dry_run = false →
      l.Nodup → (∀ f ∈ l, f ≠ ".") →
      uploadLoop (fun w2 f2 => upload P excl n w2 f2) excl l w = Res.ok wend trend →
      (wend.localFS = w.localFS ∧ wend.localCwd = w.localCwd ∧
        wend.remoteCwd = w.remoteCwd ∧ wend.dry_run = false ∧
        wend.skip_download = w.skip_download) ∧
      (∀ q, (∀ f ∈ l, ¬ ((w.remoteCwd ++ [f]) <+: q) ∧ ¬ (q <+: (w.remoteCwd ++ [f]))) →
        fsLookup wend.remoteFS q = fsLookup w.remoteFS q) ∧
      (∀ q d es, fsLookup w.remoteFS q = some (FSNode.dir d es) →
        ∃ es2, fsLookup wend.remoteFS q = some (FSNode.dir d es2)) ∧
      (∀ w2, w2.localFS = w.localFS → w2.localCwd = w.localCwd →
        w2.remoteCwd = w.remoteCwd → w2.dry_run = false →
        w2.skip_download = w.skip_download →
        (∀ q f, f ∈ l → (w.remoteCwd ++ [f]) <+: q →
          fsLookup w2.remoteFS q = fsLookup wend.remoteFS q) →
        ∃ tr2, uploadLoop (fun w3 f3 => upload P excl n w3 f3) excl l w2 =
          Res.ok w2 tr2 ∧ tr2.effects = []) := by
  intro l
  induction l with
  | nil =>
    intro w wend trend hwf hdry hnd hdot h
    simp only [uploadLoop] at h
    injection h with hw htr
    subst hw
    refine ⟨⟨rfl, rfl, rfl, hdry, rfl⟩, fun q _ => rfl, fun q d es hq => ⟨es, hq⟩, ?_⟩
    intro w2 _ _ _ _ _ _
    exact ⟨Trace.nil, by simp [uploadLoop], rfl⟩
  | cons f fs ih =>
    intro w wend trend hwf hdry hnd hdot h
    simp only [uploadLoop] at h
    cases hstep : uploadChildStep (fun w2 f2 => upload P excl n w2 f2) excl w f with
    | err e w1 tr1 => simp [hstep] at h
    | ok wmid tr1 =>
      simp only [hstep] at h
      cases hrest : uploadLoop (fun w2 f2 => upload P excl n w2 f2) excl fs wmid with
      | err e w2 tr2 => simp [hrest] at h
      | ok wend2 tr2 =>
        simp only [hrest] at h
        injection h with hw htr
        subst hw
        have hfne : f ≠ "." := hdot f (List.mem_cons_self _ _)
        obtain ⟨SA, SB, SD, SC⟩ :=
          uploadChildStep_main P excl n hrec w f wmid tr1 hwf hdry hfne hstep
        obtain ⟨SA1, SA2, SA3, SA4, SA5⟩ := SA
        have hwfmid : FSWf wmid.localFS := by rw [SA1]; exact hwf
        have hfnotin : f ∉ fs := (List.nodup_cons.mp hnd).1
        have hndfs : fs.Nodup := (List.nodup_cons.mp hnd).2
        obtain ⟨RA, RB, RD, RC⟩ := ih wmid wend2 tr2 hwfmid SA4 hndfs
          (fun g hg => hdot g (List.mem_cons_of_mem _ hg)) hrest
        rw [SA3] at RB RC
        obtain ⟨RA1, RA2, RA3, RA4, RA5⟩ := RA
        refine ⟨⟨RA1.trans SA1, RA2.trans SA2, RA3.trans SA3, RA4, RA5.trans SA5⟩,
          ?_, ?_, ?_⟩
        · intro q hq
          have h1 := SB q (hq f (List.mem_cons_self _ _)).1 (hq f (List.mem_cons_self _ _)).2
          have h2 := RB q (fun g hg => hq g (List.mem_cons_of_mem _ hg))
          exact h2.trans h1
        · intro q d es hq
          obtain ⟨es2, h2⟩ := SD q d es hq
          exact RD q d es2 h2
        · intro w2 h1 h2 h3 h4 h5 hagree
          have hbridge : ∀ q, (w.remoteCwd ++ [f]) <+: q →
              fsLookup w2.remoteFS q = fsLookup wmid.remoteFS q := by
            intro q hpre
            have hinc : ∀ g ∈ fs,
                ¬ ((w.remoteCwd ++ [g]) <+: q) ∧ ¬ (q <+: (w.remoteCwd ++ [g])) := by
              intro g hg
              exact prefix_snoc_incomp w.remoteCwd f g
                (fun heq => hfnotin (heq.symm ▸ hg)) q hpre
            rw [hagree q f (List.mem_cons_self _ _) hpre]
            exact RB q hinc
          obtain ⟨trs2, hs2, hse⟩ := SC w2 h1 h2 h3 h4 h5 hbridge
          obtain ⟨trr2, hr2, hre⟩ := RC w2 (h1.trans SA1.symm) (h2.trans SA2.symm)
            h3 h4 (h5.trans SA5.symm)
            (fun q g hg hpre => hagree q g (List.mem_cons_of_mem _ hg) hpre)
          refine ⟨trs2.app trr2, ?_, ?_⟩
          · simp only [uploadLoop, hs2, hr2]
          · simp [Trace.app, hse, hre]

theorem upload_main (P : ConnInfo) (excl : String → Bool) :
    ∀ n, UploadMain P excl n := by
  intro n
  induction n with
  | zero =>
    intro w file w1 tr1 hwf hdry h
    simp [upload] at h
  | succ n ih =>
    intro w file w1 tr1 hwf hdry h
    by_cases hisf : os_path_isfile w file = true
    · -- plain local file: a single STOR to the owned path
      have hfne : file ≠ "." := by
        intro hfe
        rw [hfe, os_path_isfile_dot w hwf] at hisf
        exact Bool.noConfusion hisf
      have hutf : utarget w file = w.remoteCwd ++ [file] := by simp [utarget, hfne]
      cases hLn : fsLookup w.localFS (w.localCwd ++ [file]) with
      | none => simp [os_path_isfile, hLn] at hisf
      | some node =>
        cases node with
        | dir dsz des => simp [os_path_isfile, hLn] at hisf
        | file sz =>
          cases hst : fsStorAt w.remoteFS (w.remoteCwd ++ [file]) sz with
          | none =>
            have hupf : upload_file w file = StepRes.err Err.errorPerm w [] := by
              simp [upload_file, hdry, hLn, hst]
            simp [upload, hisf, hupf] at h
          | some rfs2 =>
            have hupf : upload_file w file =
                StepRes.ok { w with remoteFS := rfs2 }
                  [Effect.stor (w.remoteCwd ++ [file])] := by
              simp [upload_file, hdry, hLn, hst]
            have hval : upload P excl (Nat.succ n) w file =
                Res.ok { w with remoteFS := rfs2 }
                  (Trace.ofEffs [Effect.stor (w.remoteCwd ++ [file])]) := by
              simp [upload, hisf, hupf]
            rw [hval] at h
            injection h with hw htr
            subst hw
            refine ⟨⟨rfl, rfl, rfl, hdry, rfl⟩, ?_, ?_, ?_, ?_⟩
            · rw [hutf]
              intro q hq1 hq2
              exact fsStorAt_outside _ w.remoteFS sz rfs2 hst q hq1 hq2
            · intro q d es hq
              exact fsStorAt_dirPres _ w.remoteFS sz rfs2 hst q d es hq
            · intro _ hcontra _
              rw [hisf] at hcontra
              exact Bool.noConfusion hcontra
            · intro hcontra
              rw [hisf] at hcontra
              exact Bool.noConfusion hcontra
    · have hisf' : os_path_isfile w file = false := by
        revert hisf
        cases os_path_isfile w file <;> simp
      by_cases hdot : file = "."
      · -- the '.' frame: walk the current pair of directories in place
        subst hdot
        cases hls : os_listdir w with
        | error e =>
          have hval : upload P excl (Nat.succ n) w "." = Res.err e w Trace.nil := by
            simp [upload, hisf', hls]
          rw [hval] at h
          exact Res.noConfusion h
        | ok names =>
          cases hloop : uploadLoop (fun w2 f2 => upload P excl n w2 f2) excl names w with
          | err e w2 tr2 =>
            have hval : upload P excl (Nat.succ n) w "." =
                Res.err e w2 (Trace.nil.app tr2) := by
              simp [upload, hisf', hls, hloop]
            rw [hval] at h
            exact Res.noConfusion h
          | ok wend trl =>
            have hval : upload P excl (Nat.succ n) w "." =
                Res.ok wend (Trace.nil.app trl) := by
              simp [upload, hisf', hls, hloop]
            rw [hval] at h
            injection h with hw htr
            subst hw
            cases hLd : fsLookup w.localFS w.localCwd with
            | none => simp [os_listdir, hLd] at hls
            | some node =>
              cases node with
              | file s => simp [os_listdir, hLd] at hls
              | dir d0 es0 =>
                have hnames : es0.map Prod.fst = names := by
                  have hv : os_listdir w = Except.ok (es0.map Prod.fst) := by
                    simp [os_listdir, hLd]
                  rw [hv] at hls
                  injection hls
                obtain ⟨hnd0, hdots0⟩ := FSWf_names w.localFS w.localCwd d0 es0 hwf hLd
                rw [hnames] at hnd0 hdots0
                obtain ⟨LA, LB, LD, LC⟩ :=
                  uploadLoop_main P excl n ih names w wend trl hwf hdry hnd0 hdots0 hloop
                have hutd : utarget w "." = w.remoteCwd := by simp [utarget]
                refine ⟨LA, ?_, LD, ?_, ?_⟩
                · rw [hutd]
                  intro q hq1 hq2
                  exact LB q (fun g _ => incomp_snoc w.remoteCwd q g hq1 hq2)
                · intro hne
                  exact absurd rfl hne
                · rw [hutd]
                  intro hisf2 w2 h1 h2 h3 h4 h5 hagree
                  have hLd2 : fsLookup w2.localFS w2.localCwd =
                      some (FSNode.dir d0 es0) := by
                    rw [h1, h2]; exact hLd
                  have hls2 : os_listdir w2 = Except.ok names := by
                    rw [show os_listdir w2 = Except.ok (es0.map Prod.fst) from by
                      simp [os_listdir, hLd2], hnames]
                  obtain ⟨trl2, hloop2, hle⟩ := LC w2 h1 h2 h3 h4 h5
                    (fun q g hg hpre => hagree q ((List.prefix_append _ _).trans hpre))
                  have hisf2' : os_path_isfile w2 "." = false := by
                    rw [show os_path_isfile w2 "." = os_path_isfile w "." from by
                      simp [os_path_isfile, h1, h2]]
                    exact hisf2
                  refine ⟨Trace.nil.app trl2, ?_, ?_⟩
                  · simp [upload, hisf2', hls2, hloop2]
                  · simp [Trace.app, Trace.nil, hle]
      · have hut : utarget w file = w.remoteCwd ++ [file] := by simp [utarget, hdot]
        by_cases hisd : os_path_isdir w file = true
        · -- a named local directory: enter, walk, restore
          cases hLn : fsLookup w.localFS (w.localCwd ++ [file]) with
          | none => simp [os_path_isdir, hLn] at hisd
          | some node =>
            cases node with
            | file s => simp [os_path_isdir, hLn] at hisd
            | dir dl el =>
              cases hdesc : set_location P w (PathRef.child file) none true with
              | err e wd effs =>
                cases e <;> simp [upload, hisf', hdot, hisd, hdesc, hdry] at h
              | ok lp rp wd effs =>
                obtain ⟨hlp, hrp, hdlfs, hdlcwd, hddry, hdskip, hdrcwd, hdEx, hdout, hddp⟩ :=
                  set_location_child_ok_changes P w file lp rp wd effs dl el hLn hdesc
                obtain ⟨dr0, er0, hdR⟩ := hdEx
                subst hlp
                subst hrp
                have hddry' : wd.dry_run = false := by rw [hddry]; exact hdry
                cases hls : os_listdir wd with
                | error e =>
                  have hval : upload P excl (Nat.succ n) w file = Res.err e wd
                      ((Trace.ofEffs effs).app
                        (Trace.ofEvent 2 (Event.chdirEv wd.localCwd wd.remoteCwd))) := by
                    simp [upload, hisf', hdot, hisd, hdesc, hls]
                  rw [hval] at h
                  exact Res.noConfusion h
                | ok names =>
                  have hLdw : fsLookup wd.localFS wd.localCwd =
                      some (FSNode.dir dl el) := by
                    rw [hdlfs, hdlcwd]; exact hLn
                  have hnames : el.map Prod.fst = names := by
                    have hv : os_listdir wd = Except.ok (el.map Prod.fst) := by
                      simp [os_listdir, hLdw]
                    rw [hv] at hls
                    injection hls
                  obtain ⟨hnd0, hdots0⟩ :=
                    FSWf_names w.localFS (w.localCwd ++ [file]) dl el hwf hLn
                  rw [hnames] at hnd0 hdots0
                  have hwfd : FSWf wd.localFS := by rw [hdlfs]; exact hwf
                  cases hloop : uploadLoop (fun w2 f2 => upload P excl n w2 f2)
                      excl names wd with
                  | err e w2 tr2 =>
                    have hval : upload P excl (Nat.succ n) w file = Res.err e w2
                        (((Trace.ofEffs effs).app
                          (Trace.ofEvent 2 (Event.chdirEv wd.localCwd wd.remoteCwd))).app
                            tr2) := by
                      simp [upload, hisf', hdot, hisd, hdesc, hls, hloop]
                    rw [hval] at h
                    exact Res.noConfusion h
                  | ok wend trl =>
                    obtain ⟨LA, LB, LD, LC⟩ := uploadLoop_main P excl n ih names wd
                      wend trl hwfd hddry' hnd0 hdots0 hloop
                    obtain ⟨LA1, LA2, LA3, LA4, LA5⟩ := LA
                    rw [hdrcwd] at LA3 LB LC
                    rw [hdlfs] at LA1
                    rw [hdlcwd] at LA2
                    cases hasc : set_location P wend (PathRef.abs w.localCwd)
                        (some (PathRef.abs w.remoteCwd)) false with
                    | err e w3 effs3 =>
                      have hval : upload P excl (Nat.succ n) w file = Res.err e w3
                          (((Trace.ofEffs effs).app
                            (Trace.ofEvent 2 (Event.chdirEv wd.localCwd wd.remoteCwd))).app
                              (trl.app
                                ((Trace.ofEvent 2
                                  (Event.chdirEv w.localCwd w.remoteCwd)).app
                                    (Trace.ofEffs effs3)))) := by
                        simp [upload, hisf', hdot, hisd, hdesc, hls, hloop, hasc]
                      rw [hval] at h
                      exact Res.noConfusion h
                    | ok la ra w3 effs3 =>
                      obtain ⟨hla, hra, hafs, harfs, hadry, haskip, harcwd, haeffs, halc⟩ :=
                        set_location_restore_ok P wend w.localCwd w.remoteCwd
                          la ra w3 effs3 hasc
                      have halcwd : w3.localCwd = w.localCwd := by
                        cases halc with
                        | inl hx => exact hx
                        | inr hx =>
                          rw [LA4] at hx
                          exact Bool.noConfusion hx.1
                      have hval : upload P excl (Nat.succ n) w file = Res.ok w3
                          (((Trace.ofEffs effs).app
                            (Trace.ofEvent 2 (Event.chdirEv wd.localCwd wd.remoteCwd))).app
                              (trl.app
                                ((Trace.ofEvent 2
                                  (Event.chdirEv w.localCwd w.remoteCwd)).app
                                    (Trace.ofEffs effs3)))) := by
                        simp [upload, hisf', hdot, hisd, hdesc, hls, hloop, hasc]
                      rw [hval] at h
                      injection h with hw htr
                      subst hw
                      obtain ⟨er1, hE1⟩ := LD (w.remoteCwd ++ [file]) dr0 er0 hdR
                      have hEw3 : fsLookup w3.remoteFS (w.remoteCwd ++ [file]) =
                          some (FSNode.dir dr0 er1) := by
                        rw [harfs]; exact hE1
                      refine ⟨⟨hafs.trans LA1, halcwd, harcwd, ?_, ?_⟩, ?_, ?_, ?_, ?_⟩
                      · rw [hadry]; exact LA4
                      · rw [haskip, LA5]; exact hdskip
                      · rw [hut]
                        intro q hq1 hq2
                        rw [harfs]
                        rw [LB q (fun g _ => incomp_snoc (w.remoteCwd ++ [file]) q g hq1 hq2)]
                        exact hdout q hq1 hq2
                      · intro q d es hq
                        obtain ⟨es2, h2⟩ := hddp q d es hq
                        obtain ⟨es3, h3⟩ := LD q d es2 h2
                        exact ⟨es3, by rw [harfs]; exact h3⟩
                      · intro _ _ _
                        exact ⟨dr0, er1, hEw3⟩
                      · rw [hut]
                        intro hisf2 w2 h1 h2 h3 h4 h5 hagree
                        have hR2 : fsLookup w2.remoteFS (w2.remoteCwd ++ [file]) =
                            some (FSNode.dir dr0 er1) := by
                          rw [h3, hagree (w.remoteCwd ++ [file]) (List.prefix_refl _)]
                          exact hEw3
                        have hL2 : fsLookup w2.localFS (w2.localCwd ++ [file]) =
                            some (FSNode.dir dl el) := by
                          rw [h1, h2]; exact hLn
                        have hdesc2 := set_location_descent_value P w2 file dl el dr0 er1 hL2 hR2
                        have hls2 : os_listdir
                            { w2 with
                                localCwd := w2.localCwd ++ [file]
                                remoteCwd := w2.remoteCwd ++ [file] } =
                            Except.ok names := by
                          simp [os_listdir, hL2, hnames]
                        obtain ⟨trl2, hloop2, hle⟩ := LC
                          { w2 with
                              localCwd := w2.localCwd ++ [file]
                              remoteCwd := w2.remoteCwd ++ [file] }
                          (h1.trans hdlfs.symm)
                          (by simp only; rw [h2, hdlcwd])
                          (by simp only; rw [h3])
                          h4 (h5.trans hdskip.symm)
                          (fun q g hg hpre => by
                            simp only
                            rw [hagree q ((List.prefix_append _ _).trans hpre), harfs])
                        obtain ⟨dp, esp, hpar, hpe⟩ :=
                          fsLookup_parent w2.localCwd file w2.localFS _ hL2
                        obtain ⟨drp, esrp, hrpar, hrpe⟩ :=
                          fsLookup_parent w2.remoteCwd file w2.remoteFS _ hR2
                        have hasc2 := set_location_restore_value P
                          { w2 with
                              localCwd := w2.localCwd ++ [file]
                              remoteCwd := w2.remoteCwd ++ [file] }
                          w2.localCwd w2.remoteCwd dp esp drp esrp hpar hrpar
                        have hisf2' : os_path_isfile w2 file = false := by
                          rw [show os_path_isfile w2 file = os_path_isfile w file from by
                            simp [os_path_isfile, h1, h2]]
                          exact hisf'
                        have hisd2 : os_path_isdir w2 file = true := by
                          simp [os_path_isdir, hL2]
                        refine ⟨((Trace.ofEffs []).app
                            (Trace.ofEvent 2 (Event.chdirEv (w2.localCwd ++ [file])
                              (w2.remoteCwd ++ [file])))).app
                            (trl2.app
                              ((Trace.ofEvent 2
                                (Event.chdirEv w2.localCwd w2.remoteCwd)).app
                                  (Trace.ofEffs []))), ?_, ?_⟩
                        · simp [upload, hisf2', hdot, hisd2, hdesc2, hls2, hloop2, hasc2]
                        · simp [Trace.app, Trace.ofEffs, Trace.ofEvent, hle]
        · -- neither a file, nor '.', nor a directory: a silent no-op
          have hisd' : os_path_isdir w file = false := by
            revert hisd
            cases os_path_isdir w file <;> simp
          have hval : upload P excl (Nat.succ n) w file = Res.ok w Trace.nil := by
            simp [upload, hisf', hdot, hisd']
          rw [hval] at h
          injection h with hw htr
          subst hw
          refine ⟨⟨rfl, rfl, rfl, hdry, rfl⟩, fun q _ _ => rfl,
            fun q d es hq => ⟨es, hq⟩, ?_, ?_⟩
          · intro _ _ hcontra
            rw [hisd'] at hcontra
            exact Bool.noConfusion hcontra
          · intro hisf2 w2 h1 h2 h3 h4 h5 hagree
            have hisf2' : os_path_isfile w2 file = false := by
              rw [show os_path_isfile w2 file = os_path_isfile w file from by
                simp [os_path_isfile, h1, h2]]
              exact hisf'
            have hisd2' : os_path_isdir w2 file = false := by
              rw [show os_path_isdir w2 file = os_path_isdir w file from by
                simp [os_path_isdir, h1, h2]]
              exact hisd'
            exact ⟨Trace.nil, by simp [upload, hisf2', hdot, hisd2'], rfl⟩

def c8w : World :=
  ⟨FSNode.dir 0 [("a", FSNode.file 3)], [], FSNode.dir 0 [], [], false, false⟩

def c8w1 : World :=
  ⟨FSNode.dir 0 [("a", FSNode.file 3)], [], FSNode.dir 0 [("a", FSNode.file 3)], [],
    false, false⟩

theorem c8w_wf : FSWf c8w.localFS := by
  refine FSWf.dir 0 _ (by simp) ?_ ?_
  · intro e he
    simp at he
    subst he
    exact ⟨by decide, by decide⟩
  · intro e he
    simp at he
    subst he
    exact FSWf.file 3

/-- C8: running the upload mirror a second time, immediately after a
successful run over a well-formed unchanged local tree, is again successful,
changes nothing, and performs no filesystem effect at all — in particular no
`STOR`, so zero bytes are transferred on the second run. -/
theorem claim_C8 (P : ConnInfo) (excl : String → Bool) (n : Nat) (w w1 : World)
    (tr1 : Trace) (hwf : FSWf w.localFS)
    (h1 : upload P excl n w "." = Res.ok w1 tr1) :
    ∃ tr2, upload P excl n w1 "." = Res.ok w1 tr2 ∧ tr2.effects = [] := by
  cases hdry : w.dry_run with
  | true =>
    obtain ⟨hc1, hc2, hc3, hc4, hc5⟩ := (upload_pres P excl n w ".").1 w1 tr1 h1
    obtain ⟨hf1, hf2⟩ := hc5 hdry
    have heq : w1 = w :=
      World_fields_eq w1 w hf1 hc1 hf2 hc2 hc3 hc4
    subst heq
    refine ⟨tr1, h1, ?_⟩
    have he := (upload_pres P excl n w1 ".").2 hdry
    rw [h1] at he
    exact he
  | false =>
    obtain ⟨MA, MB, MD, ME, MC⟩ := upload_main P excl n w "." w1 tr1 hwf hdry h1
    obtain ⟨MA1, MA2, MA3, MA4, MA5⟩ := MA
    exact MC (os_path_isfile_dot w hwf) w1 MA1 MA2 MA3 MA4 MA5 (fun q _ => rfl)

theorem claim_C8_witness :
    ∃ tr2, upload ⟨"ftp", none, "h"⟩ (fun _ => false) 2 c8w1 "." = Res.ok c8w1 tr2 ∧
      tr2.effects = [] :=
  claim_C8 ⟨"ftp", none, "h"⟩ (fun _ => false) 2 c8w c8w1
    ⟨[(1, Event.uploadedEv "a")], [Effect.stor ["a"]], ["a"]⟩ c8w_wf (by rfl)
